import Mathlib

/-!
# Forensiq — shallow embedding of the detection and scoring pipeline

This file embeds the money-muling detection pipeline of the Forensiq
repository (graph builder, cycle detector, smurfing detector, shell-network
detector, false-positive filter, ring merger, scoring engine, and the
`analyze` orchestration) as executable Lean definitions, and proves
properties of the embedded code.

Modelling conventions:
* JS numbers (amounts, scores) are modelled as `ℚ`; timestamps as `ℤ`
  (milliseconds since the epoch, the value of `Date.getTime()`).
* `Math.round` is `fun q => ⌊q + 1/2⌋` (JS rounds half-up towards `+∞`).
* JS `Map` objects are association lists preserving insertion order:
  `set` on a fresh key appends, `set` on an existing key updates in place.
* JS `Set` objects are duplicate-free lists in first-insertion order.
* Comparisons of the form `Math.sqrt v / m < c` (coefficient-of-variation
  thresholds) are encoded by the equivalent `v < c² · m²` on nonnegative
  values, since square roots are not rational.
* `Date.getHours()` is hour-of-day in a fixed zone (UTC offset zero here);
  every theorem below is insensitive to the choice of zone.
-/

set_option maxHeartbeats 1000000

namespace Forensiq

-- Rational arithmetic is `@[irreducible]` in Batteries; restore the default
-- reducibility inside this development so that concrete runs of the embedded
-- pipeline can be checked by `decide`.
attribute [local semireducible] Rat.add Rat.mul Rat.sub Rat.inv Rat.ofScientific

/-- JS `Math.round`: rounds half-up towards positive infinity. -/
def jsRound (q : ℚ) : ℤ := ⌊q + 1/2⌋

/-- `Math.round(q * 10) / 10` — round to one decimal place. -/
def round1 (q : ℚ) : ℚ := (jsRound (q * 10) : ℚ) / 10

/-- `Math.round(q * 100) / 100` — round to two decimal places. -/
def round2 (q : ℚ) : ℚ := (jsRound (q * 100) : ℚ) / 100

/-- `Math.round(q * 1000) / 1000` — round to three decimal places. -/
def round3 (q : ℚ) : ℚ := (jsRound (q * 1000) : ℚ) / 1000

/-- JS `Set` built by inserting the elements of `l` in order:
the duplicate-free list of first occurrences, in first-insertion order. -/
def jsDedup {α : Type} [DecidableEq α] (l : List α) : List α :=
  l.foldl (fun acc x => if x ∈ acc then acc else acc ++ [x]) []

/-- `Date.getHours()` for a millisecond timestamp, in the fixed deployment
zone (taken here as offset zero); Euclidean division matches the calendar
semantics for instants before the epoch. -/
def jsGetHours (t : ℤ) : ℤ := (t.ediv 3600000).emod 24

/-- Insertion-ordered map update (`Map.set`): update in place if the key is
present, append otherwise. -/
def mapSet {κ α : Type} [DecidableEq κ] (m : List (κ × α)) (k : κ) (v : α) :
    List (κ × α) :=
  match m with
  | [] => [(k, v)]
  | (k0, v0) :: rest =>
      if k0 = k then (k0, v) :: rest else (k0, v0) :: mapSet rest k v

/-- `Map.get`: first value stored under `k`, if any. -/
def mapGet {κ α : Type} [DecidableEq κ] (m : List (κ × α)) (k : κ) : Option α :=
  match m with
  | [] => none
  | (k0, v0) :: rest => if k0 = k then some v0 else mapGet rest k

/-- `Map.has`. -/
def mapHas {κ α : Type} [DecidableEq κ] (m : List (κ × α)) (k : κ) : Bool :=
  (mapGet m k).isSome

/-- Sum of a list of rationals (`reduce((a, b) => a + b, 0)`). -/
def qsum (l : List ℚ) : ℚ := l.foldl (· + ·) 0

/-- Sum of a list of integers. -/
def zsum (l : List ℤ) : ℤ := l.foldl (· + ·) 0

/-- Ascending sort of millisecond timestamps (`sort((a, b) => a - b)`).
JS `Array.sort` with a consistent comparator is a stable sort, and a stable
sort's output is uniquely determined by the total preorder, so the
structurally recursive `List.insertionSort` models it exactly. -/
def sortTs (l : List ℤ) : List ℤ := l.insertionSort (fun a b => a ≤ b)

/-- Lexicographic comparison of character lists by code point (JS compares
strings by code unit; the two agree on the Basic Multilingual Plane). -/
def listLexLt : List Char → List Char → Bool
  | [], [] => false
  | [], _ :: _ => true
  | _ :: _, [] => false
  | x :: xs, y :: ys =>
    if x.toNat < y.toNat then true
    else if y.toNat < x.toNat then false
    else listLexLt xs ys

/-- JS `<` on strings. -/
def strLt (a b : String) : Bool := listLexLt a.data b.data

/-- JS `<=` on strings (total order: `a <= b ↔ ¬ b < a`). -/
def strLe (a b : String) : Bool := ! strLt b a

/-! ## Data model -/

/-- A validated input transaction. `timestamp` is the parsed instant in
milliseconds (parsing/validation is the host's concern per the spec). -/
structure Transaction where
  transaction_id : String
  sender_id : String
  receiver_id : String
  amount : ℚ
  timestamp : ℤ
  deriving Repr, DecidableEq

/-- A forward adjacency edge `{to, amount, timestamp, txId}`. -/
structure FwdEdge where
  dst : String
  amount : ℚ
  timestamp : ℤ
  txId : String
  deriving Repr, DecidableEq

/-- A reverse adjacency edge `{from, amount, timestamp, txId}`. -/
structure RevEdge where
  src : String
  amount : ℚ
  timestamp : ℤ
  txId : String
  deriving Repr, DecidableEq

/-- Per-node metadata computed by the graph builder.

`throughputRatio` is an `Option` so that an absent/undefined JS value can be
distinguished from a number: the source always stores a number here
(`some`), storing `0` when `totalReceived = 0`. -/
structure Meta where
  totalSent : ℚ
  totalReceived : ℚ
  uniqueSenders : ℕ
  uniqueReceivers : ℕ
  txCount : ℕ
  outDegree : ℕ
  inDegree : ℕ
  allTimestamps : List ℤ
  minTimeDeltaMs : Option ℤ
  throughputRatio : Option ℚ
  deriving Repr, DecidableEq

/-- An undirected-view edge record kept in `edges`. -/
structure GEdge where
  source : String
  target : String
  amount : ℚ
  timestamp : ℤ
  txId : String
  deriving Repr, DecidableEq

/-- The graph returned by `GraphBuilder.build`. -/
structure Graph where
  adjacencyList : List (String × List FwdEdge)
  reverseAdjList : List (String × List RevEdge)
  nodeMetadata : List (String × Meta)
  edges : List GEdge
  nodes : List String
  deriving Repr, DecidableEq

/-! ## Graph builder (`src/backend/detection/graphBuilder.js`) -/

/-- Ingest one transaction: append the forward and reverse edges and ensure
both endpoints exist in both adjacency maps. -/
def ingestTx (st : List (String × List FwdEdge) × List (String × List RevEdge) × List GEdge)
    (tx : Transaction) :
    List (String × List FwdEdge) × List (String × List RevEdge) × List GEdge :=
  let adj := st.1
  let radj := st.2.1
  let edges := st.2.2
  let adj := mapSet adj tx.sender_id
    ((mapGet adj tx.sender_id).getD [] ++
      [{ dst := tx.receiver_id, amount := tx.amount, timestamp := tx.timestamp,
         txId := tx.transaction_id }])
  let radj := mapSet radj tx.receiver_id
    ((mapGet radj tx.receiver_id).getD [] ++
      [{ src := tx.sender_id, amount := tx.amount, timestamp := tx.timestamp,
         txId := tx.transaction_id }])
  let adj := if mapHas adj tx.receiver_id then adj else mapSet adj tx.receiver_id []
  let radj := if mapHas radj tx.sender_id then radj else mapSet radj tx.sender_id []
  let edges := edges ++
    [{ source := tx.sender_id, target := tx.receiver_id, amount := tx.amount,
       timestamp := tx.timestamp, txId := tx.transaction_id }]
  (adj, radj, edges)

/-- Minimum gap between consecutive entries of an ascending timestamp list
(`null`, i.e. `none`, when fewer than two timestamps). -/
def minDelta (ts : List ℤ) : Option ℤ :=
  match ts with
  | [] => none
  | [_] => none
  | a :: b :: rest =>
      match minDelta (b :: rest) with
      | none => some (b - a)
      | some m => some (min (b - a) m)

/-- Metadata for one node, from its out-edges and in-edges. -/
def buildMeta (outEdges : List FwdEdge) (inEdges : List RevEdge) : Meta :=
  let totalSent := qsum (outEdges.map (·.amount))
  let totalReceived := qsum (inEdges.map (·.amount))
  let uniqueSenders := (jsDedup (inEdges.map (·.src))).length
  let uniqueReceivers := (jsDedup (outEdges.map (·.dst))).length
  let txCount := outEdges.length + inEdges.length
  let allTimestamps := sortTs (outEdges.map (·.timestamp) ++ inEdges.map (·.timestamp))
  { totalSent := totalSent
    totalReceived := totalReceived
    uniqueSenders := uniqueSenders
    uniqueReceivers := uniqueReceivers
    txCount := txCount
    outDegree := outEdges.length
    inDegree := inEdges.length
    allTimestamps := allTimestamps
    minTimeDeltaMs := minDelta allTimestamps
    throughputRatio :=
      if 0 < totalReceived then some (totalSent / totalReceived) else some 0 }

/-- `GraphBuilder.build`: ingest all transactions, then compute metadata in a
single pass over the forward adjacency keys. -/
def buildGraph (txs : List Transaction) : Graph :=
  let st := txs.foldl ingestTx ([], [], [])
  let adj := st.1
  let radj := st.2.1
  let edges := st.2.2
  let meta := adj.foldl (fun acc p =>
    let node := p.1
    let outEdges := p.2
    let inEdges := (mapGet radj node).getD []
    mapSet acc node (buildMeta outEdges inEdges)) []
  { adjacencyList := adj
    reverseAdjList := radj
    nodeMetadata := meta
    edges := edges
    nodes := adj.map (·.1) }

/-! ## Shell network detector (`src/backend/detection/shellDetector.js`) -/

/-- A detected shell chain. -/
structure ShellChain where
  chain : List String
  shellAccounts : List String
  amounts : List ℚ
  timestamps : List ℤ
  amountPattern : String
  score : ℚ
  deriving Repr, DecidableEq

/-- The adjacent pairs of a list: `pairs [a, b, c] = [(a, b), (b, c)]`. -/
def adjPairs {α : Type} : List α → List (α × α)
  | [] => []
  | [_] => []
  | a :: b :: rest => (a, b) :: adjPairs (b :: rest)

/-- `_classifyAmountPattern`: `exact_passthrough` when every hop ratio is
within 1% of 1, else `gradual_decay` when at least half the ratios lie in
`[0.80, 0.99)`, else `mixed`. -/
def classifyAmountPattern (amounts : List ℚ) : String :=
  if amounts.length < 2 then "mixed" else
  let ratios := (adjPairs amounts).map (fun p => p.2 / p.1)
  let allEqual := ratios.all (fun r => ¬ (|r - 1| > 1/100))
  let decayCount := (ratios.filter (fun r => 4/5 ≤ r ∧ r < 99/100)).length
  if allEqual then "exact_passthrough"
  else if (1:ℚ)/2 ≤ (decayCount : ℚ) / ((amounts.length : ℚ) - 1) then "gradual_decay"
  else "mixed"

/-- `_scoreChain`. `timestamps` are the hop timestamps in path order. -/
def scoreShellChain (g : Graph) (chain : List String) (amounts : List ℚ)
    (timestamps : List ℤ) (_shellNodes : List String) : ℚ :=
  let s0 : ℚ := 45
  let s1 := s0 + (if chain.length ≥ 6 then 20
    else if chain.length ≥ 5 then 15
    else if chain.length ≥ 4 then 10 else 5)
  let s2 := s1 + (if amounts.length ≥ 2 then
      (let pat := classifyAmountPattern amounts
       if pat = "exact_passthrough" then 15
       else if pat = "gradual_decay" then 20 else 10)
    else 0)
  let s3 := s2 + (if timestamps.length ≥ 2 then
      (let deltas := (adjPairs timestamps).map (fun p => p.2 - p.1)
       let sequential := deltas.all (fun d => ¬ d < 0)
       let totalTimeMs := zsum (deltas.map (fun d => |d|))
       if sequential then
         (let hoursTotal : ℚ := (totalTimeMs : ℚ) / (1000 * 60 * 60)
          if hoursTotal < 24 then 15
          else if hoursTotal < 72 then 10
          else if hoursTotal < 168 then 5 else 0)
       else 0)
    else 0)
  let shellAccounts := (chain.drop 1).dropLast
  let veryLowActivity := (shellAccounts.filter (fun n =>
    match mapGet g.nodeMetadata n with
    | some m => m.txCount = 2
    | none => false)).length
  let s4 := s3 + (if shellAccounts.length > 0 ∧
      (1:ℚ)/2 < (veryLowActivity : ℚ) / (shellAccounts.length : ℚ) then 10 else 0)
  min 100 s4

/-- `_traceShellChain`: DFS through shell nodes with the amount-coherence
prune. The JS recursion pushes/pops on shared arrays; here each step passes
the extended lists. `fuel` only bounds the recursion; with the initial call
of `shellDetect` it never runs out before the `path.length ≥ 7` guard. -/
def traceShellChain (g : Graph) (shellNodes : List String) :
    ℕ → String → List String → List String → List ℚ → List ℤ → List ShellChain
  | 0, _, _, _, _, _ => []
  | fuel + 1, currentNode, path, visited, amounts, timestamps =>
    if path.length ≥ 7 then [] else
    ((mapGet g.adjacencyList currentNode).getD []).foldl (fun acc edge =>
      let next := edge.dst
      if next ∈ visited then acc else
      match mapGet g.nodeMetadata next with
      | none => acc
      | some _ =>
        let prevAmount := (amounts.getLast?).getD 0
        if prevAmount - edge.amount > 10000 then acc
        else if edge.amount > prevAmount then acc
        else
          let visited2 := visited ++ [next]
          let path2 := path ++ [next]
          let amounts2 := amounts ++ [edge.amount]
          let timestamps2 := timestamps ++ [edge.timestamp]
          if next ∈ shellNodes then
            acc ++ traceShellChain g shellNodes fuel next path2 visited2 amounts2 timestamps2
          else
            let intermediates := (path2.drop 1).dropLast
            if intermediates.length ≥ 1 ∧ path2.length ≥ 4 ∧
                intermediates.all (· ∈ shellNodes) then
              acc ++ [{ chain := path2, shellAccounts := intermediates,
                        amounts := amounts2, timestamps := timestamps2,
                        amountPattern := classifyAmountPattern amounts2,
                        score := scoreShellChain g path2 amounts2 timestamps2 shellNodes }]
            else acc) []

/-- `_deduplicateChains`: keep the first chain for each exact ordered
sequence of account ids. -/
def dedupChains (chains : List ShellChain) : List ShellChain :=
  (chains.foldl (fun st c =>
    let key := String.intercalate "|" c.chain
    if key ∈ st.1 then st else (st.1 ++ [key], st.2 ++ [c])) ([], [])).2

/-- `ShellNetworkDetector.detect`. -/
def shellDetect (g : Graph) : List ShellChain :=
  let shellNodes := (g.nodeMetadata.filter (fun p =>
    p.2.txCount ≤ 3 ∧ p.2.inDegree ≥ 1 ∧ p.2.outDegree ≥ 1)).map (·.1)
  if shellNodes.isEmpty then [] else
  let chains := shellNodes.foldl (fun acc shellNode =>
    ((mapGet g.reverseAdjList shellNode).getD []).foldl (fun acc edge =>
      let startNode := edge.src
      match mapGet g.nodeMetadata startNode with
      | none => acc
      | some _ =>
        if startNode ∈ shellNodes then acc
        else acc ++ traceShellChain g shellNodes 8 shellNode
          [startNode, shellNode] [startNode, shellNode] [edge.amount] [edge.timestamp]) acc) []
  dedupChains chains

/-! ## Cycle detector (`src/backend/detection/cycleDetector.js`) -/

/-- `_dfs` of the cycle detector: bounded depth-first search from
`startNode`, exploring only nodes `≥ startNode`, recording cycles of length
3–5, with the out-degree-30 prune and the global result cap. `fuel` only
bounds the recursion; with the initial call of `cycleDetect` it never runs
out before the depth guard. -/
def cycleDfs (g : Graph) (maxResults : ℕ) (startNode : String) :
    ℕ → String → List String → List String → List (List String) → List (List String)
  | 0, _, _, _, results => results
  | fuel + 1, currentNode, path, visited, results =>
    if path.length > 5 then results else
    if results.length ≥ maxResults then results else
    ((mapGet g.adjacencyList currentNode).getD []).foldl (fun acc edge =>
      if acc.length ≥ maxResults then acc else
      let next := edge.dst
      if next = startNode ∧ path.length ≥ 3 then acc ++ [path]
      else if next ∉ visited ∧ path.length < 5 then
        if ¬ strLt next startNode then
          if ((mapGet g.adjacencyList next).getD []).length > 30 then acc
          else cycleDfs g maxResults startNode fuel next (path ++ [next]) (visited ++ [next]) acc
        else acc
      else acc) results

/-- Rotate a cycle so that its lexicographically smallest node is first
(`_canonicalize`). -/
def canonicalizeCycle (cycle : List String) : List String :=
  let minIdx := (List.range cycle.length).foldl (fun best i =>
    if strLt (cycle.getD i "") (cycle.getD best "") then i else best) 0
  cycle.drop minIdx ++ cycle.take minIdx

/-- `_deduplicateCycles`: drop cycles whose canonical form was seen. -/
def dedupCycles (cycles : List (List String)) : List (List String) :=
  (cycles.foldl (fun st c =>
    let key := String.intercalate "|" (canonicalizeCycle c)
    if key ∈ st.1 then st else (st.1 ++ [key], st.2 ++ [c])) ([], [])).2

/-- `CycleDetector.detect`. -/
def cycleDetect (g : Graph) : List (List String) :=
  let nodes := (g.adjacencyList.map (·.1)).insertionSort (fun a b => strLe a b = true)
  let allCycles := nodes.foldl (fun acc startNode =>
    if acc.length ≥ 500 then acc else
    if ((mapGet g.adjacencyList startNode).getD []).length > 30 then acc
    else cycleDfs g 500 startNode 6 startNode [startNode] [startNode] acc) []
  dedupCycles allCycles

/-- Comparison `(avg > 0 ? Math.sqrt(variance) / avg : 0) < c`, encoded
without square roots (all quantities nonnegative). -/
def cvLt (variance avg c : ℚ) : Prop :=
  if 0 < avg then variance < c ^ 2 * avg ^ 2 else 0 < c

instance (variance avg c : ℚ) : Decidable (cvLt variance avg c) := by
  unfold cvLt; infer_instance

/-- Mean of a list of rationals (`reduce / length`). -/
def qmean (l : List ℚ) : ℚ := qsum l / (l.length : ℚ)

/-- Population variance of a list of rationals. -/
def qvariance (l : List ℚ) : ℚ :=
  qsum (l.map (fun x => (x - qmean l) ^ 2)) / (l.length : ℚ)

/-- The amounts of the edges along a cycle: for each consecutive pair the
first matching forward edge, when present (`_getCycleEdgeAmounts`). -/
def cycleEdgeAmounts (g : Graph) (cycle : List String) : List ℚ :=
  (List.range cycle.length).filterMap (fun i =>
    let src := cycle.getD i ""
    let dst := cycle.getD ((i + 1) % cycle.length) ""
    (((mapGet g.adjacencyList src).getD []).find? (fun e => e.dst = dst)).map (·.amount))

/-- The timestamps of the edges along a cycle (`_getCycleTimestamps`). -/
def cycleTimestamps (g : Graph) (cycle : List String) : List ℤ :=
  (List.range cycle.length).filterMap (fun i =>
    let src := cycle.getD i ""
    let dst := cycle.getD ((i + 1) % cycle.length) ""
    (((mapGet g.adjacencyList src).getD []).find? (fun e => e.dst = dst)).map (·.timestamp))

/-- `scoreCycle`. -/
def scoreCycle (g : Graph) (cycle : List String) : ℚ :=
  let s0 : ℚ := 50
  let s1 := s0 + (if cycle.length = 3 then 15 else if cycle.length = 4 then 10 else 5)
  let edgeAmounts := cycleEdgeAmounts g cycle
  let s2 := s1 + (if edgeAmounts.length > 0 then
      (let avg := qmean edgeAmounts
       let v := qvariance edgeAmounts
       if cvLt v avg (1/10) then 15
       else if cvLt v avg (3/10) then 10
       else if cvLt v avg (1/2) then 5 else 0)
    else 0)
  let timestamps := cycleTimestamps g cycle
  let s3 := s2 + (if timestamps.length > 1 then
      (let sorted := sortTs timestamps
       let span := (sorted.getLastD 0) - (sorted.headD 0)
       let hoursSpan : ℚ := (span : ℚ) / (1000 * 60 * 60)
       if hoursSpan < 24 then 15
       else if hoursSpan < 72 then 10
       else if hoursSpan < 168 then 5 else 0)
    else 0)
  let lowActivityCount := (cycle.filter (fun n =>
    match mapGet g.nodeMetadata n with
    | some m => m.txCount ≤ 5
    | none => false)).length
  let s4 := s3 + (if (1:ℚ)/2 < (lowActivityCount : ℚ) / (cycle.length : ℚ) then 10 else 0)
  min 100 s4

/-! ## Smurfing detector (`src/backend/detection/smurfingDetector.js`) -/

/-- A transaction record passed to the smurf scorer
(`{counterparty, timestamp, amount}`). -/
structure STx where
  counterparty : String
  timestamp : ℤ
  amount : ℚ
  deriving Repr, DecidableEq

/-- A smurfing group. `aggregatorNode`/`disperserNode` are absent (`none`)
when the JS object does not set the field. -/
structure SmurfGroup where
  type : String
  aggregatorNode : Option String
  disperserNode : Option String
  members : List String
  score : ℚ
  temporalWindowHours : Option ℚ
  deriving Repr, DecidableEq

/-- `_scoreStructural`. -/
def scoreStructural (fanDegree : ℕ) : ℚ :=
  if fanDegree ≥ 30 then 25
  else if fanDegree ≥ 20 then 20
  else if fanDegree ≥ 15 then 15 else 10

/-- `_scoreTemporalBurst` on ascending timestamps. -/
def scoreTemporalBurst (timestamps : List ℤ) : ℚ :=
  if timestamps.length < 3 then 0 else
  let deltas := (adjPairs timestamps).map (fun p => ((p.2 - p.1 : ℤ) : ℚ) / (1000 * 60 * 60))
  let mean := qmean deltas
  let variance := qvariance deltas
  let windowHours : ℚ :=
    ((timestamps.getLastD 0 - timestamps.headD 0 : ℤ) : ℚ) / (1000 * 60 * 60)
  if windowHours < 6 ∧ timestamps.length ≥ 10 then 25
  else if windowHours < 12 ∧ timestamps.length ≥ 10 then 22
  else if 0 < mean ∧ cvLt variance mean (3/10) ∧ windowHours < 24 then 20
  else if windowHours < 24 then 12
  else if windowHours < 72 then 6
  else 0

/-- `_scoreOffHours`. -/
def scoreOffHours (timestamps : List ℤ) : ℚ :=
  if timestamps.length < 5 then 0 else
  let offHoursCount := (timestamps.filter (fun ts =>
    jsGetHours ts ≥ 23 ∨ jsGetHours ts ≤ 4)).length
  let ratio : ℚ := (offHoursCount : ℚ) / (timestamps.length : ℚ)
  if ratio > 7/10 then 15
  else if ratio > 1/2 then 10
  else if ratio > 3/10 then 5 else 0

/-- `_scoreVelocity` on amounts and ascending timestamps. -/
def scoreVelocity (amounts : List ℚ) (timestamps : List ℤ) : ℚ :=
  if timestamps.length < 2 then 0 else
  let totalAmount := qsum amounts
  let windowHours : ℚ :=
    max (((timestamps.getLastD 0 - timestamps.headD 0 : ℤ) : ℚ) / (1000 * 60 * 60)) (1/10)
  let velocityPerHour := totalAmount / windowHours
  if velocityPerHour > 5000 then 20
  else if velocityPerHour > 2000 then 15
  else if velocityPerHour > 1000 then 10
  else if velocityPerHour > 500 then 5 else 0

/-- JS `a % 1` for a nonnegative number: the fractional part. -/
def jsFrac (q : ℚ) : ℚ := q - (⌊q⌋ : ℚ)

/-- Whether an amount has non-zero cents (`Math.round((a % 1) * 100) !== 0`). -/
def hasCents (a : ℚ) : Bool := jsRound (jsFrac a * 100) ≠ 0

/-- `_scoreBehavioralAmounts`. -/
def scoreBehavioralAmounts (amounts : List ℚ) : ℚ :=
  if amounts.length < 5 then 0 else
  let avg := qmean amounts
  let v := qvariance amounts
  let s1 : ℚ :=
    if ((amounts.filter (fun a => 8000 ≤ a ∧ a < 10000)).length : ℚ) / (amounts.length : ℚ)
        > 3/10 then 8 else 0
  -- `cv >= 0.2 && cv <= 0.6` with `cv = avg > 0 ? sqrt(v)/avg : 0`
  let cvInRange : Prop :=
    if 0 < avg then (1/25) * avg ^ 2 ≤ v ∧ v ≤ (9/25) * avg ^ 2 else False
  let s2 : ℚ :=
    if _h : cvInRange then
      (if ((amounts.filter (fun a => 200 ≤ a ∧ a ≤ 3000)).length : ℚ) / (amounts.length : ℚ)
          > 3/5 then 5 else 0)
    else 0
  let s3 : ℚ :=
    if ((amounts.filter (fun a => hasCents a)).length : ℚ) / (amounts.length : ℚ)
        > 7/10 then -5 else 0
  max 0 (min 15 (s1 + s2 + s3))

/-- `_scoreThroughput`. -/
def scoreThroughput (g : Graph) (node : String) : ℚ :=
  match mapGet g.nodeMetadata node with
  | none => 0
  | some meta =>
    match meta.throughputRatio with
    | none => 0
    | some r =>
      if r > 7/10 ∧ r < 13/10 ∧ meta.totalReceived > 0 ∧ meta.totalSent > 0 then 10 else 0

/-- The four interval lengths of the smurfing regular-interval rule
(1 day, 7 days, 14 days, 30 days, in milliseconds). -/
def smurfIntervalsMs : List ℤ :=
  [86400000, 7 * 86400000, 14 * 86400000, 30 * 86400000]

/-- `_legitimacyPenalty`. -/
def legitimacyPenalty (g : Graph) (node : String) (timestamps : List ℤ)
    (amounts : List ℚ) (patternType : String) : ℚ :=
  match mapGet g.nodeMetadata node with
  | none => 0
  | some _ =>
    let pA : ℚ :=
      if timestamps.length ≥ 2 then
        let span : ℤ := timestamps.getLastD 0 - timestamps.headD 0
        let windowHours : ℚ := (span : ℚ) / (1000 * 60 * 60)
        (if windowHours > 72 then 10 else 0) +
        (if windowHours > 168 then 10 else 0) +
        (if windowHours > 720 then 15 else 0)
      else 0
    let pB : ℚ :=
      if timestamps.length ≥ 5 then
        (if ((timestamps.filter (fun ts => 8 ≤ jsGetHours ts ∧ jsGetHours ts ≤ 18)).length : ℚ)
            / (timestamps.length : ℚ) > 7/10 then 10 else 0)
      else 0
    let pC : ℚ :=
      if timestamps.length ≥ 5 then
        let deltas : List ℤ := (adjPairs timestamps).map (fun p => p.2 - p.1)
        if smurfIntervalsMs.any (fun interval =>
            ((deltas.filter (fun d =>
              (d : ℚ) / (interval : ℚ) > 4/5 ∧ (d : ℚ) / (interval : ℚ) < 6/5)).length : ℚ)
            / (deltas.length : ℚ) > 1/2) then 15 else 0
      else 0
    let pD : ℚ :=
      if amounts.length ≥ 5 then
        let rounded := amounts.map round2
        let maxFreq := (rounded.map (fun a => rounded.count a)).foldl max 0
        (if (maxFreq : ℚ) / (amounts.length : ℚ) > 2/5 then 10 else 0)
      else 0
    let pE : ℚ :=
      if patternType = "fan_in" then
        let inEdges := (mapGet g.reverseAdjList node).getD []
        let outEdges := (mapGet g.adjacencyList node).getD []
        let senders := jsDedup (inEdges.map (·.src))
        let receivers := jsDedup (outEdges.map (·.dst))
        if receivers.length ≤ 5 ∧ senders.length ≥ 15 then
          let overlap := (receivers.filter (· ∈ senders)).length
          (if (overlap : ℚ) / (max (senders.length : ℚ) 1) < 1/10 then 15 else 0)
        else 0
      else 0
    let pF : ℚ :=
      if patternType = "fan_out" then
        let outEdges := (mapGet g.adjacencyList node).getD []
        let inEdges := (mapGet g.reverseAdjList node).getD []
        let receivers := jsDedup (outEdges.map (·.dst))
        let senders := jsDedup (inEdges.map (·.src))
        if senders.length ≤ 5 ∧ receivers.length ≥ 10 then
          let overlap := (receivers.filter (· ∈ senders)).length
          (if overlap = 0 then 10 else 0)
        else 0
      else 0
    pA + pB + pC + pD + pE + pF

/-- `_computeSmurfScore`: the sum of the six signals minus the legitimacy
penalty, rounded and clamped to `[0, 100]`. -/
def computeSmurfScore (g : Graph) (node : String) (transactions : List STx)
    (patternType : String) : ℚ :=
  if transactions.length = 0 then 0 else
  let counterparties := jsDedup (transactions.map (·.counterparty))
  let amounts := transactions.map (·.amount)
  let timestamps := sortTs (transactions.map (·.timestamp))
  let score :=
    scoreStructural counterparties.length +
    scoreTemporalBurst timestamps +
    scoreOffHours timestamps +
    scoreVelocity amounts timestamps +
    scoreBehavioralAmounts amounts +
    scoreThroughput g node -
    legitimacyPenalty g node timestamps amounts patternType
  max 0 (min 100 ((jsRound score : ℚ)))

/-- `_timeWindowHours`: span in hours rounded to one decimal, `null` when
fewer than two transactions. -/
def timeWindowHours (txs : List STx) : Option ℚ :=
  if txs.length < 2 then none else
  let sorted := sortTs (txs.map (·.timestamp))
  some (round1 (((sorted.getLastD 0 - sorted.headD 0 : ℤ) : ℚ) / (1000 * 60 * 60)))

/-- The transaction view (`{counterparty, timestamp, amount}`) of a list of
in-edges. -/
def fanInTxs (inEdges : List RevEdge) : List STx :=
  inEdges.map (fun e =>
    { counterparty := e.src, timestamp := e.timestamp, amount := e.amount : STx })

/-- The transaction view of a list of out-edges. -/
def fanOutTxs (outEdges : List FwdEdge) : List STx :=
  outEdges.map (fun e =>
    { counterparty := e.dst, timestamp := e.timestamp, amount := e.amount : STx })

/-- `_detectFanIn`: one pass over the reverse adjacency map. -/
def detectFanIn (g : Graph) : List SmurfGroup :=
  g.reverseAdjList.foldl (fun acc p =>
    let node := p.1
    let inEdges := p.2
    let uniqueSenders := jsDedup (inEdges.map (·.src))
    if uniqueSenders.length < 10 then acc else
    let txs := fanInTxs inEdges
    let score := computeSmurfScore g node txs "fan_in"
    if score ≥ 40 then
      acc ++ [{ type := "fan_in", aggregatorNode := some node, disperserNode := none,
                members := node :: uniqueSenders, score := score,
                temporalWindowHours := timeWindowHours txs }]
    else acc) []

/-- `_detectFanOut`: one pass over the forward adjacency map. -/
def detectFanOut (g : Graph) : List SmurfGroup :=
  g.adjacencyList.foldl (fun acc p =>
    let node := p.1
    let outEdges := p.2
    let uniqueReceivers := jsDedup (outEdges.map (·.dst))
    if uniqueReceivers.length < 10 then acc else
    let txs := fanOutTxs outEdges
    let score := computeSmurfScore g node txs "fan_out"
    if score ≥ 40 then
      acc ++ [{ type := "fan_out", aggregatorNode := none, disperserNode := some node,
                members := node :: uniqueReceivers, score := score,
                temporalWindowHours := timeWindowHours txs }]
    else acc) []

/-- `_detectCombinedFanInFanOut`: one pass over the metadata map, skipping
nodes already flagged in the accumulated group list. -/
def detectCombined (g : Graph) (initial : List SmurfGroup) : List SmurfGroup :=
  g.nodeMetadata.foldl (fun acc p =>
    let node := p.1
    let meta := p.2
    if meta.uniqueSenders ≥ 10 ∧ meta.uniqueReceivers ≥ 10 then
      let alreadyFlagged := acc.any (fun gr =>
        gr.aggregatorNode = some node ∨ gr.disperserNode = some node)
      if alreadyFlagged then acc else
      let inEdges := (mapGet g.reverseAdjList node).getD []
      let outEdges := (mapGet g.adjacencyList node).getD []
      let allTxs := fanInTxs inEdges ++ fanOutTxs outEdges
      let score := computeSmurfScore g node allTxs "fan_in_fan_out"
      if score ≥ 40 then
        let senders := jsDedup (inEdges.map (·.src))
        let receivers := jsDedup (outEdges.map (·.dst))
        acc ++ [{ type := "fan_in_fan_out", aggregatorNode := some node,
                  disperserNode := some node,
                  members := node :: (senders ++ receivers), score := score,
                  temporalWindowHours := timeWindowHours allTxs }]
      else acc
    else acc) initial

/-- `SmurfingDetector.detect`: fan-in, then fan-out, then combined. -/
def smurfDetect (g : Graph) : List SmurfGroup :=
  detectCombined g (detectFanIn g ++ detectFanOut g)

/-! ## False-positive filter (`falsePositiveFilter.js`) -/

/-- JS `Set.add`: append unless already present. -/
def setAdd (s : List String) (x : String) : List String :=
  if x ∈ s then s else s ++ [x]

/-- Comparison `(guard > 0 ? Math.sqrt(variance) / guard : 0) > c`. -/
def cvGt (variance avg c : ℚ) : Prop :=
  if 0 < avg then c ^ 2 * avg ^ 2 < variance else c < 0

instance (variance avg c : ℚ) : Decidable (cvGt variance avg c) := by
  unfold cvGt; infer_instance

/-- The false-positive filter's two sets. -/
structure FPState where
  legitimateAccounts : List String
  legitimateHubs : List String
  deriving Repr, DecidableEq

/-- `_groupAmounts`: greedy grouping of the sorted amounts, a new group
starting whenever the next value is more than `tolerance` away from the
running group average (relative to `max(avg, 0.01)`). -/
def groupAmounts (amounts : List ℚ) (tolerance : ℚ) : List (List ℚ) :=
  match amounts.insertionSort (fun a b => a ≤ b) with
  | [] => []
  | a0 :: rest =>
    let st := rest.foldl (fun (st : List (List ℚ) × List ℚ) a =>
      let groupAvg := qmean st.2
      if |a - groupAvg| / (max groupAvg (1/100)) ≤ tolerance then (st.1, st.2 ++ [a])
      else (st.1 ++ [st.2], [a])) ([], [a0])
    st.1 ++ [st.2]

/-- The inter-transaction deltas of a timestamp list. -/
def deltasOf (ts : List ℤ) : List ℤ := (adjPairs ts).map (fun p => p.2 - p.1)

/-- The five intervals of `_checkTemporalRegularity`
(1 hour, 1 day, 7 days, 14 days, 30 days, in milliseconds). -/
def payrollIntervalsMs : List ℤ :=
  [3600000, 86400000, 7 * 86400000, 14 * 86400000, 30 * 86400000]

/-- `_checkTemporalRegularity` (payroll temporal-regularity rule): true when
more than 40% of the inter-transaction deltas fall within a 25% tolerance
window of one of the five common intervals. -/
def checkTemporalRegularity (timestamps : List ℤ) : Bool :=
  if timestamps.length < 5 then false else
  let deltas : List ℤ := deltasOf timestamps
  payrollIntervalsMs.any (fun interval =>
    ((deltas.filter (fun d =>
      (d : ℚ) / (interval : ℚ) > 3/4 ∧ (d : ℚ) / (interval : ℚ) < 5/4)).length : ℚ)
    / (deltas.length : ℚ) > 2/5)

/-- `_detectMerchants`. -/
def detectMerchants (g : Graph) (st : FPState) : FPState :=
  g.nodeMetadata.foldl (fun st p =>
    let node := p.1
    let meta := p.2
    if meta.uniqueSenders ≥ 10 ∧ meta.uniqueReceivers ≤ 5 then
      let inEdges := (mapGet g.reverseAdjList node).getD []
      let outEdges := (mapGet g.adjacencyList node).getD []
      let senders := jsDedup (inEdges.map (·.src))
      let receivers := jsDedup (outEdges.map (·.dst))
      let overlap := (receivers.filter (· ∈ senders)).length
      if (overlap : ℚ) / (max (senders.length : ℚ) 1) < 1/5 then
        let inAmounts := inEdges.map (·.amount)
        let s1 : ℚ :=
          if inAmounts.length > 5 then
            (if cvGt (qvariance inAmounts) (qmean inAmounts) (2/5) then 20 else 0)
          else 0
        let timestamps := sortTs (inEdges.map (·.timestamp))
        let s2 : ℚ :=
          if timestamps.length ≥ 2 then
            let span : ℤ := timestamps.getLastD 0 - timestamps.headD 0
            let windowHours : ℚ := (span : ℚ) / (1000 * 60 * 60)
            (if windowHours > 168 then 25 else if windowHours > 72 then 15 else 0)
          else 0
        let s3 : ℚ :=
          if timestamps.length ≥ 5 then
            (if ((timestamps.filter (fun ts =>
                8 ≤ jsGetHours ts ∧ jsGetHours ts ≤ 20)).length : ℚ)
              / (timestamps.length : ℚ) > 3/5 then 20 else 0)
          else 0
        let s4 : ℚ :=
          if timestamps.length ≥ 5 then
            let deltas : List ℚ := (adjPairs timestamps).map
              (fun p => ((p.2 - p.1 : ℤ) : ℚ) / (1000 * 60 * 60))
            let mean := qmean deltas
            if 0 < mean ∧ qvariance deltas < (4/5) ^ 2 * mean ^ 2 then 15 else 0
          else 0
        let s5 : ℚ :=
          if timestamps.length ≥ 2 then
            let span : ℤ := timestamps.getLastD 0 - timestamps.headD 0
            let windowH : ℚ := max ((span : ℚ) / (1000 * 60 * 60)) (1/10)
            (if qsum inAmounts / windowH < 500 then 10 else 0)
          else 0
        if s1 + s2 + s3 + s4 + s5 ≥ 40 then
          { legitimateAccounts := setAdd st.legitimateAccounts node
            legitimateHubs := setAdd st.legitimateHubs node }
        else st
      else st
    else st) st

/-- `_detectPayroll`. -/
def detectPayroll (g : Graph) (st : FPState) : FPState :=
  g.nodeMetadata.foldl (fun st p =>
    let node := p.1
    let meta := p.2
    if meta.uniqueReceivers ≥ 10 ∧ meta.uniqueSenders ≤ 5 then
      let outEdges := (mapGet g.adjacencyList node).getD []
      let inEdges := (mapGet g.reverseAdjList node).getD []
      if outEdges.length < 10 then st else
      let receivers := jsDedup (outEdges.map (·.dst))
      let senders := jsDedup (inEdges.map (·.src))
      let overlap := (receivers.filter (· ∈ senders)).length
      if overlap > 0 then st else
      let amounts := outEdges.map (·.amount)
      let amountGroups := groupAmounts amounts (1/10)
      let largestGroupSize := (amountGroups.map (·.length)).foldl max 0
      let s1 : ℚ :=
        if (largestGroupSize : ℚ) / (amounts.length : ℚ) > 3/10 then 20 else 0
      let s2 : ℚ :=
        if ((amounts.filter (fun a => hasCents a)).length : ℚ) / (amounts.length : ℚ)
            > 1/2 then 15 else 0
      let repeatReceivers := (receivers.filter (fun r =>
        (outEdges.filter (fun e => e.dst = r)).length ≥ 2)).length
      let s3 : ℚ :=
        if (repeatReceivers : ℚ) / (receivers.length : ℚ) > 2/5 then 15 else 0
      let timestamps := sortTs (outEdges.map (·.timestamp))
      let s4 : ℚ := if checkTemporalRegularity timestamps then 20 else 0
      let s5 : ℚ :=
        if timestamps.length ≥ 5 then
          (if ((timestamps.filter (fun ts =>
              8 ≤ jsGetHours ts ∧ jsGetHours ts ≤ 18)).length : ℚ)
            / (timestamps.length : ℚ) > 7/10 then 10 else 0)
        else 0
      let s6 : ℚ :=
        if timestamps.length ≥ 2 then
          let span : ℤ := timestamps.getLastD 0 - timestamps.headD 0
          let windowHours : ℚ := (span : ℚ) / (1000 * 60 * 60)
          (if windowHours > 168 then 15 else if windowHours > 72 then 10 else 0)
        else 0
      if s1 + s2 + s3 + s4 + s5 + s6 ≥ 40 then
        { legitimateAccounts := setAdd st.legitimateAccounts node
          legitimateHubs := setAdd st.legitimateHubs node }
      else st
    else st) st

/-- `_detectExchangePlatforms`. -/
def detectExchangePlatforms (g : Graph) (st : FPState) : FPState :=
  g.nodeMetadata.foldl (fun st p =>
    let node := p.1
    let meta := p.2
    if meta.uniqueSenders ≥ 20 ∧ meta.uniqueReceivers ≥ 20 then
      let inEdges := (mapGet g.reverseAdjList node).getD []
      let outEdges := (mapGet g.adjacencyList node).getD []
      let senders := jsDedup (inEdges.map (·.src))
      let receivers := jsDedup (outEdges.map (·.dst))
      let overlap := (receivers.filter (· ∈ senders)).length
      let overlapRatio : ℚ :=
        (overlap : ℚ) / (max (max (senders.length : ℚ) (receivers.length : ℚ)) 1)
      if overlapRatio < 3/20 then
        let allTimestamps := sortTs (inEdges.map (·.timestamp) ++ outEdges.map (·.timestamp))
        if allTimestamps.length ≥ 2 then
          let span : ℤ := allTimestamps.getLastD 0 - allTimestamps.headD 0
          if (span : ℚ) / (1000 * 60 * 60) > 48 then
            { legitimateAccounts := setAdd st.legitimateAccounts node
              legitimateHubs := setAdd st.legitimateHubs node }
          else st
        else st
      else st
    else st) st

/-- `_markCounterpartiesOfLegitimateHubs`. -/
def markCounterparties (g : Graph) (st : FPState) : FPState :=
  st.legitimateHubs.foldl (fun st hubNode =>
    let outEdges := (mapGet g.adjacencyList hubNode).getD []
    let inEdges := (mapGet g.reverseAdjList hubNode).getD []
    let st := inEdges.foldl (fun (st : FPState) edge =>
      let cp := edge.src
      match mapGet g.nodeMetadata cp with
      | none => st
      | some cpMeta =>
        let cpOutEdges := (mapGet g.adjacencyList cp).getD []
        let sendsToHub := (cpOutEdges.filter (fun e => e.dst = hubNode)).length
        let totalSends := cpOutEdges.length
        if totalSends ≤ 3 ∨ (sendsToHub : ℚ) / (totalSends : ℚ) > 1/2 then
          if cpMeta.txCount ≤ 5 then
            { st with legitimateAccounts := setAdd st.legitimateAccounts cp }
          else st
        else st) st
    outEdges.foldl (fun (st : FPState) edge =>
      let cp := edge.dst
      match mapGet g.nodeMetadata cp with
      | none => st
      | some cpMeta =>
        let cpInEdges := (mapGet g.reverseAdjList cp).getD []
        let receivesFromHub := (cpInEdges.filter (fun e => e.src = hubNode)).length
        let totalReceives := cpInEdges.length
        if totalReceives ≤ 3 ∨ (receivesFromHub : ℚ) / (totalReceives : ℚ) > 1/2 then
          if cpMeta.txCount ≤ 5 then
            { st with legitimateAccounts := setAdd st.legitimateAccounts cp }
          else st
        else st) st) st

/-- `detectLegitimate`: run the three hub detectors, then the counterparty
sweep. -/
def fpDetectLegitimate (g : Graph) : FPState :=
  markCounterparties g
    (detectExchangePlatforms g
      (detectPayroll g
        (detectMerchants g { legitimateAccounts := [], legitimateHubs := [] })))

/-! ## Fraud rings and suspicious-account records (`forensicsEngine.js`) -/

/-- A fraud-ring record. Kind-specific fields are `Option`s: `none` models a
field the JS object does not set (or sets to `null` — the two are conflated
here; the source never distinguishes them when reading). -/
structure Ring where
  ring_id : String
  member_accounts : List String
  pattern_type : String
  risk_score : ℚ
  cycle_length : Option ℕ
  chain_length : Option ℕ
  amount_pattern : Option String
  temporal_window_hours : Option ℚ
  aggregatorNode : Option String
  disperserNode : Option String
  deriving Repr, DecidableEq, Inhabited

/-- A pre-scoring suspicious-account record. -/
structure AccountRec where
  account_id : String
  suspicion_score : ℚ
  detected_patterns : List String
  ring_id : String
  deriving Repr, DecidableEq

/-- `filterResults` of the false-positive filter. -/
def filterResults (st : FPState) (suspiciousAccounts : List AccountRec)
    (fraudRings : List Ring) : List AccountRec × List Ring :=
  let filteredAccounts := suspiciousAccounts.filter (fun acc =>
    acc.account_id ∉ st.legitimateAccounts)
  let filteredRings := fraudRings.foldl (fun acc ring =>
    let centralNode := match ring.aggregatorNode with
      | some a => some a
      | none => ring.disperserNode
    if (match centralNode with
        | some c => decide (c ∈ st.legitimateHubs)
        | none => false) then acc
    else if ring.member_accounts.any (fun id => id ∈ st.legitimateHubs) then acc
    else
      let filteredMembers := ring.member_accounts.filter (fun id =>
        id ∉ st.legitimateAccounts)
      if filteredMembers.length ≥ 3 then
        acc ++ [{ ring with member_accounts := filteredMembers }]
      else acc) []
  (filteredAccounts, filteredRings)

/-! ## Ring merger (`_mergeOverlappingRings`) -/

/-- One step of union-find `find` with path halving, with explicit fuel.
The JS loop `while (parent.get(x) !== x) { parent.set(x, parent.get(parent.get(x))); x = parent.get(x); }`
rewires `x` to its grandparent and jumps there. -/
def ufFind : ℕ → (ℕ → ℕ) → ℕ → ((ℕ → ℕ) × ℕ)
  | 0, p, x => (p, x)
  | fuel + 1, p, x =>
    if p x = x then (p, x)
    else ufFind fuel (Function.update p x (p (p x))) (p (p x))

/-- `union(a, b)`: link the root of `a` under the root of `b`. -/
def ufUnion (fuel : ℕ) (p : ℕ → ℕ) (a b : ℕ) : ℕ → ℕ :=
  let r1 := ufFind fuel p a
  let r2 := ufFind fuel r1.1 b
  if r1.2 ≠ r2.2 then Function.update r2.1 r1.2 r2.2 else r2.1

/-- `|A ∩ B|` on the JS sets of two member lists. -/
def overlapCount (a b : List String) : ℕ :=
  ((jsDedup a).filter (· ∈ jsDedup b)).length

/-- The merge criterion: same pattern type and
`|A ∩ B| / min(|A|, |B|) > 0.5`. -/
def mergeCriterion (r s : Ring) : Prop :=
  r.pattern_type = s.pattern_type ∧
  (overlapCount r.member_accounts s.member_accounts : ℚ) /
    (min ((jsDedup r.member_accounts).length : ℚ) ((jsDedup s.member_accounts).length : ℚ))
    > 1/2

instance (r s : Ring) : Decidable (mergeCriterion r s) := by
  unfold mergeCriterion; infer_instance

/-- One inner step of the pairwise union loop: union `i` and `j` when
`i < j` and the merge criterion holds. -/
def pairStep (rings : List Ring) (i : ℕ) (p : ℕ → ℕ) (j : ℕ) : ℕ → ℕ :=
  if i < j then
    if mergeCriterion (rings.getD i default) (rings.getD j default) then
      ufUnion (rings.length + 1) p i j
    else p
  else p

/-- One outer step of the pairwise union loop: sweep `j` over all indices
for a fixed `i`. -/
def rowStep (rings : List Ring) (p : ℕ → ℕ) (i : ℕ) : ℕ → ℕ :=
  (List.range rings.length).foldl (pairStep rings i) p

/-- The pairwise union loop of `_mergeOverlappingRings`. -/
def mergePairsLoop (rings : List Ring) (p : ℕ → ℕ) : ℕ → ℕ :=
  (List.range rings.length).foldl (rowStep rings) p

/-- One step of the grouping loop: find `i`'s root and push `rings[i]` onto
that root's bucket. -/
def bgStep (rings : List Ring) (st : (ℕ → ℕ) × List (ℕ × List Ring)) (i : ℕ) :
    (ℕ → ℕ) × List (ℕ × List Ring) :=
  let f := ufFind (rings.length + 1) st.1 i
  let bucket := (mapGet st.2 f.2).getD []
  (f.1, mapSet st.2 f.2 (bucket ++ [rings.getD i default]))

/-- Group the rings by their union-find root (`groups` map, insertion
order). -/
def buildGroups (rings : List Ring) (p : ℕ → ℕ) : List (ℕ × List Ring) :=
  ((List.range rings.length).foldl (bgStep rings) (p, [])).2

/-- Merge one component: a singleton passes through unchanged; a larger
group keeps the first ring's id and pattern type, unions the members, takes
the maximum risk score, and carries no kind-specific fields. -/
def mergeGroup : List Ring → Ring
  | [r] => r
  | group =>
    { ring_id := (group.headD default).ring_id
      member_accounts := jsDedup (group.foldl (fun acc r => acc ++ r.member_accounts) [])
      pattern_type := (group.headD default).pattern_type
      risk_score := group.foldl (fun m r => max m r.risk_score) 0
      cycle_length := none
      chain_length := none
      amount_pattern := none
      temporal_window_hours := none
      aggregatorNode := none
      disperserNode := none }

/-- The components computed by `_mergeOverlappingRings`: run the pairwise
union loop from the identity parent map, then group by root. -/
def ringGroups (rings : List Ring) : List (ℕ × List Ring) :=
  buildGroups rings (mergePairsLoop rings (fun i => i))

/-- `_mergeOverlappingRings`. -/
def mergeOverlappingRings (rings : List Ring) : List Ring :=
  if rings.length ≤ 1 then rings else
  (ringGroups rings).map (fun g => mergeGroup g.2)

/-! ## Scoring engine (`scoringEngine.js`) -/

/-- `_computeVelocity72h`: the maximum number of timestamps in any window
`[t, t + 72h]` anchored at a timestamp, divided by the total count; `1` for
at most one timestamp. The JS inner `while` walks `j` forward while
`sorted[j] <= windowEnd`. -/
def computeVelocity72h (allTimestamps : List ℤ) : ℚ :=
  if allTimestamps.length ≤ 1 then 1 else
  let sorted := sortTs allTimestamps
  let maxInWindow := (List.range sorted.length).foldl (fun m i =>
    let windowEnd := sorted.getD i 0 + 72 * 3600 * 1000
    max m ((sorted.drop i).takeWhile (fun t => t ≤ windowEnd)).length) 1
  (maxInWindow : ℚ) / (sorted.length : ℚ)

/-- Substring containment (`String.includes`). -/
def strContains (s pat : String) : Bool :=
  s.data.tails.any (fun t => pat.data.isPrefixOf t)

/-- One iteration of the `_computePatternModifier` loop: the running total
and the four per-role flags, updated for pattern `p`. -/
def pmStep (meta : Option Meta) (st : ℚ × Bool × Bool × Bool × Bool)
    (p : String) : ℚ × Bool × Bool × Bool × Bool :=
  let pm := st.1
  let hasCycle := st.2.1
  let hasFanIn := st.2.2.1
  let hasFanOut := st.2.2.2.1
  let hasShell := st.2.2.2.2
  let (pm, hasCycle) :=
    if ¬ hasCycle ∧ strContains p "cycle" then (pm + 20, true) else (pm, hasCycle)
  let (pm, hasFanIn) :=
    if ¬ hasFanIn ∧ p = "fan_in" then (pm + 25, true) else (pm, hasFanIn)
  let (pm, hasFanOut) :=
    if ¬ hasFanOut ∧ p = "fan_out" then (pm + 25, true) else (pm, hasFanOut)
  let (pm, hasShell) :=
    if ¬ hasShell ∧ (p = "shell_intermediary" ∨ p = "shell_network_endpoint") then
      (match meta with
       | some m => if m.txCount ≤ 3 then (pm + 30, true) else (pm + 15, true)
       | none => (pm + 15, true))
    else (pm, hasShell)
  (pm, hasCycle, hasFanIn, hasFanOut, hasShell)

/-- `_computePatternModifier`: iterate over the pattern set with one flag
per role, so each role contributes at most once. -/
def computePatternModifier (detectedPatterns : List String) (meta : Option Meta) : ℚ :=
  ((jsDedup detectedPatterns).foldl (pmStep meta) (0, false, false, false, false)).1

/-- The nested `acceleration_details` record. -/
structure AccelDetails where
  burst_ratio : ℚ
  flow_ratio : ℚ
  short_lifespan_factor : ℚ
  velocity_ratio : ℚ
  deriving Repr, DecidableEq

/-- The nested `stability_details` record. -/
structure StabDetails where
  amount_diversity : ℚ
  active_hours_spread : ℚ
  sink_behavior : ℚ
  deriving Repr, DecidableEq

/-- The record returned by `computeSuspicionScore`. -/
structure SuspicionResult where
  suspicion_score : ℚ
  suspicion_label : String
  acceleration_score : ℚ
  stability_score : ℚ
  ring_participation_bonus : ℚ
  acceleration_details : AccelDetails
  stability_details : StabDetails
  deriving Repr, DecidableEq

/-- `_emptySuspicionResult`. -/
def emptySuspicionResult : SuspicionResult :=
  { suspicion_score := 0
    suspicion_label := "Stable / Merchant"
    acceleration_score := 0
    stability_score := 0
    ring_participation_bonus := 0
    acceleration_details :=
      { burst_ratio := 0, flow_ratio := 0, short_lifespan_factor := 0, velocity_ratio := 0 }
    stability_details :=
      { amount_diversity := 0, active_hours_spread := 0, sink_behavior := 0 } }

/-- The pass-through rate as computed by `computeSuspicionScore`:
`maxIO > 0 ? Math.min(totalIn, totalOut) / maxIO : 0`. -/
def codePtr (meta : Meta) : ℚ :=
  let totalIn := meta.totalReceived
  let totalOut := meta.totalSent
  let maxIO := max totalIn totalOut
  if maxIO > 0 then min totalIn totalOut / maxIO else 0

/-- `computeSuspicionScore`. -/
def computeSuspicionScore (g : Graph) (accountId : String)
    (detectedPatterns : List String) : SuspicionResult :=
  match mapGet g.nodeMetadata accountId with
  | none => emptySuspicionResult
  | some meta =>
    let ptr := codePtr meta
    let velocity := computeVelocity72h meta.allTimestamps
    let pm := computePatternModifier detectedPatterns (some meta)
    let fpp : ℚ := if meta.txCount > 50 ∧ ptr < 3/10 then 50 else 0
    let rawScore := 35 * ptr + 35 * velocity + pm - fpp
    let score := min 100 (max 0 (round1 rawScore))
    let label :=
      if score ≥ 75 then "High Risk"
      else if score ≥ 50 then "Suspicious"
      else if score ≥ 20 then "Monitor"
      else "Stable / Merchant"
    { suspicion_score := score
      suspicion_label := label
      acceleration_score := round3 ptr
      stability_score := if fpp > 0 then 1 else 0
      ring_participation_bonus := round3 (pm / 100)
      acceleration_details :=
        { burst_ratio := round3 ptr
          flow_ratio := round3 velocity
          short_lifespan_factor := round3 (pm / 100)
          velocity_ratio := round3 (fpp / 100) }
      stability_details :=
        { amount_diversity := round3 ptr
          active_hours_spread := round3 velocity
          sink_behavior := round3 (1 - ptr) } }

/-- `_normalizePatternType`. -/
def normalizePatternType (patternType : String) : String :=
  if patternType = "shell_network" ∨ patternType = "layered_chain" then "layered_chain"
  else if patternType = "fan_in" ∨ patternType = "fan_out" ∨
      patternType = "fan_in_fan_out" ∨ patternType = "smurf_cluster" then "smurf_cluster"
  else if patternType = "cycle" ∨ patternType = "cycle_ring" then "cycle_ring"
  else patternType

/-- JS `inflow_outflow_ratio` value: `null`, `Infinity`, or a number. -/
inductive RatioVal where
  | nullV : RatioVal
  | infV : RatioVal
  | num : ℚ → RatioVal
  deriving Repr, DecidableEq

/-- The `features` record of `_extractRingFeatures`. -/
structure RingFeatures where
  ring_size : ℕ
  hop_length : ℕ
  total_time_window_hours : ℚ
  average_inter_txn_gap : ℚ
  total_amount_moved : ℚ
  shell_node_ratio : ℚ
  inflow_outflow_ratio : RatioVal
  deriving Repr, DecidableEq

/-- The `bonuses` record of `risk_details`. -/
structure RiskBonuses where
  time_compression : ℚ
  flow_through : ℚ
  shell_density : ℚ
  hop_length : ℚ
  deriving Repr, DecidableEq

/-- The `risk_details` record. -/
structure RiskDetails where
  base_score : ℚ
  pattern_type_normalized : String
  features : RingFeatures
  bonuses : RiskBonuses
  deriving Repr, DecidableEq

/-- The record returned by `computeRiskScore`. -/
structure RiskResult where
  risk_score : ℚ
  risk_label : String
  risk_details : RiskDetails
  deriving Repr, DecidableEq

/-- `_extractRingFeatures`. -/
def extractRingFeatures (g : Graph) (ring : Ring)
    (ringTransactions : List Transaction) : RingFeatures :=
  let members := ring.member_accounts
  let ringSize := members.length
  let hopLength := match ring.chain_length with
    | some cl => cl - 1
    | none => match ring.cycle_length with
      | some cl => cl
      | none => members.length
  let timestamps := sortTs (ringTransactions.map (·.timestamp))
  let totalTimeWindowHours : ℚ :=
    if timestamps.length ≥ 2 then
      ((timestamps.getLastD 0 - timestamps.headD 0 : ℤ) : ℚ) / (1000 * 60 * 60)
    else 0
  let avgInterTxnGap : ℚ :=
    if timestamps.length ≥ 2 then
      let gaps : List ℚ := (adjPairs timestamps).map
        (fun p => ((p.2 - p.1 : ℤ) : ℚ) / (1000 * 60 * 60))
      qmean gaps
    else 0
  let totalAmountMoved := qsum (ringTransactions.map (·.amount))
  let shellNodeCount := (members.filter (fun m =>
    match mapGet g.nodeMetadata m with
    | some meta => meta.inDegree + meta.outDegree ≤ 2
    | none => false)).length
  let shellNodeRatio : ℚ :=
    if ringSize > 0 then (shellNodeCount : ℚ) / (ringSize : ℚ) else 0
  let totalInflow := qsum (members.foldl (fun acc m =>
    acc ++ (((mapGet g.reverseAdjList m).getD []).filter
      (fun e => e.src ∉ members)).map (·.amount)) [])
  let totalOutflow := qsum (members.foldl (fun acc m =>
    acc ++ (((mapGet g.adjacencyList m).getD []).filter
      (fun e => e.dst ∉ members)).map (·.amount)) [])
  let inflowOutflowRatio : RatioVal :=
    if totalOutflow > 0 then RatioVal.num (round2 (totalInflow / totalOutflow))
    else if totalInflow > 0 then RatioVal.infV
    else RatioVal.nullV
  { ring_size := ringSize
    hop_length := hopLength
    total_time_window_hours := round2 totalTimeWindowHours
    average_inter_txn_gap := round2 avgInterTxnGap
    total_amount_moved := round2 totalAmountMoved
    shell_node_ratio := round2 shellNodeRatio
    inflow_outflow_ratio := inflowOutflowRatio }

/-- `computeRiskScore`. -/
def computeRiskScore (g : Graph) (ring : Ring) (memberSuspicionScores : List ℚ)
    (ringTransactions : List Transaction) : RiskResult :=
  let avgAccountSuspicion :=
    if memberSuspicionScores.length > 0 then qmean memberSuspicionScores else 0
  let timestamps := sortTs (ringTransactions.map (·.timestamp))
  let tDensity : ℚ :=
    if timestamps.length ≥ 2 then
      (let spanHours : ℚ :=
        ((timestamps.getLastD 0 - timestamps.headD 0 : ℤ) : ℚ) / (3600 * 1000)
       if spanHours ≤ 72 then 15 else 0)
    else 15
  let patternType := normalizePatternType ring.pattern_type
  let cSeverity : ℚ :=
    if patternType = "cycle_ring" then 10
    else if patternType = "layered_chain" then
      (let hopLength : ℕ := match ring.chain_length with
        | some cl => cl - 1
        | none => ring.member_accounts.length - 1
       if hopLength > 3 then 15 else 10)
    else if patternType = "smurf_cluster" then
      (if ring.member_accounts.length ≥ 25 then 20 else 10)
    else 0
  let rawRisk := avgAccountSuspicion + tDensity + cSeverity
  let risk_score := min 100 (max 0 (round1 rawRisk))
  let risk_label :=
    if risk_score ≥ 80 then "Critical"
    else if risk_score ≥ 60 then "High"
    else if risk_score ≥ 40 then "Medium"
    else "Low"
  { risk_score := risk_score
    risk_label := risk_label
    risk_details :=
      { base_score := round1 avgAccountSuspicion
        pattern_type_normalized := patternType
        features := extractRingFeatures g ring ringTransactions
        bonuses :=
          { time_compression := tDensity
            flow_through := cSeverity
            shell_density := 0
            hop_length := 0 } } }

/-- `findRingTransactions`: transactions whose sender and receiver are both
ring members. -/
def findRingTransactions (transactions : List Transaction)
    (memberAccounts : List String) : List Transaction :=
  transactions.filter (fun tx =>
    tx.sender_id ∈ memberAccounts ∧ tx.receiver_id ∈ memberAccounts)

/-- A scored suspicious-account record (`scoreAllAccounts` output): the
input record with `suspicion_score` replaced, plus label and details. -/
structure ScoredAccount where
  base : AccountRec
  suspicion_label : String
  acceleration_score : ℚ
  stability_score : ℚ
  ring_participation_bonus : ℚ
  acceleration_details : AccelDetails
  stability_details : StabDetails
  deriving Repr, DecidableEq

/-- `scoreAllAccounts`: score each account once (skipping duplicate ids),
then sort by suspicion score descending (stable). -/
def scoreAllAccounts (g : Graph) (accounts : List AccountRec) : List ScoredAccount :=
  let scored := (accounts.foldl (fun (st : List String × List ScoredAccount) acc =>
    if acc.account_id ∈ st.1 then st else
    let scoring := computeSuspicionScore g acc.account_id acc.detected_patterns
    (st.1 ++ [acc.account_id],
     st.2 ++ [{ base := { acc with suspicion_score := scoring.suspicion_score }
                suspicion_label := scoring.suspicion_label
                acceleration_score := scoring.acceleration_score
                stability_score := scoring.stability_score
                ring_participation_bonus := scoring.ring_participation_bonus
                acceleration_details := scoring.acceleration_details
                stability_details := scoring.stability_details }])) ([], [])).2
  scored.insertionSort (fun a b => b.base.suspicion_score ≤ a.base.suspicion_score)

/-- A scored ring (`scoreAllRings` output): the ring with `risk_score`
replaced, plus label and details. -/
structure ScoredRing where
  base : Ring
  risk_label : String
  risk_details : RiskDetails
  deriving Repr, DecidableEq

/-- `scoreAllRings`. -/
def scoreAllRings (g : Graph) (transactions : List Transaction)
    (fraudRings : List Ring) (scoredAccounts : List ScoredAccount) : List ScoredRing :=
  let suspicionLookup := scoredAccounts.foldl (fun m acc =>
    mapSet m acc.base.account_id acc.base.suspicion_score) []
  fraudRings.map (fun ring =>
    let memberScores := ring.member_accounts.map (fun m => (mapGet suspicionLookup m).getD 0)
    let ringTxns := findRingTransactions transactions ring.member_accounts
    let scoring := computeRiskScore g ring memberScores ringTxns
    { base := { ring with risk_score := scoring.risk_score }
      risk_label := scoring.risk_label
      risk_details := scoring.risk_details })

/-! ## Forensics engine (`forensicsEngine.js` — `analyze`) -/

/-- `String(n).padStart(3, '0')`. -/
def pad3 (n : ℕ) : String :=
  let s := toString n
  String.mk (List.replicate (3 - s.length) '0') ++ s

/-- `RING_` + zero-padded counter. -/
def ringIdStr (n : ℕ) : String := "RING_" ++ pad3 n

/-- The per-account entry of the suspicion map
(`{maxScore, patterns, ringIds}`). -/
structure SuspicionData where
  maxScore : ℚ
  patterns : List String
  ringIds : List String
  deriving Repr, DecidableEq

/-- `_addAccountSuspicion`. -/
def addAccountSuspicion (m : List (String × SuspicionData)) (accountId : String)
    (score : ℚ) (pattern : String) (ringId : String) : List (String × SuspicionData) :=
  let data := (mapGet m accountId).getD
    { maxScore := score, patterns := [], ringIds := [] }
  let data :=
    { maxScore := max data.maxScore score
      patterns := setAdd data.patterns pattern
      ringIds := if ringId ∈ data.ringIds then data.ringIds else data.ringIds ++ [ringId] }
  mapSet m accountId data

/-- The state threaded through ring building: next ring counter, ring list,
account suspicion map. -/
structure RingBuildState where
  ringCounter : ℕ
  fraudRings : List Ring
  accountSuspicionMap : List (String × SuspicionData)

/-- Process the detected cycles into rings (step 5, first loop). -/
def processCycles (g : Graph) (cycles : List (List String))
    (st : RingBuildState) : RingBuildState :=
  cycles.foldl (fun st cycle =>
    let ringId := ringIdStr st.ringCounter
    let score := scoreCycle g cycle
    let ring : Ring :=
      { ring_id := ringId
        member_accounts := cycle
        pattern_type := "cycle"
        risk_score := round1 score
        cycle_length := some cycle.length
        chain_length := none
        amount_pattern := none
        temporal_window_hours := none
        aggregatorNode := none
        disperserNode := none }
    let patternStr := "cycle_length_" ++ toString cycle.length
    let m := cycle.foldl (fun m account =>
      addAccountSuspicion m account score patternStr ringId) st.accountSuspicionMap
    { ringCounter := st.ringCounter + 1
      fraudRings := st.fraudRings ++ [ring]
      accountSuspicionMap := m }) st

/-- Process the smurfing groups into rings (step 5, second loop). -/
def processSmurfGroups (groups : List SmurfGroup) (st : RingBuildState) : RingBuildState :=
  groups.foldl (fun st group =>
    let ringId := ringIdStr st.ringCounter
    let patternType :=
      if group.type = "fan_in" then "fan_in"
      else if group.type = "fan_out" then "fan_out"
      else "fan_in_fan_out"
    let members := jsDedup group.members
    let ring : Ring :=
      { ring_id := ringId
        member_accounts := members
        pattern_type := patternType
        risk_score := round1 group.score
        cycle_length := none
        chain_length := none
        amount_pattern := none
        temporal_window_hours := group.temporalWindowHours
        aggregatorNode := group.aggregatorNode
        disperserNode := group.disperserNode }
    let patterns : List String :=
      (if group.type = "fan_in" ∨ group.type = "fan_in_fan_out" then ["fan_in"] else []) ++
      (if group.type = "fan_out" ∨ group.type = "fan_in_fan_out" then ["fan_out"] else []) ++
      -- `if (group.temporalWindowHours)`: JS truthiness — both `null` and `0` fail
      (match group.temporalWindowHours with
       | some w => if w ≠ 0 then ["high_velocity"] else []
       | none => [])
    let m := members.foldl (fun m account =>
      patterns.foldl (fun m pattern =>
        addAccountSuspicion m account group.score pattern ringId) m) st.accountSuspicionMap
    { ringCounter := st.ringCounter + 1
      fraudRings := st.fraudRings ++ [ring]
      accountSuspicionMap := m }) st

/-- Process the shell chains into rings (step 5, third loop). -/
def processShellChains (chains : List ShellChain) (st : RingBuildState) : RingBuildState :=
  chains.foldl (fun st chain =>
    let ringId := ringIdStr st.ringCounter
    let ring : Ring :=
      { ring_id := ringId
        member_accounts := chain.chain
        pattern_type := "shell_network"
        risk_score := round1 chain.score
        cycle_length := none
        chain_length := some chain.chain.length
        -- `chain.amountPattern || 'mixed'`: the empty string is the only falsy string
        amount_pattern := some (if chain.amountPattern = "" then "mixed" else chain.amountPattern)
        temporal_window_hours := none
        aggregatorNode := none
        disperserNode := none }
    let m := chain.chain.foldl (fun m account =>
      let pattern :=
        if account ∈ chain.shellAccounts then "shell_intermediary"
        else "shell_network_endpoint"
      addAccountSuspicion m account chain.score pattern ringId) st.accountSuspicionMap
    { ringCounter := st.ringCounter + 1
      fraudRings := st.fraudRings ++ [ring]
      accountSuspicionMap := m }) st

/-- The `summary` record of the result snapshot. -/
structure Summary where
  total_accounts_analyzed : ℕ
  suspicious_accounts_flagged : ℕ
  fraud_rings_detected : ℕ
  processing_time_seconds : ℚ
  deriving Repr, DecidableEq

/-- The result snapshot of `analyze` (the spec's output record:
`suspicious_accounts`, `fraud_rings`, `summary`; the `graph_data`
visualization payload is a presentation concern outside the pipeline). -/
structure AnalyzeResult where
  suspicious_accounts : List ScoredAccount
  fraud_rings : List ScoredRing
  summary : Summary
  deriving Repr, DecidableEq

/-- The `ring_id` reassignment of `analyze`: build `ringMapping` by walking
the final rings (later rings overwrite earlier entries per member), then
give each account the mapped id, falling back to its existing `ring_id`. -/
def assignRingIds (rings : List Ring) (accounts : List AccountRec) : List AccountRec :=
  let ringMapping := rings.foldl (fun m ring =>
    ring.member_accounts.foldl (fun m member => mapSet m member ring.ring_id) m) []
  accounts.map (fun acc =>
    { acc with ring_id := (mapGet ringMapping acc.account_id).getD acc.ring_id })

/-- The time-independent part of `analyze`: the full pipeline from the
transaction batch to the scored accounts, scored rings, and counts. -/
def analyzeCore (transactions : List Transaction) :
    List ScoredAccount × List ScoredRing × ℕ :=
  let g := buildGraph transactions
  let cycles := cycleDetect g
  let smurfingGroups := smurfDetect g
  let shellChains := shellDetect g
  let st : RingBuildState :=
    { ringCounter := 1, fraudRings := [], accountSuspicionMap := [] }
  let st := processShellChains shellChains
    (processSmurfGroups smurfingGroups (processCycles g cycles st))
  let fpState := fpDetectLegitimate g
  let suspiciousAccounts : List AccountRec := st.accountSuspicionMap.map (fun p =>
    { account_id := p.1
      suspicion_score := round1 p.2.maxScore
      detected_patterns := p.2.patterns
      ring_id := p.2.ringIds.headD "" })
  let fr := filterResults fpState suspiciousAccounts st.fraudRings
  let filteredAccounts :=
    fr.1.insertionSort (fun a b => b.suspicion_score ≤ a.suspicion_score)
  let mergedRings := mergeOverlappingRings fr.2
  let ringsWithIds := (List.range mergedRings.length).map (fun idx =>
    { mergedRings.getD idx default with ring_id := ringIdStr (idx + 1) })
  let accountsWithRingIds := assignRingIds ringsWithIds filteredAccounts
  let scoredAccounts := scoreAllAccounts g accountsWithRingIds
  let scoredRings := scoreAllRings g transactions ringsWithIds scoredAccounts
  (scoredAccounts, scoredRings, g.nodes.length)

/-- `ForensicsEngine.analyze`. The two `Date.now()` readings (before and
after the pipeline) are explicit inputs `startTime` and `endTime`. -/
def analyze (transactions : List Transaction) (startTime endTime : ℤ) : AnalyzeResult :=
  let core := analyzeCore transactions
  let processingTime : ℚ := ((endTime - startTime : ℤ) : ℚ) / 1000
  { suspicious_accounts := core.1
    fraud_rings := core.2.1
    summary :=
      { total_accounts_analyzed := core.2.2
        suspicious_accounts_flagged := core.1.length
        fraud_rings_detected := core.2.1.length
        processing_time_seconds := round1 processingTime } }

/-! ## Shared helper lemmas -/

theorem mem_jsDedup_aux {α : Type} [DecidableEq α] (l acc : List α) (x : α) :
    x ∈ l.foldl (fun acc y => if y ∈ acc then acc else acc ++ [y]) acc ↔
      x ∈ acc ∨ x ∈ l := by
  induction l generalizing acc with
  | nil => simp
  | cons a t ih =>
    simp only [List.foldl_cons]
    by_cases ha : a ∈ acc
    · rw [if_pos ha, ih]
      constructor
      · rintro (h | h)
        · exact Or.inl h
        · exact Or.inr (List.mem_cons_of_mem _ h)
      · rintro (h | h)
        · exact Or.inl h
        · rcases List.mem_cons.1 h with rfl | h
          · exact Or.inl ha
          · exact Or.inr h
    · rw [if_neg ha, ih]
      simp only [List.mem_append, List.mem_singleton, List.mem_cons]
      tauto

theorem mem_jsDedup {α : Type} [DecidableEq α] (l : List α) (x : α) :
    x ∈ jsDedup l ↔ x ∈ l := by
  unfold jsDedup
  rw [mem_jsDedup_aux]
  simp

theorem nodup_jsDedup_aux {α : Type} [DecidableEq α] (l acc : List α) (h : acc.Nodup) :
    (l.foldl (fun acc y => if y ∈ acc then acc else acc ++ [y]) acc).Nodup := by
  induction l generalizing acc with
  | nil => exact h
  | cons a t ih =>
    simp only [List.foldl_cons]
    by_cases ha : a ∈ acc
    · rw [if_pos ha]; exact ih _ h
    · rw [if_neg ha]
      refine ih _ ?_
      simpa [List.nodup_append] using ⟨h, ha⟩

theorem nodup_jsDedup {α : Type} [DecidableEq α] (l : List α) : (jsDedup l).Nodup :=
  nodup_jsDedup_aux l [] List.nodup_nil

theorem mapGet_mem {κ α : Type} [DecidableEq κ] (m : List (κ × α)) (k : κ) (v : α)
    (h : mapGet m k = some v) : (k, v) ∈ m := by
  induction m with
  | nil => simp [mapGet] at h
  | cons p t ih =>
    obtain ⟨k0, v0⟩ := p
    by_cases hk : k0 = k
    · subst hk
      simp [mapGet] at h
      simp [h]
    · simp only [mapGet, if_neg hk] at h
      exact List.mem_cons_of_mem _ (ih h)

theorem mapGet_of_mem_nodup {κ α : Type} [DecidableEq κ] (m : List (κ × α)) (k : κ) (v : α)
    (hmem : (k, v) ∈ m) (hnd : (m.map Prod.fst).Nodup) : mapGet m k = some v := by
  induction m with
  | nil => simp at hmem
  | cons p t ih =>
    obtain ⟨k0, v0⟩ := p
    simp only [List.map_cons, List.nodup_cons] at hnd
    rcases List.mem_cons.1 hmem with h | h
    · obtain ⟨h1, h2⟩ := Prod.mk.injEq .. ▸ h
      injection h with h'
      simp_all [mapGet]
    · have hk : k0 ≠ k := by
        rintro rfl
        exact hnd.1 (List.mem_map.2 ⟨(k0, v), h, rfl⟩)
      simp [mapGet, hk, ih h hnd.2]

/-! ## C9 — guarded fallbacks in scoring and metadata -/

/-- Modelled from the spec: the claim's reading that the throughput ratio is
*unset* (not a number) whenever `total_received = 0`. -/
def throughputUnsetClaim (g : Graph) : Prop :=
  ∀ n m, mapGet g.nodeMetadata n = some m → m.totalReceived = 0 →
    m.throughputRatio = none

/-- C9 counterexample: on the one-transaction batch `A → B`, node `A` has
`total_received = 0` yet its `throughputRatio` is the number `0`, not
unset — the graph builder writes `0`, not an absent value. -/
theorem c9_counterexample :
    ¬ throughputUnsetClaim
      (buildGraph [{ transaction_id := "T1", sender_id := "A", receiver_id := "B",
                     amount := 100, timestamp := 0 }]) := by
  intro h
  have h2 := h "A"
    { totalSent := 100, totalReceived := 0, uniqueSenders := 0, uniqueReceivers := 1,
      txCount := 1, outDegree := 1, inDegree := 0, allTimestamps := [0],
      minTimeDeltaMs := none, throughputRatio := some 0 }
    (by decide) rfl
  exact Option.noConfusion h2

/-- C9 (amended): scoring and metadata never fail on edge cases — `V = 1`
when there is at most one timestamp, `PTR = 0` when
`max(total_in, total_out) = 0`, and the throughput ratio is **set to the
number 0** (rather than left unset) when `total_received = 0`. -/
theorem c9_guarded_fallbacks :
    (∀ ts : List ℤ, ts.length ≤ 1 → computeVelocity72h ts = 1) ∧
    (∀ m : Meta, max m.totalReceived m.totalSent = 0 → codePtr m = 0) ∧
    (∀ (outEdges : List FwdEdge) (inEdges : List RevEdge),
      (buildMeta outEdges inEdges).totalReceived = 0 →
        (buildMeta outEdges inEdges).throughputRatio = some 0) := by
  refine ⟨?_, ?_, ?_⟩
  · intro ts h
    unfold computeVelocity72h
    rw [if_pos h]
  · intro m h
    unfold codePtr
    simp only
    rw [if_neg]
    rw [h]
    exact lt_irrefl 0
  · intro outEdges inEdges h
    unfold buildMeta at h ⊢
    simp only at h ⊢
    rw [if_neg]
    rw [h]
    exact lt_irrefl 0

/-- C9 witness: the three fallbacks at concrete inputs. -/
theorem c9_witness :
    computeVelocity72h [5] = 1 ∧
    codePtr { totalSent := 0, totalReceived := 0, uniqueSenders := 0, uniqueReceivers := 0,
              txCount := 0, outDegree := 0, inDegree := 0, allTimestamps := [],
              minTimeDeltaMs := none, throughputRatio := some 0 } = 0 ∧
    (buildMeta [{ dst := "B", amount := 100, timestamp := 0, txId := "T1" }] []).throughputRatio
      = some 0 :=
  ⟨c9_guarded_fallbacks.1 [5] (by decide),
   c9_guarded_fallbacks.2.1 _ (by decide),
   c9_guarded_fallbacks.2.2 _ [] (by decide)⟩

/-! ## C3 — the account suspicion-score formula -/

theorem round1_mono {x y : ℚ} (h : x ≤ y) : round1 x ≤ round1 y := by
  unfold round1 jsRound
  have h10 : x * 10 + 1/2 ≤ y * 10 + 1/2 := by linarith
  have := Int.floor_le_floor h10
  have hc : ((⌊x * 10 + 1/2⌋ : ℤ) : ℚ) ≤ ((⌊y * 10 + 1/2⌋ : ℤ) : ℚ) := by
    exact_mod_cast this
  linarith

theorem round1_zero : round1 0 = 0 := by decide

theorem round1_hundred : round1 100 = 100 := by decide

/-- Clamping after rounding to one decimal equals rounding the clamped
value: `min 100 (max 0 (round1 x)) = round1 (min 100 (max 0 x))`. -/
theorem clamp_round1 (x : ℚ) : min 100 (max 0 (round1 x)) = round1 (min 100 (max 0 x)) := by
  rcases le_total x 0 with h | h
  · have h1 : max 0 x = 0 := max_eq_left h
    have h2 : round1 x ≤ 0 := round1_zero ▸ round1_mono h
    rw [h1, max_eq_left h2]
    simp [round1_zero]
  · have h1 : max 0 x = x := max_eq_right h
    have h2 : (0:ℚ) ≤ round1 x := round1_zero ▸ round1_mono h
    rw [h1, max_eq_right h2]
    rcases le_total 100 x with h3 | h3
    · have h4 : min 100 x = 100 := min_eq_left h3
      have h5 : (100:ℚ) ≤ round1 x := round1_hundred ▸ round1_mono h3
      rw [h4, min_eq_left h5, round1_hundred]
    · have h4 : min 100 x = x := min_eq_right h3
      have h5 : round1 x ≤ 100 := round1_hundred ▸ round1_mono h3
      rw [h4, min_eq_right h5]

/-- The pattern modifier as the spec states it: a function of the tag set,
each role contributing at most once. -/
def pmSpec (ps : List String) (m : Meta) : ℚ :=
  (if ∃ p ∈ ps, strContains p "cycle" = true then 20 else 0) +
  (if "fan_in" ∈ ps then 25 else 0) +
  (if "fan_out" ∈ ps then 25 else 0) +
  (if "shell_intermediary" ∈ ps ∨ "shell_network_endpoint" ∈ ps then
    (if m.txCount ≤ 3 then 30 else 15) else 0)

/-- The shell-role points for a (possibly missing) metadata record. -/
def shellPts (meta : Option Meta) : ℚ :=
  match meta with
  | some m => if m.txCount ≤ 3 then 30 else 15
  | none => 15

theorem pmStep_eq (meta : Option Meta) (st : ℚ × Bool × Bool × Bool × Bool)
    (p : String) :
    pmStep meta st p =
      (st.1 +
        ((if st.2.1 = false ∧ strContains p "cycle" = true then 20 else 0) +
         (if st.2.2.1 = false ∧ p = "fan_in" then 25 else 0) +
         (if st.2.2.2.1 = false ∧ p = "fan_out" then 25 else 0) +
         (if st.2.2.2.2 = false ∧ (p = "shell_intermediary" ∨ p = "shell_network_endpoint")
          then shellPts meta else 0)),
       st.2.1 || strContains p "cycle",
       st.2.2.1 || decide (p = "fan_in"),
       st.2.2.2.1 || decide (p = "fan_out"),
       st.2.2.2.2 || decide (p = "shell_intermediary" ∨ p = "shell_network_endpoint")) := by
  obtain ⟨pm, c, f, o, sh⟩ := st
  have hsh : ∀ q : ℚ,
      (match meta with
       | some m => if m.txCount ≤ 3 then (q + 30, true) else (q + 15, true)
       | none => (q + 15, true)) = (q + shellPts meta, true) := by
    intro q
    cases meta with
    | none => rfl
    | some m =>
      simp only [shellPts]
      split <;> rfl
  unfold pmStep
  cases c <;> cases f <;> cases o <;> cases sh <;>
    by_cases h1 : strContains p "cycle" = true <;>
    by_cases h2 : p = "fan_in" <;>
    by_cases h3 : p = "fan_out" <;>
    by_cases h4 : (p = "shell_intermediary" ∨ p = "shell_network_endpoint") <;>
    simp only [h1, h2, h3, h4, hsh, Bool.not_true, Bool.not_false, not_true, not_false_iff,
      true_and, false_and, and_true, and_false, if_true, if_false, Bool.true_or,
      Bool.false_or, Bool.or_true, Bool.or_false, decide_eq_true_eq, Bool.or_self,
      Prod.mk.injEq] <;>
    simp_all <;> ring

/-- Combining one role's head contribution with its tail contribution. -/
theorem pmRole_merge (b : Bool) (h1 h2 : Prop) [Decidable h1] [Decidable h2] (pts : ℚ) :
    (if b = false ∧ h1 then pts else 0) +
      (if (b || decide h1) = false ∧ h2 then pts else 0) =
    (if b = false ∧ (h1 ∨ h2) then pts else 0) := by
  cases b <;> by_cases hh1 : h1 <;> by_cases hh2 : h2 <;> simp [hh1, hh2]

theorem pmFold_spec (meta : Option Meta) (l : List String) (pm0 : ℚ)
    (c f o sh : Bool) :
    (l.foldl (pmStep meta) (pm0, c, f, o, sh)).1 =
    pm0 +
      (if c = false ∧ ∃ p ∈ l, strContains p "cycle" = true then 20 else 0) +
      (if f = false ∧ "fan_in" ∈ l then 25 else 0) +
      (if o = false ∧ "fan_out" ∈ l then 25 else 0) +
      (if sh = false ∧ ("shell_intermediary" ∈ l ∨ "shell_network_endpoint" ∈ l) then
        shellPts meta else 0) := by
  induction l generalizing pm0 c f o sh with
  | nil => simp
  | cons p t ih =>
    rw [List.foldl_cons, pmStep_eq]
    rw [ih]
    have m1 := pmRole_merge c (strContains p "cycle" = true)
      (∃ q ∈ t, strContains q "cycle" = true) 20
    have hdc : ∀ x : Bool, decide (x = true) = x := fun x => by cases x <;> rfl
    rw [hdc] at m1
    have m2 := pmRole_merge f (p = "fan_in") ("fan_in" ∈ t) 25
    have m3 := pmRole_merge o (p = "fan_out") ("fan_out" ∈ t) 25
    have m4 := pmRole_merge sh (p = "shell_intermediary" ∨ p = "shell_network_endpoint")
      ("shell_intermediary" ∈ t ∨ "shell_network_endpoint" ∈ t) (shellPts meta)
    have e1 : (∃ q ∈ p :: t, strContains q "cycle" = true) ↔
        (strContains p "cycle" = true ∨ ∃ q ∈ t, strContains q "cycle" = true) := by
      simp
    have e2 : ("fan_in" ∈ p :: t) ↔ (p = "fan_in" ∨ "fan_in" ∈ t) := by
      simp [List.mem_cons, eq_comm]
    have e3 : ("fan_out" ∈ p :: t) ↔ (p = "fan_out" ∨ "fan_out" ∈ t) := by
      simp [List.mem_cons, eq_comm]
    have e4 : ("shell_intermediary" ∈ p :: t ∨ "shell_network_endpoint" ∈ p :: t) ↔
        ((p = "shell_intermediary" ∨ p = "shell_network_endpoint") ∨
          ("shell_intermediary" ∈ t ∨ "shell_network_endpoint" ∈ t)) := by
      simp only [List.mem_cons, eq_comm]
      constructor
      · rintro ((h | h) | (h | h))
        · exact Or.inl (Or.inl h)
        · exact Or.inr (Or.inl h)
        · exact Or.inl (Or.inr h)
        · exact Or.inr (Or.inr h)
      · rintro ((h | h) | (h | h))
        · exact Or.inl (Or.inl h)
        · exact Or.inr (Or.inl h)
        · exact Or.inl (Or.inr h)
        · exact Or.inr (Or.inr h)
    rw [if_congr (and_congr_right' e1) rfl rfl, if_congr (and_congr_right' e2) rfl rfl,
      if_congr (and_congr_right' e3) rfl rfl, if_congr (and_congr_right' e4) rfl rfl,
      ← m1, ← m2, ← m3, ← m4]
    ring

/-- `_computePatternModifier` equals the set function of the claim. -/
theorem computePatternModifier_eq (ps : List String) (m : Meta) :
    computePatternModifier ps (some m) = pmSpec ps m := by
  unfold computePatternModifier
  rw [pmFold_spec]
  unfold pmSpec shellPts
  have hex : (∃ p ∈ jsDedup ps, strContains p "cycle" = true) ↔
      (∃ p ∈ ps, strContains p "cycle" = true) := by
    constructor
    · rintro ⟨p, hp, h⟩
      exact ⟨p, (mem_jsDedup ps p).1 hp, h⟩
    · rintro ⟨p, hp, h⟩
      exact ⟨p, (mem_jsDedup ps p).2 hp, h⟩
  rw [if_congr (and_congr_right' hex) rfl rfl,
    if_congr (and_congr_right' (mem_jsDedup ps "fan_in")) rfl rfl,
    if_congr (and_congr_right' (mem_jsDedup ps "fan_out")) rfl rfl,
    if_congr (and_congr_right'
      (or_congr (mem_jsDedup ps "shell_intermediary")
        (mem_jsDedup ps "shell_network_endpoint"))) rfl rfl]
  simp

/-- The pass-through rate as the spec states it. -/
def ptrSpec (m : Meta) : ℚ :=
  if max m.totalReceived m.totalSent = 0 then 0
  else min m.totalReceived m.totalSent / max m.totalReceived m.totalSent

/-- The false-positive penalty as the spec states it. -/
def fppSpec (m : Meta) : ℚ :=
  if 50 < m.txCount ∧ ptrSpec m < 3/10 then 50 else 0

theorem codePtr_eq_ptrSpec (m : Meta) (hin : 0 ≤ m.totalReceived)
    (hout : 0 ≤ m.totalSent) : codePtr m = ptrSpec m := by
  unfold codePtr ptrSpec
  simp only
  rcases eq_or_lt_of_le (le_max_of_le_left hin :
      (0:ℚ) ≤ max m.totalReceived m.totalSent) with h | h
  · rw [if_neg (by rw [← h]; exact lt_irrefl 0), if_pos h.symm]
  · rw [if_pos h, if_neg (ne_of_gt h)]

/-- C3: for every account with metadata (totals are nonnegative sums of
positive amounts), the reported suspicion score is
`clamp(0, 100, 35·PTR + 35·V + PM − FPP)` rounded to one decimal place,
with `PTR = min(in,out)/max(in,out)` (0 when the max is 0),
`FPP = 50` exactly when `tx_count > 50` and `PTR < 0.3`, and the pattern
modifier a function of the tag set contributing at most once per role
(+20 for a tag containing `cycle`, +25 for `fan_in`, +25 for `fan_out`,
+30 for a shell tag when `tx_count ≤ 3`, else +15). -/
theorem c3_suspicion_score_formula (g : Graph) (a : String) (ps : List String)
    (m : Meta) (hm : mapGet g.nodeMetadata a = some m)
    (hin : 0 ≤ m.totalReceived) (hout : 0 ≤ m.totalSent) :
    (computeSuspicionScore g a ps).suspicion_score =
      round1 (min 100 (max 0
        (35 * ptrSpec m + 35 * computeVelocity72h m.allTimestamps +
          pmSpec ps m - fppSpec m))) := by
  unfold computeSuspicionScore
  rw [hm]
  simp only
  rw [codePtr_eq_ptrSpec m hin hout, computePatternModifier_eq]
  rw [clamp_round1]
  unfold fppSpec
  rfl

/-- C3 witness: the shell intermediary `SH1` of the exact-pass-through
scenario. -/
theorem c3_witness :
    (computeSuspicionScore (buildGraph
      [{ transaction_id := "T13", sender_id := "O1", receiver_id := "SH1",
         amount := 200000, timestamp := 1767693600000 },
       { transaction_id := "T14", sender_id := "SH1", receiver_id := "SH2",
         amount := 200000, timestamp := 1767694080000 }])
      "SH1" ["shell_intermediary"]).suspicion_score =
      round1 (min 100 (max 0
        (35 * ptrSpec
            { totalSent := 200000, totalReceived := 200000, uniqueSenders := 1,
              uniqueReceivers := 1, txCount := 2, outDegree := 1, inDegree := 1,
              allTimestamps := [1767693600000, 1767694080000],
              minTimeDeltaMs := some 480000, throughputRatio := some 1 } +
          35 * computeVelocity72h [1767693600000, 1767694080000] +
          pmSpec ["shell_intermediary"]
            { totalSent := 200000, totalReceived := 200000, uniqueSenders := 1,
              uniqueReceivers := 1, txCount := 2, outDegree := 1, inDegree := 1,
              allTimestamps := [1767693600000, 1767694080000],
              minTimeDeltaMs := some 480000, throughputRatio := some 1 } -
          fppSpec
            { totalSent := 200000, totalReceived := 200000, uniqueSenders := 1,
              uniqueReceivers := 1, txCount := 2, outDegree := 1, inDegree := 1,
              allTimestamps := [1767693600000, 1767694080000],
              minTimeDeltaMs := some 480000, throughputRatio := some 1 }))) :=
  c3_suspicion_score_formula _ "SH1" ["shell_intermediary"] _ (by decide)
    (by decide) (by decide)

/-! ## C4 — the 72-hour velocity window -/

/-- Maximum of a list of naturals. -/
def natMax (l : List ℕ) : ℕ := l.foldl max 0

theorem foldl_max_init (l : List ℕ) (a : ℕ) : l.foldl max a = max a (natMax l) := by
  unfold natMax
  induction l generalizing a with
  | nil => simp
  | cons b t ih =>
    simp only [List.foldl_cons]
    rw [ih (max a b), ih (max 0 b)]
    simp [max_assoc]

theorem le_natMax {l : List ℕ} {x : ℕ} (h : x ∈ l) : x ≤ natMax l := by
  induction l with
  | nil => simp at h
  | cons b t ih =>
    unfold natMax
    simp only [List.foldl_cons]
    rw [foldl_max_init]
    rcases List.mem_cons.1 h with rfl | h
    · exact le_max_of_le_left (by simp)
    · exact le_max_of_le_right (ih h)

theorem natMax_le {l : List ℕ} {m : ℕ} (h : ∀ x ∈ l, x ≤ m) : natMax l ≤ m := by
  induction l with
  | nil => simp [natMax]
  | cons b t ih =>
    unfold natMax
    simp only [List.foldl_cons]
    rw [foldl_max_init]
    refine max_le (max_le (Nat.zero_le _) (h b (by simp))) ?_
    exact ih (fun x hx => h x (List.mem_cons_of_mem _ hx))

/-- The 72-hour window in milliseconds. -/
def window72Ms : ℤ := 72 * 3600 * 1000

/-- Number of timestamps of `ts` in the *closed* window `[t, t + 72h]`. -/
def windowCountClosed (ts : List ℤ) (t : ℤ) : ℕ :=
  (ts.filter (fun u => t ≤ u ∧ u ≤ t + window72Ms)).length

/-- Number of timestamps of `ts` in the *right-open* window `[t, t + 72h)`. -/
def windowCountOpen (ts : List ℤ) (t : ℤ) : ℕ :=
  (ts.filter (fun u => t ≤ u ∧ u < t + window72Ms)).length

/-- The maximum count over closed windows anchored at each timestamp. -/
def maxWindowCountClosed (ts : List ℤ) : ℕ :=
  natMax (ts.map (windowCountClosed ts))

/-- The maximum count over right-open windows anchored at each timestamp. -/
def maxWindowCountOpen (ts : List ℤ) : ℕ :=
  natMax (ts.map (windowCountOpen ts))

/-- Velocity per the claim's *right-open* reading. -/
def velocitySpecOpen (ts : List ℤ) : ℚ :=
  if ts.length ≤ 1 then 1 else (maxWindowCountOpen ts : ℚ) / (ts.length : ℚ)

/-- Velocity with *closed* windows (what the code computes). -/
def velocitySpecClosed (ts : List ℤ) : ℚ :=
  if ts.length ≤ 1 then 1 else (maxWindowCountClosed ts : ℚ) / (ts.length : ℚ)

/-- C4 counterexample: for the two timestamps `0` and exactly 72 hours
later, the code counts both in one window (V = 1), while the claimed
right-open window would exclude the boundary transaction (V = 1/2): the
boundary transaction is *inside* the code's window. -/
theorem c4_counterexample :
    computeVelocity72h [0, 259200000] = 1 ∧
    velocitySpecOpen [0, 259200000] = 1/2 ∧
    computeVelocity72h [0, 259200000] ≠ velocitySpecOpen [0, 259200000] := by
  refine ⟨by decide, by decide, by decide⟩

theorem sortTs_sorted (l : List ℤ) : (sortTs l).Sorted (· ≤ ·) := by
  unfold sortTs
  exact List.sorted_insertionSort _ l

theorem sortTs_perm (l : List ℤ) : List.Perm (sortTs l) l := by
  unfold sortTs
  exact List.perm_insertionSort _ l

/-- On a sorted list, `takeWhile (· ≤ b)` and `filter (· ≤ b)` agree. -/
theorem takeWhile_eq_filter_of_sorted {l : List ℤ} (hl : l.Sorted (· ≤ ·)) (b : ℤ) :
    l.takeWhile (fun u => u ≤ b) = l.filter (fun u => u ≤ b) := by
  induction l with
  | nil => rfl
  | cons a t ih =>
    rcases List.sorted_cons.1 hl with ⟨ha, ht⟩
    by_cases hab : a ≤ b
    · rw [List.takeWhile_cons_of_pos (by simpa using hab),
        List.filter_cons_of_pos (by simpa using hab), ih ht]
    · rw [List.takeWhile_cons_of_neg (by simpa using hab),
        List.filter_cons_of_neg (by simpa using hab)]
      symm
      apply List.filter_eq_nil.2
      intro u hu
      simp only [decide_eq_true_eq]
      intro hub
      exact hab (le_trans (ha u hu) hub)

/-- Dropping then filtering with `≤ b` undercounts the closed window at the
dropped-to element. -/
theorem sorted_getD_le_mem_drop {l : List ℤ} (hl : l.Sorted (· ≤ ·)) (i : ℕ)
    (hi : i < l.length) : ∀ u ∈ l.drop i, l.getD i 0 ≤ u := by
  intro u hu
  have hgd : l.getD i 0 = l.get ⟨i, hi⟩ := List.getD_eq_get l 0 hi
  rw [hgd]
  have hdrop : l.drop i = l.get ⟨i, hi⟩ :: l.drop (i + 1) :=
    List.drop_eq_get_cons hi
  rw [hdrop] at hu
  rcases List.mem_cons.1 hu with rfl | hu
  · exact le_refl _
  · have hsub : l.drop i <:+ l := List.drop_suffix i l
    have : (l.drop i).Sorted (· ≤ ·) := hl.sublist (List.drop_suffix i l).sublist
    rw [hdrop] at this
    exact (List.sorted_cons.1 this).1 u hu

theorem natMax_cons (x : ℕ) (l : List ℕ) : natMax (x :: l) = max x (natMax l) := by
  unfold natMax
  simp only [List.foldl_cons]
  rw [foldl_max_init]
  simp [natMax]

theorem foldl_max_map {α : Type} (f : α → ℕ) (l : List α) (a : ℕ) :
    l.foldl (fun m x => max m (f x)) a = max a (natMax (l.map f)) := by
  induction l generalizing a with
  | nil => simp [natMax]
  | cons b t ih =>
    simp only [List.foldl_cons, List.map_cons]
    rw [ih, natMax_cons, max_assoc]

theorem natMax_perm {l l' : List ℕ} (h : List.Perm l l') : natMax l = natMax l' := by
  refine le_antisymm (natMax_le fun x hx => le_natMax (h.mem_iff.1 hx)) ?_
  exact natMax_le fun x hx => le_natMax (h.mem_iff.2 hx)

/-- The count the code's inner `while` loop produces at anchor index `i`. -/
def dropCount (s : List ℤ) (i : ℕ) : ℕ :=
  ((s.drop i).takeWhile (fun u => u ≤ s.getD i 0 + 72 * 3600 * 1000)).length

theorem dropCount_le_windowCount {s : List ℤ} (hs : s.Sorted (· ≤ ·)) (i : ℕ)
    (hi : i < s.length) : dropCount s i ≤ windowCountClosed s (s.getD i 0) := by
  unfold dropCount windowCountClosed
  set t := s.getD i 0 with ht
  have hsorted_drop : (s.drop i).Sorted (· ≤ ·) := hs.sublist (List.drop_suffix i s).sublist
  rw [takeWhile_eq_filter_of_sorted hsorted_drop]
  have hsplit : s.filter (fun u => decide (t ≤ u ∧ u ≤ t + window72Ms)) =
      (s.take i).filter (fun u => decide (t ≤ u ∧ u ≤ t + window72Ms)) ++
      (s.drop i).filter (fun u => decide (t ≤ u ∧ u ≤ t + window72Ms)) := by
    rw [← List.filter_append, List.take_append_drop]
  rw [hsplit, List.length_append]
  have hcongr : (s.drop i).filter (fun u => decide (t ≤ u ∧ u ≤ t + window72Ms)) =
      (s.drop i).filter (fun u => decide (u ≤ t + 72 * 3600 * 1000)) := by
    apply List.filter_congr
    intro u hu
    have hle := sorted_getD_le_mem_drop hs i hi u hu
    rw [← ht] at hle
    simp only [decide_eq_decide, window72Ms]
    constructor
    · rintro ⟨_, h2⟩
      exact h2
    · intro h2
      exact ⟨hle, h2⟩
  rw [hcongr]
  omega

theorem windowCount_le_natMax {s : List ℤ} (hs : s.Sorted (· ≤ ·)) (t : ℤ)
    (ht : t ∈ s) :
    windowCountClosed s t ≤ natMax ((List.range s.length).map (dropCount s)) := by
  classical
  set i0 := s.indexOf t with hi0
  have hlt : i0 < s.length := List.indexOf_lt_length.2 ht
  have hget : s[i0] = t := List.getElem_indexOf hlt
  have hgetD : s.getD i0 0 = t := by
    rw [List.getD_eq_getElem s 0 hlt, hget]
  have htake : ∀ u ∈ s.take i0, u < t := by
    intro u hu
    obtain ⟨j, hj, hju⟩ := List.mem_iff_getElem.1 hu
    have hjlen : j < i0 := lt_of_lt_of_le hj (by simp [List.length_take])
    have hjs : j < s.length := lt_trans hjlen hlt
    have hval : s[j] = u := by
      simpa [List.getElem_take] using hju
    have hle : s[j] ≤ s[i0] := List.pairwise_iff_getElem.1 hs j i0 hjs hlt hjlen
    have hne : s[j] ≠ t := by
      have hb := List.not_of_lt_findIdx
        (show j < s.findIdx (· == t) from by rw [hi0] at hjlen; exact hjlen)
      simpa using hb
    rw [hval] at hle hne
    rw [hget] at hle
    exact lt_of_le_of_ne hle hne
  have hsplit : s.filter (fun u => decide (t ≤ u ∧ u ≤ t + window72Ms)) =
      (s.take i0).filter (fun u => decide (t ≤ u ∧ u ≤ t + window72Ms)) ++
      (s.drop i0).filter (fun u => decide (t ≤ u ∧ u ≤ t + window72Ms)) := by
    rw [← List.filter_append, List.take_append_drop]
  have htake_nil : (s.take i0).filter (fun u => decide (t ≤ u ∧ u ≤ t + window72Ms)) = [] := by
    apply List.filter_eq_nil.2
    intro u hu
    simp only [decide_eq_true_eq, not_and]
    intro hta
    exact absurd hta (not_le_of_lt (htake u hu))
  have hdropf : (s.drop i0).filter (fun u => decide (t ≤ u ∧ u ≤ t + window72Ms)) =
      (s.drop i0).filter (fun u => decide (u ≤ s.getD i0 0 + 72 * 3600 * 1000)) := by
    apply List.filter_congr
    intro u hu
    have hle := sorted_getD_le_mem_drop hs i0 hlt u hu
    rw [hgetD] at hle
    simp only [decide_eq_decide, hgetD, window72Ms]
    constructor
    · rintro ⟨_, h2⟩
      exact h2
    · intro h2
      exact ⟨hle, h2⟩
  have hsorted_drop : (s.drop i0).Sorted (· ≤ ·) :=
    hs.sublist (List.drop_suffix i0 s).sublist
  have hfinal : windowCountClosed s t = dropCount s i0 := by
    unfold windowCountClosed dropCount
    rw [hsplit, List.length_append, htake_nil, hdropf,
      ← takeWhile_eq_filter_of_sorted hsorted_drop]
    simp
  rw [hfinal]
  exact le_natMax (List.mem_map.2 ⟨i0, List.mem_range.2 hlt, rfl⟩)

/-- C4 (amended): for every account the velocity V is computed by sliding a
**right-closed** 72-hour window over the sorted timestamps — the maximum,
over each timestamp `t`, of the number of timestamps in `[t, t + 72h]` —
divided by the count; a transaction exactly 72 hours after the window's
start is **inside** the window; for at most one timestamp, V = 1. -/
theorem c4_velocity_closed_window (ts : List ℤ) :
    computeVelocity72h ts = velocitySpecClosed ts := by
  by_cases h : ts.length ≤ 1
  · unfold computeVelocity72h velocitySpecClosed
    rw [if_pos h, if_pos h]
  · have hrfl : computeVelocity72h ts =
        if ts.length ≤ 1 then (1 : ℚ) else
          (((List.range (sortTs ts).length).foldl (fun m i =>
            max m (((sortTs ts).drop i).takeWhile
              (fun u => u ≤ (sortTs ts).getD i 0 + 72 * 3600 * 1000)).length) 1 : ℕ) : ℚ)
            / (((sortTs ts).length : ℕ) : ℚ) := rfl
    rw [hrfl, if_neg h]
    unfold velocitySpecClosed
    rw [if_neg h]
    set s := sortTs ts with hsdef
    have hs : s.Sorted (· ≤ ·) := sortTs_sorted ts
    have hperm : List.Perm s ts := sortTs_perm ts
    have hlen : s.length = ts.length := hperm.length_eq
    have hfold : (List.range s.length).foldl (fun m i =>
        max m ((s.drop i).takeWhile
          (fun u => u ≤ s.getD i 0 + 72 * 3600 * 1000)).length) 1 =
        max 1 (natMax ((List.range s.length).map (dropCount s))) := by
      exact foldl_max_map (dropCount s) (List.range s.length) 1
    rw [hfold]
    have hwc : ∀ x : ℤ, windowCountClosed ts x = windowCountClosed s x := by
      intro x
      unfold windowCountClosed
      exact (List.Perm.length_eq (List.Perm.filter _ hperm)).symm
    have hmap : ts.map (windowCountClosed ts) = ts.map (windowCountClosed s) :=
      List.map_congr_left (fun x _ => hwc x)
    have hB : maxWindowCountClosed ts = natMax (s.map (windowCountClosed s)) := by
      unfold maxWindowCountClosed
      rw [hmap]
      exact natMax_perm (List.Perm.map (windowCountClosed s) hperm).symm
    have hM : natMax ((List.range s.length).map (dropCount s)) =
        natMax (s.map (windowCountClosed s)) := by
      refine le_antisymm ?_ ?_
      · refine natMax_le fun x hx => ?_
        obtain ⟨i, hi, rfl⟩ := List.mem_map.1 hx
        have hi' : i < s.length := List.mem_range.1 hi
        refine le_trans (dropCount_le_windowCount hs i hi') ?_
        refine le_natMax (List.mem_map.2 ⟨s.getD i 0, ?_, rfl⟩)
        rw [List.getD_eq_getElem s 0 hi']
        exact List.getElem_mem hi'
      · refine natMax_le fun x hx => ?_
        obtain ⟨t, htmem, rfl⟩ := List.mem_map.1 hx
        exact windowCount_le_natMax hs t htmem
    have hpos : 1 ≤ natMax ((List.range s.length).map (dropCount s)) := by
      have hslen : 0 < s.length := by omega
      refine le_trans ?_ (le_natMax (List.mem_map.2 ⟨0, List.mem_range.2 hslen, rfl⟩))
      unfold dropCount
      obtain ⟨a, rest, hcons⟩ : ∃ a rest, s = a :: rest := by
        cases hse : s with
        | nil => rw [hse] at hslen; simp at hslen
        | cons a rest => exact ⟨a, rest, rfl⟩
      rw [hcons]
      simp only [List.drop_zero, List.getD_cons_zero, List.takeWhile_cons]
      have : a ≤ a + 72 * 3600 * 1000 := by omega
      simp [this]
    rw [max_eq_right hpos, hM, ← hB, hlen]

/-- C4 witness: the amended statement instantiated at a two-timestamp list
straddling the boundary (the theorem itself has no hypotheses; this
exercises it on concrete data, where both sides evaluate to 1). -/
theorem c4_witness :
    computeVelocity72h [0, 259200000] = velocitySpecClosed [0, 259200000] :=
  c4_velocity_closed_window [0, 259200000]

/-! ## C8 — payroll temporal regularity vs the smurfing interval rule -/

/-- Modelled from the spec: the claim's reading of the payroll
temporal-regularity rule — the smurfing legitimacy regular-interval rule
(more than 50% of inter-transaction deltas close to one of
{1 day, 7 days, 14 days, 30 days}) with a 25% tolerance window in place of
±20%. -/
def c8ClaimRule (ts : List ℤ) : Prop :=
  5 ≤ ts.length ∧ ∃ interval ∈ smurfIntervalsMs,
    (((deltasOf ts).filter (fun d =>
        (d:ℚ)/(interval:ℚ) > 3/4 ∧ (d:ℚ)/(interval:ℚ) < 5/4)).length : ℚ) /
      ((deltasOf ts).length : ℚ) > 1/2

instance (ts : List ℤ) : Decidable (c8ClaimRule ts) := by
  unfold c8ClaimRule
  infer_instance

/-- C8 counterexample: five hourly timestamps. The payroll rule fires (all
deltas match its 1-hour interval), but the claimed rule — the smurfing
intervals {1d, 7d, 14d, 30d} with a 25% window — does not: the payroll rule
also differs in its threshold (40% vs 50%) and its extra 1-hour interval. -/
theorem c8_counterexample :
    checkTemporalRegularity [0, 3600000, 7200000, 10800000, 14400000] = true ∧
    ¬ c8ClaimRule [0, 3600000, 7200000, 10800000, 14400000] := by
  constructor
  · decide
  · decide

/-- C8 (amended): the payroll branch awards its +20 temporal-regularity
points iff there are at least 5 timestamps and, for one of the **five**
intervals {1 hour, 1 day, 7 days, 14 days, 30 days}, **more than 40%** of
the inter-transaction deltas have ratio strictly inside (0.75, 1.25) — a
25% tolerance window, but a 40% (not 50%) threshold and an extra 1-hour
interval compared with the smurfing legitimacy rule. -/
theorem c8_payroll_regularity (ts : List ℤ) :
    checkTemporalRegularity ts = true ↔
      (5 ≤ ts.length ∧ ∃ interval ∈ payrollIntervalsMs,
        (((deltasOf ts).filter (fun d =>
            (d:ℚ)/(interval:ℚ) > 3/4 ∧ (d:ℚ)/(interval:ℚ) < 5/4)).length : ℚ) /
          ((deltasOf ts).length : ℚ) > 2/5) := by
  unfold checkTemporalRegularity
  by_cases h : ts.length < 5
  · rw [if_pos h]
    simp only [Bool.false_eq_true, false_iff, not_and]
    intro h5
    omega
  · rw [if_neg h]
    rw [List.any_eq_true]
    constructor
    · rintro ⟨interval, hmem, hcond⟩
      refine ⟨by omega, interval, hmem, ?_⟩
      exact of_decide_eq_true hcond
    · rintro ⟨_, interval, hmem, hcond⟩
      exact ⟨interval, hmem, decide_eq_true hcond⟩

/-! ## C5 — idempotence of `analyze` -/

/-- C5 counterexample: two `analyze` runs on the same input with different
wall-clock readings produce snapshots that are not byte-equal — the
summary's `processing_time_seconds` (a field of the summary record the
claim covers) differs. -/
theorem c5_counterexample :
    analyze [] 0 0 ≠ analyze [] 0 100 ∧
    (analyze [] 0 0).summary.processing_time_seconds = 0 ∧
    (analyze [] 0 100).summary.processing_time_seconds = 1/10 := by
  have h1 : (analyze [] 0 0).summary.processing_time_seconds = 0 := by decide
  have h2 : (analyze [] 0 100).summary.processing_time_seconds = 1/10 := by decide
  refine ⟨fun h => ?_, h1, h2⟩
  rw [h, h2] at h1
  norm_num at h1

/-- C5 (amended): `analyze` is deterministic in everything except the wall
clock. On identical input transaction sequences, the suspicious-account
list, the fraud-ring list (orderings included), and every summary field
except `processing_time_seconds` agree across runs; two runs whose clock
readings have equal elapsed time yield identical snapshots. -/
theorem c5_analyze_deterministic (txs : List Transaction) (t0 t1 t0' t1' : ℤ) :
    (analyze txs t0 t1).suspicious_accounts = (analyze txs t0' t1').suspicious_accounts ∧
    (analyze txs t0 t1).fraud_rings = (analyze txs t0' t1').fraud_rings ∧
    (analyze txs t0 t1).summary.total_accounts_analyzed =
      (analyze txs t0' t1').summary.total_accounts_analyzed ∧
    (analyze txs t0 t1).summary.suspicious_accounts_flagged =
      (analyze txs t0' t1').summary.suspicious_accounts_flagged ∧
    (analyze txs t0 t1).summary.fraud_rings_detected =
      (analyze txs t0' t1').summary.fraud_rings_detected ∧
    (t1 - t0 = t1' - t0' → analyze txs t0 t1 = analyze txs t0' t1') := by
  have e : ∀ u0 u1 : ℤ, analyze txs u0 u1 =
      { suspicious_accounts := (analyzeCore txs).1
        fraud_rings := (analyzeCore txs).2.1
        summary :=
          { total_accounts_analyzed := (analyzeCore txs).2.2
            suspicious_accounts_flagged := (analyzeCore txs).1.length
            fraud_rings_detected := (analyzeCore txs).2.1.length
            processing_time_seconds := round1 (((u1 - u0 : ℤ) : ℚ) / 1000) } } :=
    fun _ _ => rfl
  rw [e t0 t1, e t0' t1']
  refine ⟨rfl, rfl, rfl, rfl, rfl, ?_⟩
  intro h
  rw [h]

/-- C5 witness: two runs on the empty batch with shifted but equal-elapsed
clocks. -/
theorem c5_witness :
    (analyze [] 0 5).suspicious_accounts = (analyze [] 10 15).suspicious_accounts ∧
    (analyze [] 0 5).fraud_rings = (analyze [] 10 15).fraud_rings ∧
    analyze [] 0 5 = analyze [] 10 15 := by
  have h := c5_analyze_deterministic [] 0 5 10 15
  exact ⟨h.1, h.2.1, h.2.2.2.2.2 (by decide)⟩

/-! ## C10 — which ring id a suspicious account reports -/

theorem mapGet_mapSet_self {κ α : Type} [DecidableEq κ] (m : List (κ × α)) (k : κ)
    (v : α) : mapGet (mapSet m k v) k = some v := by
  induction m with
  | nil => simp [mapSet, mapGet]
  | cons p t ih =>
    obtain ⟨k0, v0⟩ := p
    by_cases hk : k0 = k
    · subst hk
      simp [mapSet, mapGet]
    · simp [mapSet, mapGet, hk, ih]

theorem mapGet_mapSet_ne {κ α : Type} [DecidableEq κ] (m : List (κ × α)) (k k' : κ)
    (v : α) (h : k' ≠ k) : mapGet (mapSet m k v) k' = mapGet m k' := by
  induction m with
  | nil =>
    simp only [mapSet, mapGet]
    rw [if_neg (fun he => h he.symm)]
  | cons p t ih =>
    obtain ⟨k0, v0⟩ := p
    by_cases hk : k0 = k
    · subst hk
      have : k0 ≠ k' := fun he => h he.symm
      simp [mapSet, mapGet, this]
    · by_cases hk' : k0 = k'
      · subst hk'
        simp [mapSet, mapGet, hk]
      · simp [mapSet, mapGet, hk, hk', ih]

/-- One ring's pass over `ringMapping`: members of the ring map to its id,
other keys are untouched. -/
theorem memberFold_lookup (members : List String) (rid : String)
    (m0 : List (String × String)) (a : String) :
    mapGet (members.foldl (fun m member => mapSet m member rid) m0) a =
      (if a ∈ members then some rid else mapGet m0 a) := by
  induction members generalizing m0 with
  | nil => simp
  | cons b bs ih =>
    simp only [List.foldl_cons]
    rw [ih]
    by_cases hmem : a ∈ bs
    · simp [hmem]
    · by_cases hab : a = b
      · subst hab
        simp [hmem, mapGet_mapSet_self]
      · simp [hmem, hab, mapGet_mapSet_ne m0 b a rid hab]

/-- The `ringMapping` built by `analyze` sends each account to the id of
the **last** ring (in final ring order) containing it. -/
theorem ringMapping_lookup (rings : List Ring) (m0 : List (String × String))
    (a : String) :
    mapGet (rings.foldl (fun m ring =>
        ring.member_accounts.foldl (fun m member => mapSet m member ring.ring_id) m) m0) a =
      (match (rings.filter (fun r => a ∈ r.member_accounts)).getLast? with
       | some r => some r.ring_id
       | none => mapGet m0 a) := by
  induction rings generalizing m0 with
  | nil => simp
  | cons r t ih =>
    simp only [List.foldl_cons, List.filter_cons]
    by_cases hmem : a ∈ r.member_accounts
    · rw [if_pos (by simpa using hmem)]
      rw [ih]
      cases hft : t.filter (fun r => a ∈ r.member_accounts) with
      | nil =>
        simp only [List.getLast?_nil, List.getLast?_singleton]
        rw [memberFold_lookup, if_pos hmem]
      | cons y ys =>
        rw [List.getLast?_cons_cons]
        cases hgl : (y :: ys).getLast? with
        | none =>
          rw [List.getLast?_eq_none_iff] at hgl
          exact absurd hgl (by simp)
        | some z => rfl
    · rw [if_neg (by simpa using hmem)]
      rw [ih]
      cases hft : t.filter (fun r => a ∈ r.member_accounts) with
      | nil =>
        simp only [List.getLast?_nil]
        rw [memberFold_lookup, if_neg hmem]
      | cons y ys => rfl

/-- C10: in the final output, an account that belongs to at least one
surviving (post-merge) ring reports the id of the **last** ring in the
final order containing it; an account in no surviving ring keeps its
existing `ring_id` — which `analyze` set to `ringIds[0]`, the id of the
first raw pre-filter ring that flagged it (`_addAccountSuspicion` appends
the first ring id first and later additions never change the head). -/
theorem c10_ring_id_assignment (rings : List Ring) (accounts : List AccountRec) :
    (assignRingIds rings accounts = accounts.map (fun acc =>
      { acc with ring_id :=
          match (rings.filter (fun r => acc.account_id ∈ r.member_accounts)).getLast? with
          | some r => r.ring_id
          | none => acc.ring_id })) ∧
    (∀ (m : List (String × SuspicionData)) (aId : String) (sc : ℚ) (pat rid : String),
      mapGet m aId = none →
        ∃ d, mapGet (addAccountSuspicion m aId sc pat rid) aId = some d ∧
          d.ringIds.headD "" = rid) ∧
    (∀ (m : List (String × SuspicionData)) (aId : String) (d : SuspicionData)
        (sc : ℚ) (pat rid : String),
      mapGet m aId = some d → d.ringIds ≠ [] →
        ∃ d', mapGet (addAccountSuspicion m aId sc pat rid) aId = some d' ∧
          d'.ringIds.headD "" = d.ringIds.headD "") := by
  refine ⟨?_, ?_, ?_⟩
  · unfold assignRingIds
    apply List.map_congr_left
    intro acc _
    rw [ringMapping_lookup rings [] acc.account_id]
    cases hft : (rings.filter (fun r => acc.account_id ∈ r.member_accounts)).getLast? with
    | none => simp [mapGet]
    | some r => simp
  · intro m aId sc pat rid hnone
    unfold addAccountSuspicion
    rw [hnone]
    refine ⟨_, mapGet_mapSet_self .., ?_⟩
    simp
  · intro m aId d sc pat rid hsome hne
    unfold addAccountSuspicion
    rw [hsome]
    simp only [Option.getD_some]
    refine ⟨_, mapGet_mapSet_self .., ?_⟩
    simp only
    by_cases hrid : rid ∈ d.ringIds
    · rw [if_pos hrid]
    · rw [if_neg hrid]
      cases hd : d.ringIds with
      | nil => exact absurd hd hne
      | cons x xs => simp

/-- C10 witness: two surviving rings contain account `a`; the reported id
is the later ring's; account `z` in no surviving ring keeps its old id;
the suspicion-map head behaviour at concrete inputs. -/
theorem c10_witness :
    (assignRingIds
      [{ ring_id := "RING_001", member_accounts := ["a", "b"], pattern_type := "cycle",
         risk_score := 50, cycle_length := some 3, chain_length := none,
         amount_pattern := none, temporal_window_hours := none,
         aggregatorNode := none, disperserNode := none },
       { ring_id := "RING_002", member_accounts := ["a", "c"], pattern_type := "cycle",
         risk_score := 50, cycle_length := some 3, chain_length := none,
         amount_pattern := none, temporal_window_hours := none,
         aggregatorNode := none, disperserNode := none }]
      [{ account_id := "a", suspicion_score := 10, detected_patterns := [],
         ring_id := "RING_007" },
       { account_id := "z", suspicion_score := 5, detected_patterns := [],
         ring_id := "RING_009" }] =
      [{ account_id := "a", suspicion_score := 10, detected_patterns := [],
         ring_id := "RING_002" },
       { account_id := "z", suspicion_score := 5, detected_patterns := [],
         ring_id := "RING_009" }]) ∧
    (∃ d, mapGet (addAccountSuspicion [] "a" 10 "fan_in" "RING_003") "a" = some d ∧
      d.ringIds.headD "" = "RING_003") := by
  have h := c10_ring_id_assignment
    [{ ring_id := "RING_001", member_accounts := ["a", "b"], pattern_type := "cycle",
       risk_score := 50, cycle_length := some 3, chain_length := none,
       amount_pattern := none, temporal_window_hours := none,
       aggregatorNode := none, disperserNode := none },
     { ring_id := "RING_002", member_accounts := ["a", "c"], pattern_type := "cycle",
       risk_score := 50, cycle_length := some 3, chain_length := none,
       amount_pattern := none, temporal_window_hours := none,
       aggregatorNode := none, disperserNode := none }]
    [{ account_id := "a", suspicion_score := 10, detected_patterns := [],
       ring_id := "RING_007" },
     { account_id := "z", suspicion_score := 5, detected_patterns := [],
       ring_id := "RING_009" }]
  refine ⟨?_, h.2.1 [] "a" 10 "fan_in" "RING_003" (by decide)⟩
  rw [h.1]
  decide

/-! ## C6 — invariants of emitted shell chains -/

theorem mem_keys_mapSet {κ α : Type} [DecidableEq κ] (m : List (κ × α)) (k : κ)
    (v : α) (x : κ) :
    x ∈ (mapSet m k v).map Prod.fst ↔ x ∈ m.map Prod.fst ∨ x = k := by
  induction m with
  | nil => simp [mapSet]
  | cons p t ih =>
    obtain ⟨k0, v0⟩ := p
    by_cases hk : k0 = k
    · subst hk
      have e : mapSet ((k0, v0) :: t) k0 v = (k0, v) :: t := by
        show (if k0 = k0 then (k0, v) :: t else (k0, v0) :: mapSet t k0 v) = _
        rw [if_pos rfl]
      rw [e]
      simp only [List.map_cons, List.mem_cons]
      tauto
    · have e : mapSet ((k0, v0) :: t) k v = (k0, v0) :: mapSet t k v := by
        show (if k0 = k then (k0, v) :: t else (k0, v0) :: mapSet t k v) = _
        rw [if_neg hk]
      rw [e]
      simp only [List.map_cons, List.mem_cons, ih]
      tauto

theorem nodup_keys_mapSet {κ α : Type} [DecidableEq κ] (m : List (κ × α)) (k : κ)
    (v : α) (h : (m.map Prod.fst).Nodup) : ((mapSet m k v).map Prod.fst).Nodup := by
  induction m with
  | nil => simp [mapSet]
  | cons p t ih =>
    obtain ⟨k0, v0⟩ := p
    simp only [List.map_cons, List.nodup_cons] at h
    by_cases hk : k0 = k
    · subst hk
      have e : mapSet ((k0, v0) :: t) k0 v = (k0, v) :: t := by
        show (if k0 = k0 then (k0, v) :: t else (k0, v0) :: mapSet t k0 v) = _
        rw [if_pos rfl]
      rw [e]
      simp only [List.map_cons, List.nodup_cons]
      exact h
    · have e : mapSet ((k0, v0) :: t) k v = (k0, v0) :: mapSet t k v := by
        show (if k0 = k then (k0, v) :: t else (k0, v0) :: mapSet t k v) = _
        rw [if_neg hk]
      rw [e]
      simp only [List.map_cons, List.nodup_cons]
      refine ⟨?_, ih h.2⟩
      rw [mem_keys_mapSet]
      rintro (hc | rfl)
      · exact h.1 hc
      · exact hk rfl

/-- The three maps built by `buildGraph` have duplicate-free keys. -/
theorem buildGraph_keys_nodup (txs : List Transaction) :
    (((buildGraph txs).adjacencyList.map Prod.fst).Nodup) ∧
    (((buildGraph txs).reverseAdjList.map Prod.fst).Nodup) ∧
    (((buildGraph txs).nodeMetadata.map Prod.fst).Nodup) := by
  have hpair : ∀ (st : List (String × List FwdEdge) × List (String × List RevEdge) × List GEdge),
      (st.1.map Prod.fst).Nodup → (st.2.1.map Prod.fst).Nodup →
      ∀ txs : List Transaction,
        ((txs.foldl ingestTx st).1.map Prod.fst).Nodup ∧
        ((txs.foldl ingestTx st).2.1.map Prod.fst).Nodup := by
    intro st h1 h2 txs
    induction txs generalizing st with
    | nil => exact ⟨h1, h2⟩
    | cons tx t ih =>
      simp only [List.foldl_cons]
      apply ih
      · unfold ingestTx
        simp only
        split
        · exact nodup_keys_mapSet _ _ _ h1
        · exact nodup_keys_mapSet _ _ _ (nodup_keys_mapSet _ _ _ h1)
      · unfold ingestTx
        simp only
        split
        · exact nodup_keys_mapSet _ _ _ h2
        · exact nodup_keys_mapSet _ _ _ (nodup_keys_mapSet _ _ _ h2)
  have hmeta : ∀ (l : List (String × List FwdEdge))
      (f : String × List FwdEdge → Meta) (acc : List (String × Meta)),
      (acc.map Prod.fst).Nodup →
      ((l.foldl (fun acc p => mapSet acc p.1 (f p)) acc).map Prod.fst).Nodup := by
    intro l f acc hacc
    induction l generalizing acc with
    | nil => exact hacc
    | cons p t ih =>
      simp only [List.foldl_cons]
      exact ih _ (nodup_keys_mapSet _ _ _ hacc)
  refine ⟨(hpair ([], [], []) (by simp) (by simp) txs).1,
    (hpair ([], [], []) (by simp) (by simp) txs).2, ?_⟩
  unfold buildGraph
  simp only
  exact hmeta _ (fun p => buildMeta p.2
    ((mapGet (txs.foldl ingestTx ([], [], [])).2.1 p.1).getD [])) [] (by simp)

/-- Fold-accumulation soundness: if every step only appends elements
satisfying `P` (given the accumulator satisfies `P`), the fold does too. -/
theorem foldl_acc_sound {α β : Type} {P : β → Prop} (l : List α)
    (f : List β → α → List β)
    (hstep : ∀ acc x, x ∈ l → (∀ c ∈ acc, P c) → ∀ c ∈ f acc x, P c) :
    ∀ acc, (∀ c ∈ acc, P c) → ∀ c ∈ l.foldl f acc, P c := by
  induction l with
  | nil => intro acc hacc c hc; exact hacc c hc
  | cons x t ih =>
    intro acc hacc c hc
    simp only [List.foldl_cons] at hc
    refine ih (fun acc' y hy => hstep acc' y (List.mem_cons_of_mem _ hy)) _ ?_ c hc
    exact hstep acc x (List.mem_cons_self _ _) hacc

/-- `dedupChains` only keeps chains that were present. -/
theorem mem_dedupChains {chains : List ShellChain} {c : ShellChain}
    (h : c ∈ dedupChains chains) : c ∈ chains := by
  unfold dedupChains at h
  have haux : ∀ (l : List ShellChain) (st : List String × List ShellChain),
      (∀ x ∈ st.2, x ∈ chains) → (∀ x ∈ l, x ∈ chains) →
      ∀ x ∈ (l.foldl (fun st c =>
        let key := String.intercalate "|" c.chain
        if key ∈ st.1 then st else (st.1 ++ [key], st.2 ++ [c])) st).2, x ∈ chains := by
    intro l
    induction l with
    | nil => intro st h1 _ x hx; exact h1 x hx
    | cons a t ih =>
      intro st h1 h2 x hx
      simp only [List.foldl_cons] at hx
      refine ih _ ?_ (fun y hy => h2 y (List.mem_cons_of_mem _ hy)) x hx
      intro y hy
      split at hy
      · exact h1 y hy
      · simp only [List.mem_append, List.mem_singleton] at hy
        rcases hy with hy | rfl
        · exact h1 y hy
        · exact h2 y (List.mem_cons_self _ _)
  exact haux chains ([], []) (by simp) (fun x hx => hx) c h

/-- The shell predicate on metadata. -/
def shellMetaPred (m : Meta) : Prop :=
  m.txCount ≤ 3 ∧ 1 ≤ m.inDegree ∧ 1 ≤ m.outDegree

instance (m : Meta) : Decidable (shellMetaPred m) := by
  unfold shellMetaPred
  infer_instance

/-- With duplicate-free metadata keys, membership in the precomputed shell
set is equivalent to the metadata satisfying the shell predicate. -/
theorem mem_shellNodes_iff (g : Graph)
    (hnd : (g.nodeMetadata.map Prod.fst).Nodup) (n : String) :
    n ∈ (g.nodeMetadata.filter (fun p =>
        p.2.txCount ≤ 3 ∧ p.2.inDegree ≥ 1 ∧ p.2.outDegree ≥ 1)).map (·.1) ↔
      ∃ m, mapGet g.nodeMetadata n = some m ∧ shellMetaPred m := by
  constructor
  · intro h
    obtain ⟨⟨k, m⟩, hmem, rfl⟩ := List.mem_map.1 h
    have h2 := List.mem_filter.1 hmem
    refine ⟨m, mapGet_of_mem_nodup _ _ _ h2.1 hnd, ?_⟩
    have := of_decide_eq_true h2.2
    exact ⟨this.1, this.2.1, this.2.2⟩
  · rintro ⟨m, hget, hpred⟩
    refine List.mem_map.2 ⟨(n, m), List.mem_filter.2 ⟨mapGet_mem _ _ _ hget, ?_⟩, rfl⟩
    exact decide_eq_true ⟨hpred.1, hpred.2.1, hpred.2.2⟩

/-- The per-hop amount coherence relation: money does not grow and each
drop is at most 10,000. -/
def amtRel (a b : ℚ) : Prop := b ≤ a ∧ a - b ≤ 10000

/-- The C6 chain property. -/
def chainProp (g : Graph) (c : ShellChain) : Prop :=
  4 ≤ c.chain.length ∧ c.chain.length ≤ 7 ∧
  (∀ n ∈ (c.chain.drop 1).dropLast,
    ∃ m, mapGet g.nodeMetadata n = some m ∧ shellMetaPred m) ∧
  (∃ mh, mapGet g.nodeMetadata (c.chain.headD "") = some mh ∧ ¬ shellMetaPred mh) ∧
  (∃ ml, mapGet g.nodeMetadata (c.chain.getLastD "") = some ml ∧ ¬ shellMetaPred ml) ∧
  List.Chain' amtRel c.amounts

theorem traceShellChain_sound (g : Graph) (shellNodes : List String)
    (hshell : ∀ n, n ∈ shellNodes ↔
      ∃ m, mapGet g.nodeMetadata n = some m ∧ shellMetaPred m) :
    ∀ (fuel : ℕ) (cur : String) (path visited : List String) (amounts : List ℚ)
      (tss : List ℤ),
      path ≠ [] →
      (∃ mh, mapGet g.nodeMetadata (path.headD "") = some mh ∧ ¬ shellMetaPred mh) →
      (∀ n ∈ path.drop 1, n ∈ shellNodes) →
      List.Chain' amtRel amounts →
      ∀ c ∈ traceShellChain g shellNodes fuel cur path visited amounts tss,
        chainProp g c := by
  intro fuel
  induction fuel with
  | zero =>
    intro cur path visited amounts tss _ _ _ _ c hc
    simp [traceShellChain] at hc
  | succ fuel ih =>
    intro cur path visited amounts tss hpne hhead htail hchain c hc
    unfold traceShellChain at hc
    by_cases hlen7 : path.length ≥ 7
    · rw [if_pos hlen7] at hc
      simp at hc
    · rw [if_neg hlen7] at hc
      revert hc
      refine foldl_acc_sound _ _ ?_ [] (by simp) c
      intro acc edge _ hacc c hc
      simp only at hc
      by_cases hvis : edge.dst ∈ visited
      · rw [if_pos hvis] at hc
        exact hacc c hc
      · rw [if_neg hvis] at hc
        cases hmeta : mapGet g.nodeMetadata edge.dst with
        | none =>
          rw [hmeta] at hc
          exact hacc c hc
        | some nmeta =>
          rw [hmeta] at hc
          simp only at hc
          by_cases hdrop : (amounts.getLast?).getD 0 - edge.amount > 10000
          · rw [if_pos hdrop] at hc
            exact hacc c hc
          · rw [if_neg hdrop] at hc
            by_cases hgrow : edge.amount > (amounts.getLast?).getD 0
            · rw [if_pos hgrow] at hc
              exact hacc c hc
            · rw [if_neg hgrow] at hc
              have hchain2 : List.Chain' amtRel (amounts ++ [edge.amount]) := by
                rw [List.chain'_append]
                refine ⟨hchain, List.chain'_singleton _, ?_⟩
                intro x hx y hy
                simp only [List.head?_cons, Option.mem_def, Option.some.injEq] at hy
                subst hy
                rw [Option.mem_def] at hx
                rw [hx] at hdrop hgrow
                simp only [Option.getD_some] at hdrop hgrow
                exact ⟨le_of_not_lt hgrow, le_of_not_lt hdrop⟩
              obtain ⟨p0, prest, rfl⟩ := List.exists_cons_of_ne_nil hpne
              by_cases hsh : edge.dst ∈ shellNodes
              · rw [if_pos hsh] at hc
                rcases List.mem_append.1 hc with hc | hc
                · exact hacc c hc
                · refine ih edge.dst ((p0 :: prest) ++ [edge.dst]) _ _ _ (by simp)
                    ?_ ?_ hchain2 c hc
                  · simpa using hhead
                  · intro n hn
                    simp only [List.cons_append, List.drop_succ_cons, List.drop_zero] at hn
                    rcases List.mem_append.1 hn with hn | hn
                    · exact htail n (by simpa using hn)
                    · rcases List.mem_singleton.1 hn with rfl
                      exact hsh
              · rw [if_neg hsh] at hc
                by_cases hguard : (((p0 :: prest ++ [edge.dst]).drop 1).dropLast).length ≥ 1 ∧
                    (p0 :: prest ++ [edge.dst]).length ≥ 4 ∧
                    ((p0 :: prest ++ [edge.dst]).drop 1).dropLast.all (· ∈ shellNodes)
                · rw [if_pos hguard] at hc
                  rcases List.mem_append.1 hc with hc | hc
                  · exact hacc c hc
                  · rcases List.mem_singleton.1 hc with rfl
                    obtain ⟨hg1, hg2, hg3⟩ := hguard
                    refine ⟨hg2, ?_, ?_, ?_, ?_, hchain2⟩
                    · show (p0 :: (prest ++ [edge.dst])).length ≤ 7
                      simp only [List.length_cons, List.length_append,
                        List.length_nil] at hlen7 ⊢
                      omega
                    · intro n hn
                      have hmem := of_decide_eq_true
                        ((List.all_eq_true.1 hg3) n hn)
                      exact (hshell n).1 hmem
                    · simpa using hhead
                    · refine ⟨nmeta, ?_, ?_⟩
                      · have hlast : (p0 :: prest ++ [edge.dst]).getLastD "" = edge.dst := by
                          show ((p0 :: prest) ++ [edge.dst]).getLastD "" = edge.dst
                          rw [List.getLastD_eq_getLast?, List.getLast?_concat]
                          rfl
                        rw [hlast]
                        exact hmeta
                      · intro hpred
                        exact hsh ((hshell edge.dst).2 ⟨nmeta, hmeta, hpred⟩)
                · rw [if_neg hguard] at hc
                  exact hacc c hc

/-- C6: every chain emitted by the shell-network detector on a built graph
has 4–7 nodes; every interior node satisfies the shell predicate
(`tx_count ≤ 3`, `in_degree ≥ 1`, `out_degree ≥ 1`); neither endpoint
satisfies it; and the hop amounts are non-increasing with each consecutive
drop at most 10,000. -/
theorem c6_shell_chain_invariants (txs : List Transaction) (c : ShellChain)
    (hc : c ∈ shellDetect (buildGraph txs)) :
    4 ≤ c.chain.length ∧ c.chain.length ≤ 7 ∧
    (∀ n ∈ (c.chain.drop 1).dropLast,
      ∃ m, mapGet (buildGraph txs).nodeMetadata n = some m ∧ shellMetaPred m) ∧
    (∃ mh, mapGet (buildGraph txs).nodeMetadata (c.chain.headD "") = some mh ∧
      ¬ shellMetaPred mh) ∧
    (∃ ml, mapGet (buildGraph txs).nodeMetadata (c.chain.getLastD "") = some ml ∧
      ¬ shellMetaPred ml) ∧
    List.Chain' amtRel c.amounts := by
  set g := buildGraph txs with hg
  have hnd := (buildGraph_keys_nodup txs).2.2
  have hshell := mem_shellNodes_iff g hnd
  unfold shellDetect at hc
  set shellNodes := (g.nodeMetadata.filter (fun p =>
    p.2.txCount ≤ 3 ∧ p.2.inDegree ≥ 1 ∧ p.2.outDegree ≥ 1)).map (·.1) with hsn
  by_cases hempty : shellNodes.isEmpty
  · rw [if_pos hempty] at hc
    simp at hc
  · rw [if_neg hempty] at hc
    have hmem := mem_dedupChains hc
    have hsound : ∀ x ∈ (shellNodes.foldl (fun acc shellNode =>
        ((mapGet g.reverseAdjList shellNode).getD []).foldl (fun acc edge =>
          match mapGet g.nodeMetadata edge.src with
          | none => acc
          | some _ =>
            if edge.src ∈ shellNodes then acc
            else acc ++ traceShellChain g shellNodes 8 shellNode
              [edge.src, shellNode] [edge.src, shellNode] [edge.amount] [edge.timestamp])
          acc) []), chainProp g x := by
      refine foldl_acc_sound _ _ ?_ [] (by simp)
      intro acc shellNode hsnmem hacc x hx
      revert hx
      refine foldl_acc_sound _ _ ?_ acc hacc x
      intro acc2 edge _ hacc2 y hy
      simp only at hy
      cases hms : mapGet g.nodeMetadata edge.src with
      | none =>
        rw [hms] at hy
        exact hacc2 y hy
      | some m0 =>
        rw [hms] at hy
        simp only at hy
        by_cases hstart : edge.src ∈ shellNodes
        · rw [if_pos hstart] at hy
          exact hacc2 y hy
        · rw [if_neg hstart] at hy
          rcases List.mem_append.1 hy with hy | hy
          · exact hacc2 y hy
          · refine traceShellChain_sound g shellNodes hshell 8 shellNode
              [edge.src, shellNode] _ _ _ (by simp) ?_ ?_ (List.chain'_singleton _) y hy
            · refine ⟨m0, by simpa using hms, ?_⟩
              intro hpred
              exact hstart ((hshell edge.src).2 ⟨m0, hms, hpred⟩)
            · intro n hn
              simp only [List.drop_succ_cons, List.drop_zero] at hn
              rcases List.mem_singleton.1 hn with rfl
              exact hsnmem
    exact hsound c hmem

/-- The exact-pass-through shell scenario: O1 → SH1 → SH2 → SH3 → E1,
200,000 at every hop. -/
def c6Txs : List Transaction :=
  [{ transaction_id := "T13", sender_id := "O1", receiver_id := "SH1",
     amount := 200000, timestamp := 1767693600000 },
   { transaction_id := "T14", sender_id := "SH1", receiver_id := "SH2",
     amount := 200000, timestamp := 1767694080000 },
   { transaction_id := "T15", sender_id := "SH2", receiver_id := "SH3",
     amount := 200000, timestamp := 1767694500000 },
   { transaction_id := "T16", sender_id := "SH3", receiver_id := "E1",
     amount := 200000, timestamp := 1767694980000 }]

/-- The chain the shell detector emits on `c6Txs`. -/
def c6Chain : ShellChain :=
  { chain := ["O1", "SH1", "SH2", "SH3", "E1"],
    shellAccounts := ["SH1", "SH2", "SH3"],
    amounts := [200000, 200000, 200000, 200000],
    timestamps := [1767693600000, 1767694080000, 1767694500000, 1767694980000],
    amountPattern := "exact_passthrough",
    score := 100 }

/-- C6 witness: the exact-pass-through scenario emits the 5-node chain
O1 → SH1 → SH2 → SH3 → E1, and the invariants hold of it. -/
theorem c6_witness :
    c6Chain ∈ shellDetect (buildGraph c6Txs) ∧
    (4 ≤ c6Chain.chain.length ∧ c6Chain.chain.length ≤ 7 ∧
     (∀ n ∈ (c6Chain.chain.drop 1).dropLast,
       ∃ m, mapGet (buildGraph c6Txs).nodeMetadata n = some m ∧ shellMetaPred m) ∧
     (∃ mh, mapGet (buildGraph c6Txs).nodeMetadata (c6Chain.chain.headD "") = some mh ∧
       ¬ shellMetaPred mh) ∧
     (∃ ml, mapGet (buildGraph c6Txs).nodeMetadata (c6Chain.chain.getLastD "") = some ml ∧
       ¬ shellMetaPred ml) ∧
     List.Chain' amtRel c6Chain.amounts) :=
  ⟨by decide, c6_shell_chain_invariants c6Txs c6Chain (by decide)⟩

/-! ## C7 — smurfing emission -/

/-- A rational that is an integer. -/
def qIsInt (q : ℚ) : Prop := ∃ n : ℤ, q = (n : ℚ)

theorem isInt_add {a b : ℚ} (ha : qIsInt a) (hb : qIsInt b) : qIsInt (a + b) := by
  obtain ⟨m, rfl⟩ := ha
  obtain ⟨n, rfl⟩ := hb
  exact ⟨m + n, by push_cast; ring⟩

theorem isInt_sub {a b : ℚ} (ha : qIsInt a) (hb : qIsInt b) : qIsInt (a - b) := by
  obtain ⟨m, rfl⟩ := ha
  obtain ⟨n, rfl⟩ := hb
  exact ⟨m - n, by push_cast; ring⟩

theorem isInt_max {a b : ℚ} (ha : qIsInt a) (hb : qIsInt b) : qIsInt (max a b) := by
  obtain ⟨m, rfl⟩ := ha
  obtain ⟨n, rfl⟩ := hb
  exact ⟨max m n, (Int.cast_max).symm⟩

theorem isInt_min {a b : ℚ} (ha : qIsInt a) (hb : qIsInt b) : qIsInt (min a b) := by
  obtain ⟨m, rfl⟩ := ha
  obtain ⟨n, rfl⟩ := hb
  exact ⟨min m n, (Int.cast_min).symm⟩

theorem isInt_ite {c : Prop} [Decidable c] {a b : ℚ} (ha : qIsInt a)
    (hb : qIsInt b) : qIsInt (if c then a else b) := by
  split
  · exact ha
  · exact hb

theorem isInt_dite {c : Prop} [Decidable c] {f : c → ℚ} {g : ¬c → ℚ}
    (hf : ∀ h, qIsInt (f h)) (hg : ∀ h, qIsInt (g h)) : qIsInt (dite c f g) := by
  split
  · exact hf _
  · exact hg _

theorem jsRound_int (n : ℤ) : jsRound (n : ℚ) = n := by
  unfold jsRound
  exact Int.floor_eq_iff.mpr ⟨by push_cast; linarith, by push_cast; linarith⟩

theorem clampRound_eq_clamp (q : ℚ) (h : qIsInt q) :
    max 0 (min 100 ((jsRound q : ℚ))) = max 0 (min 100 q) := by
  obtain ⟨n, rfl⟩ := h
  rw [jsRound_int]

theorem isInt_scoreStructural (d : ℕ) : qIsInt (scoreStructural d) := by
  unfold scoreStructural
  exact isInt_ite ⟨25, by norm_num⟩ (isInt_ite ⟨20, by norm_num⟩
    (isInt_ite ⟨15, by norm_num⟩ ⟨10, by norm_num⟩))

theorem isInt_scoreTemporalBurst (ts : List ℤ) : qIsInt (scoreTemporalBurst ts) := by
  unfold scoreTemporalBurst
  exact isInt_ite ⟨0, by norm_num⟩ (isInt_ite ⟨25, by norm_num⟩
    (isInt_ite ⟨22, by norm_num⟩ (isInt_ite ⟨20, by norm_num⟩
      (isInt_ite ⟨12, by norm_num⟩ (isInt_ite ⟨6, by norm_num⟩ ⟨0, by norm_num⟩)))))

theorem isInt_scoreOffHours (ts : List ℤ) : qIsInt (scoreOffHours ts) := by
  unfold scoreOffHours
  exact isInt_ite ⟨0, by norm_num⟩ (isInt_ite ⟨15, by norm_num⟩
    (isInt_ite ⟨10, by norm_num⟩ (isInt_ite ⟨5, by norm_num⟩ ⟨0, by norm_num⟩)))

theorem isInt_scoreVelocity (amounts : List ℚ) (ts : List ℤ) :
    qIsInt (scoreVelocity amounts ts) := by
  unfold scoreVelocity
  exact isInt_ite ⟨0, by norm_num⟩ (isInt_ite ⟨20, by norm_num⟩
    (isInt_ite ⟨15, by norm_num⟩ (isInt_ite ⟨10, by norm_num⟩
      (isInt_ite ⟨5, by norm_num⟩ ⟨0, by norm_num⟩))))

theorem isInt_scoreBehavioralAmounts (amounts : List ℚ) :
    qIsInt (scoreBehavioralAmounts amounts) := by
  unfold scoreBehavioralAmounts
  refine isInt_ite ⟨0, by norm_num⟩ ?_
  refine isInt_max ⟨0, by norm_num⟩ (isInt_min ⟨15, by norm_num⟩ ?_)
  refine isInt_add (isInt_add ?_ ?_) ?_
  · exact isInt_ite ⟨8, by norm_num⟩ ⟨0, by norm_num⟩
  · refine isInt_dite ?_ ?_
    · intro _
      exact isInt_ite ⟨5, by norm_num⟩ ⟨0, by norm_num⟩
    · intro _
      exact ⟨0, by norm_num⟩
  · exact isInt_ite ⟨-5, by norm_num⟩ ⟨0, by norm_num⟩

theorem isInt_scoreThroughput (g : Graph) (node : String) :
    qIsInt (scoreThroughput g node) := by
  unfold scoreThroughput
  split
  · exact ⟨0, by norm_num⟩
  · split
    · exact ⟨0, by norm_num⟩
    · exact isInt_ite ⟨10, by norm_num⟩ ⟨0, by norm_num⟩

theorem isInt_legitimacyPenalty (g : Graph) (node : String) (ts : List ℤ)
    (amounts : List ℚ) (pt : String) :
    qIsInt (legitimacyPenalty g node ts amounts pt) := by
  unfold legitimacyPenalty
  split
  · exact ⟨0, by norm_num⟩
  · refine isInt_add (isInt_add (isInt_add (isInt_add (isInt_add ?_ ?_) ?_) ?_) ?_) ?_
    · refine isInt_ite ?_ ⟨0, by norm_num⟩
      exact isInt_add (isInt_add (isInt_ite ⟨10, by norm_num⟩ ⟨0, by norm_num⟩)
        (isInt_ite ⟨10, by norm_num⟩ ⟨0, by norm_num⟩))
        (isInt_ite ⟨15, by norm_num⟩ ⟨0, by norm_num⟩)
    · exact isInt_ite (isInt_ite ⟨10, by norm_num⟩ ⟨0, by norm_num⟩) ⟨0, by norm_num⟩
    · exact isInt_ite (isInt_ite ⟨15, by norm_num⟩ ⟨0, by norm_num⟩) ⟨0, by norm_num⟩
    · exact isInt_ite (isInt_ite ⟨10, by norm_num⟩ ⟨0, by norm_num⟩) ⟨0, by norm_num⟩
    · exact isInt_ite (isInt_ite (isInt_ite ⟨15, by norm_num⟩ ⟨0, by norm_num⟩)
        ⟨0, by norm_num⟩) ⟨0, by norm_num⟩
    · exact isInt_ite (isInt_ite (isInt_ite ⟨10, by norm_num⟩ ⟨0, by norm_num⟩)
        ⟨0, by norm_num⟩) ⟨0, by norm_num⟩

/-- The integer score sum makes `Math.round` a no-op, so the smurf score is
exactly the clamp to `[0, 100]` of the six signals minus the penalty. -/
theorem computeSmurfScore_eq_clamp (g : Graph) (node : String) (ts : List STx)
    (pt : String) (h : ts ≠ []) :
    computeSmurfScore g node ts pt =
      max 0 (min 100
        (scoreStructural (jsDedup (ts.map (·.counterparty))).length +
         scoreTemporalBurst (sortTs (ts.map (·.timestamp))) +
         scoreOffHours (sortTs (ts.map (·.timestamp))) +
         scoreVelocity (ts.map (·.amount)) (sortTs (ts.map (·.timestamp))) +
         scoreBehavioralAmounts (ts.map (·.amount)) +
         scoreThroughput g node -
         legitimacyPenalty g node (sortTs (ts.map (·.timestamp)))
           (ts.map (·.amount)) pt)) := by
  unfold computeSmurfScore
  rw [if_neg (fun h0 : ts.length = 0 => h (List.length_eq_zero.1 h0))]
  exact clampRound_eq_clamp _ (isInt_sub (isInt_add (isInt_add (isInt_add (isInt_add
    (isInt_add (isInt_scoreStructural _) (isInt_scoreTemporalBurst _))
    (isInt_scoreOffHours _)) (isInt_scoreVelocity _ _))
    (isInt_scoreBehavioralAmounts _)) (isInt_scoreThroughput _ _))
    (isInt_legitimacyPenalty _ _ _ _ _))

/-- Fan-in candidacy-and-emission predicate: at least 10 unique senders and
smurf score at least 40 over the in-edge transactions. -/
def fanInP (g : Graph) (p : String × List RevEdge) : Prop :=
  (jsDedup (p.2.map (·.src))).length ≥ 10 ∧
  computeSmurfScore g p.1 (fanInTxs p.2) "fan_in" ≥ 40

instance (g : Graph) (p : String × List RevEdge) : Decidable (fanInP g p) := by
  unfold fanInP
  infer_instance

/-- The group record emitted for a fan-in entry. -/
def fanInGroup (g : Graph) (p : String × List RevEdge) : SmurfGroup :=
  { type := "fan_in", aggregatorNode := some p.1, disperserNode := none,
    members := p.1 :: jsDedup (p.2.map (·.src)),
    score := computeSmurfScore g p.1 (fanInTxs p.2) "fan_in",
    temporalWindowHours := timeWindowHours (fanInTxs p.2) }

/-- Fan-out candidacy-and-emission predicate. -/
def fanOutP (g : Graph) (p : String × List FwdEdge) : Prop :=
  (jsDedup (p.2.map (·.dst))).length ≥ 10 ∧
  computeSmurfScore g p.1 (fanOutTxs p.2) "fan_out" ≥ 40

instance (g : Graph) (p : String × List FwdEdge) : Decidable (fanOutP g p) := by
  unfold fanOutP
  infer_instance

/-- The group record emitted for a fan-out entry. -/
def fanOutGroup (g : Graph) (p : String × List FwdEdge) : SmurfGroup :=
  { type := "fan_out", aggregatorNode := none, disperserNode := some p.1,
    members := p.1 :: jsDedup (p.2.map (·.dst)),
    score := computeSmurfScore g p.1 (fanOutTxs p.2) "fan_out",
    temporalWindowHours := timeWindowHours (fanOutTxs p.2) }

/-- Whether a node is already flagged (as aggregator or disperser) in a list
of groups. -/
def flaggedIn (gs : List SmurfGroup) (node : String) : Prop :=
  ∃ gr ∈ gs, gr.aggregatorNode = some node ∨ gr.disperserNode = some node

instance (gs : List SmurfGroup) (node : String) : Decidable (flaggedIn gs node) := by
  unfold flaggedIn
  infer_instance

/-- Combined fan-in/fan-out candidacy-and-emission predicate, relative to the
groups already emitted by the fan-in and fan-out passes. -/
def combinedP (g : Graph) (initial : List SmurfGroup) (p : String × Meta) : Prop :=
  (p.2.uniqueSenders ≥ 10 ∧ p.2.uniqueReceivers ≥ 10) ∧
  ¬ flaggedIn initial p.1 ∧
  computeSmurfScore g p.1
    (fanInTxs ((mapGet g.reverseAdjList p.1).getD []) ++
     fanOutTxs ((mapGet g.adjacencyList p.1).getD [])) "fan_in_fan_out" ≥ 40

instance (g : Graph) (initial : List SmurfGroup) (p : String × Meta) :
    Decidable (combinedP g initial p) := by
  unfold combinedP
  infer_instance

/-- The group record emitted for a combined candidate node. -/
def combinedGroup (g : Graph) (node : String) : SmurfGroup :=
  { type := "fan_in_fan_out", aggregatorNode := some node,
    disperserNode := some node,
    members := node ::
      (jsDedup (((mapGet g.reverseAdjList node).getD []).map (·.src)) ++
       jsDedup (((mapGet g.adjacencyList node).getD []).map (·.dst))),
    score := computeSmurfScore g node
      (fanInTxs ((mapGet g.reverseAdjList node).getD []) ++
       fanOutTxs ((mapGet g.adjacencyList node).getD [])) "fan_in_fan_out",
    temporalWindowHours := timeWindowHours
      (fanInTxs ((mapGet g.reverseAdjList node).getD []) ++
       fanOutTxs ((mapGet g.adjacencyList node).getD [])) }

/-- The fan-in emissions in characterized form. -/
def fanInEmits (g : Graph) : List SmurfGroup :=
  (g.reverseAdjList.filter (fun p => decide (fanInP g p))).map (fanInGroup g)

/-- The fan-out emissions in characterized form. -/
def fanOutEmits (g : Graph) : List SmurfGroup :=
  (g.adjacencyList.filter (fun p => decide (fanOutP g p))).map (fanOutGroup g)

/-- The combined emissions in characterized form. -/
def combinedEmits (g : Graph) (initial : List SmurfGroup) : List SmurfGroup :=
  (g.nodeMetadata.filter (fun p => decide (combinedP g initial p))).map
    (fun p => combinedGroup g p.1)

/-- A fold whose step appends `f x` exactly when `P x` holds is a
filter-map. -/
theorem foldl_emit {α β : Type} (P : α → Prop) [DecidablePred P] (f : α → β)
    (step : List β → α → List β)
    (hstep : ∀ acc x, step acc x = if P x then acc ++ [f x] else acc) :
    ∀ (l : List α) (init : List β),
      l.foldl step init = init ++ (l.filter (fun x => decide (P x))).map f := by
  intro l
  induction l with
  | nil =>
    intro init
    simp
  | cons x t ih =>
    intro init
    rw [List.foldl_cons, hstep, List.filter_cons]
    by_cases h : P x
    · rw [if_pos h, ih, if_pos (by simpa using h)]
      simp
    · rw [if_neg h, ih, if_neg (by simpa using h)]

theorem detectFanIn_eq (g : Graph) : detectFanIn g = fanInEmits g := by
  unfold detectFanIn fanInEmits
  refine (foldl_emit (fanInP g) (fanInGroup g) _ ?_ g.reverseAdjList []).trans (by simp)
  intro acc p
  dsimp only
  by_cases h1 : (jsDedup (p.2.map (·.src))).length < 10
  · rw [if_pos h1, if_neg (fun hP : fanInP g p => Nat.not_lt.2 hP.1 h1)]
  · rw [if_neg h1]
    by_cases h2 : computeSmurfScore g p.1 (fanInTxs p.2) "fan_in" ≥ 40
    · rw [if_pos h2, if_pos (show fanInP g p from ⟨Nat.not_lt.1 h1, h2⟩)]
      rfl
    · rw [if_neg h2, if_neg (fun hP : fanInP g p => h2 hP.2)]

theorem detectFanOut_eq (g : Graph) : detectFanOut g = fanOutEmits g := by
  unfold detectFanOut fanOutEmits
  refine (foldl_emit (fanOutP g) (fanOutGroup g) _ ?_ g.adjacencyList []).trans (by simp)
  intro acc p
  dsimp only
  by_cases h1 : (jsDedup (p.2.map (·.dst))).length < 10
  · rw [if_pos h1, if_neg (fun hP : fanOutP g p => Nat.not_lt.2 hP.1 h1)]
  · rw [if_neg h1]
    by_cases h2 : computeSmurfScore g p.1 (fanOutTxs p.2) "fan_out" ≥ 40
    · rw [if_pos h2, if_pos (show fanOutP g p from ⟨Nat.not_lt.1 h1, h2⟩)]
      rfl
    · rw [if_neg h2, if_neg (fun hP : fanOutP g p => h2 hP.2)]

theorem combinedFold_eq (g : Graph) (initial : List SmurfGroup)
    (step : List SmurfGroup → String × Meta → List SmurfGroup)
    (hstep : ∀ acc p, step acc p =
      if p.2.uniqueSenders ≥ 10 ∧ p.2.uniqueReceivers ≥ 10 then
        if acc.any (fun gr =>
            gr.aggregatorNode = some p.1 ∨ gr.disperserNode = some p.1) then acc
        else if computeSmurfScore g p.1
            (fanInTxs ((mapGet g.reverseAdjList p.1).getD []) ++
             fanOutTxs ((mapGet g.adjacencyList p.1).getD []))
            "fan_in_fan_out" ≥ 40 then
          acc ++ [combinedGroup g p.1]
        else acc
      else acc) :
    ∀ (l : List (String × Meta)) (acc extra : List SmurfGroup),
      acc = initial ++ extra →
      (l.map Prod.fst).Nodup →
      (∀ gr ∈ extra, ∃ k, gr.aggregatorNode = some k ∧ gr.disperserNode = some k ∧
        k ∉ l.map Prod.fst) →
      l.foldl step acc =
        acc ++ (l.filter (fun q => decide (combinedP g initial q))).map
          (fun q => combinedGroup g q.1) := by
  intro l
  induction l with
  | nil =>
    intro acc extra _ _ _
    simp
  | cons p t ih =>
    intro acc extra hacc hnd hextra
    subst hacc
    rw [List.map_cons, List.nodup_cons] at hnd
    obtain ⟨hp1, hnd'⟩ := hnd
    have hextra' : ∀ gr ∈ extra, ∃ k, gr.aggregatorNode = some k ∧
        gr.disperserNode = some k ∧ k ∉ t.map Prod.fst := by
      intro gr hgr
      obtain ⟨k, h1, h2, h3⟩ := hextra gr hgr
      exact ⟨k, h1, h2, fun hk => h3 (List.mem_cons_of_mem _ hk)⟩
    have hflagextra : ∀ gr ∈ extra,
        ¬ (gr.aggregatorNode = some p.1 ∨ gr.disperserNode = some p.1) := by
      intro gr hgr hor
      obtain ⟨k, h1, h2, h3⟩ := hextra gr hgr
      have hk : k = p.1 := by
        rcases hor with h | h
        · rw [h1] at h
          exact Option.some.inj h
        · rw [h2] at h
          exact Option.some.inj h
      exact h3 (hk ▸ List.mem_cons_self _ _)
    rw [List.foldl_cons, hstep]
    by_cases hdeg : p.2.uniqueSenders ≥ 10 ∧ p.2.uniqueReceivers ≥ 10
    · rw [if_pos hdeg]
      by_cases hfl : flaggedIn initial p.1
      · have hany : ((initial ++ extra).any (fun gr =>
            gr.aggregatorNode = some p.1 ∨ gr.disperserNode = some p.1)) = true := by
          obtain ⟨gr, hgr, hor⟩ := hfl
          exact List.any_eq_true.2 ⟨gr, List.mem_append_left _ hgr, decide_eq_true hor⟩
        rw [if_pos hany]
        have hfc : List.filter (fun q => decide (combinedP g initial q)) (p :: t) =
            List.filter (fun q => decide (combinedP g initial q)) t := by
          rw [List.filter_cons]
          simp only [decide_eq_true_eq]
          rw [if_neg (fun hc : combinedP g initial p => hc.2.1 hfl)]
        rw [hfc]
        exact ih (initial ++ extra) extra rfl hnd' hextra'
      · have hany : ((initial ++ extra).any (fun gr =>
            gr.aggregatorNode = some p.1 ∨ gr.disperserNode = some p.1)) = false := by
          rw [List.any_eq_false]
          intro gr hgr
          simp only [decide_eq_true_eq]
          rcases List.mem_append.1 hgr with h | h
          · exact fun hor => hfl ⟨gr, h, hor⟩
          · exact hflagextra gr h
        have hcond : ¬ (((initial ++ extra).any (fun gr =>
            gr.aggregatorNode = some p.1 ∨ gr.disperserNode = some p.1)) = true) := by
          rw [hany]
          exact Bool.false_ne_true
        rw [if_neg hcond]
        by_cases hsc : computeSmurfScore g p.1
            (fanInTxs ((mapGet g.reverseAdjList p.1).getD []) ++
             fanOutTxs ((mapGet g.adjacencyList p.1).getD [])) "fan_in_fan_out" ≥ 40
        · rw [if_pos hsc]
          have hfc : List.filter (fun q => decide (combinedP g initial q)) (p :: t) =
              p :: List.filter (fun q => decide (combinedP g initial q)) t := by
            rw [List.filter_cons]
            simp only [decide_eq_true_eq]
            rw [if_pos (show combinedP g initial p from ⟨hdeg, hfl, hsc⟩)]
          have hihextra : ∀ gr ∈ extra ++ [combinedGroup g p.1],
              ∃ k, gr.aggregatorNode = some k ∧ gr.disperserNode = some k ∧
                k ∉ t.map Prod.fst := by
            intro gr hgr
            rcases List.mem_append.1 hgr with h | h
            · exact hextra' gr h
            · rcases List.mem_singleton.1 h with rfl
              exact ⟨p.1, rfl, rfl, hp1⟩
          rw [ih ((initial ++ extra) ++ [combinedGroup g p.1])
            (extra ++ [combinedGroup g p.1]) (List.append_assoc _ _ _) hnd' hihextra,
            hfc, List.map_cons]
          simp
        · rw [if_neg hsc]
          have hfc : List.filter (fun q => decide (combinedP g initial q)) (p :: t) =
              List.filter (fun q => decide (combinedP g initial q)) t := by
            rw [List.filter_cons]
            simp only [decide_eq_true_eq]
            rw [if_neg (fun hc : combinedP g initial p => hsc hc.2.2)]
          rw [hfc]
          exact ih (initial ++ extra) extra rfl hnd' hextra'
    · rw [if_neg hdeg]
      have hfc : List.filter (fun q => decide (combinedP g initial q)) (p :: t) =
          List.filter (fun q => decide (combinedP g initial q)) t := by
        rw [List.filter_cons]
        simp only [decide_eq_true_eq]
        rw [if_neg (fun hc : combinedP g initial p => hdeg hc.1)]
      rw [hfc]
      exact ih (initial ++ extra) extra rfl hnd' hextra'

theorem detectCombined_eq (g : Graph) (initial : List SmurfGroup)
    (hnd : (g.nodeMetadata.map Prod.fst).Nodup) :
    detectCombined g initial = initial ++ combinedEmits g initial := by
  unfold detectCombined combinedEmits
  refine combinedFold_eq g initial _ ?_ g.nodeMetadata initial [] (by simp) hnd (by simp)
  intro acc p
  rfl

/-- C7: on a built graph, the smurfing detector's output is exactly the
fan-in emissions, then the fan-out emissions, then the combined emissions —
fan-in (resp. fan-out) entries with at least 10 unique senders (resp.
receivers) and score ≥ 40 over the in-edges (resp. out-edges), and combined
candidates (both degrees ≥ 10, not already flagged) with score ≥ 40 over the
union of in- and out-edges; and for a non-empty transaction set the score is
the clamp to `[0, 100]` of the sum of the six signals minus the legitimacy
penalty. -/
theorem c7_smurf_emission (txs : List Transaction) :
    smurfDetect (buildGraph txs) =
      fanInEmits (buildGraph txs) ++ fanOutEmits (buildGraph txs) ++
        combinedEmits (buildGraph txs)
          (fanInEmits (buildGraph txs) ++ fanOutEmits (buildGraph txs)) ∧
    (∀ (g : Graph) (node : String) (ts : List STx) (pt : String), ts ≠ [] →
      computeSmurfScore g node ts pt =
        max 0 (min 100
          (scoreStructural (jsDedup (ts.map (·.counterparty))).length +
           scoreTemporalBurst (sortTs (ts.map (·.timestamp))) +
           scoreOffHours (sortTs (ts.map (·.timestamp))) +
           scoreVelocity (ts.map (·.amount)) (sortTs (ts.map (·.timestamp))) +
           scoreBehavioralAmounts (ts.map (·.amount)) +
           scoreThroughput g node -
           legitimacyPenalty g node (sortTs (ts.map (·.timestamp)))
             (ts.map (·.amount)) pt))) := by
  constructor
  · unfold smurfDetect
    rw [detectCombined_eq (buildGraph txs) _ (buildGraph_keys_nodup txs).2.2,
      detectFanIn_eq, detectFanOut_eq]
  · intro g node ts pt h
    exact computeSmurfScore_eq_clamp g node ts pt h

/-- A single-transaction batch for the C7 witness. -/
def c7Txs : List Transaction :=
  [{ transaction_id := "T1", sender_id := "A", receiver_id := "B",
     amount := 100, timestamp := 0 }]

/-- The single in-edge transaction view used by the C7 witness. -/
def c7STxs : List STx := [{ counterparty := "A", timestamp := 0, amount := 100 }]

/-- C7 witness: the characterization instantiated on a one-transaction batch,
and the score formula on its single in-edge. -/
theorem c7_witness :
    smurfDetect (buildGraph c7Txs) =
      fanInEmits (buildGraph c7Txs) ++ fanOutEmits (buildGraph c7Txs) ++
        combinedEmits (buildGraph c7Txs)
          (fanInEmits (buildGraph c7Txs) ++ fanOutEmits (buildGraph c7Txs)) ∧
    computeSmurfScore (buildGraph c7Txs) "B" c7STxs "fan_in" =
      max 0 (min 100
        (scoreStructural (jsDedup (c7STxs.map (·.counterparty))).length +
         scoreTemporalBurst (sortTs (c7STxs.map (·.timestamp))) +
         scoreOffHours (sortTs (c7STxs.map (·.timestamp))) +
         scoreVelocity (c7STxs.map (·.amount)) (sortTs (c7STxs.map (·.timestamp))) +
         scoreBehavioralAmounts (c7STxs.map (·.amount)) +
         scoreThroughput (buildGraph c7Txs) "B" -
         legitimacyPenalty (buildGraph c7Txs) "B" (sortTs (c7STxs.map (·.timestamp)))
           (c7STxs.map (·.amount)) "fan_in")) :=
  ⟨(c7_smurf_emission c7Txs).1,
   (c7_smurf_emission c7Txs).2 (buildGraph c7Txs) "B" c7STxs "fan_in" (by decide)⟩

/-! ## C1 — what the ring merger preserves -/

theorem mem_mapSet_entries {κ α : Type} [DecidableEq κ] (m : List (κ × α)) (k : κ)
    (v : α) : ∀ q ∈ mapSet m k v, q = (k, v) ∨ q ∈ m := by
  induction m with
  | nil =>
    intro q hq
    rcases List.mem_singleton.1 hq with rfl
    exact Or.inl rfl
  | cons p t ih =>
    intro q hq
    obtain ⟨k0, v0⟩ := p
    have hstep : mapSet ((k0, v0) :: t) k v =
        if k0 = k then (k0, v) :: t else (k0, v0) :: mapSet t k v := by
      show (if k0 = k then (k0, v) :: t else (k0, v0) :: mapSet t k v) = _
      rfl
    rw [hstep] at hq
    by_cases hk : k0 = k
    · rw [if_pos hk] at hq
      rcases List.mem_cons.1 hq with rfl | hq
      · exact Or.inl (by rw [hk])
      · exact Or.inr (List.mem_cons_of_mem _ hq)
    · rw [if_neg hk] at hq
      rcases List.mem_cons.1 hq with rfl | hq
      · exact Or.inr (List.mem_cons_self _ _)
      · rcases ih q hq with h | h
        · exact Or.inl h
        · exact Or.inr (List.mem_cons_of_mem _ h)

/-- Any fold whose step appends `rings[i]` to some bucket of the association
map keeps every bucket non-empty and drawn from `rings`. -/
theorem bucketsFold_sound (rings : List Ring)
    (step : (ℕ → ℕ) × List (ℕ × List Ring) → ℕ → (ℕ → ℕ) × List (ℕ × List Ring))
    (hstep : ∀ st i, ∃ root, (step st i).2 =
      mapSet st.2 root (((mapGet st.2 root).getD []) ++ [rings.getD i default])) :
    ∀ (l : List ℕ), (∀ i ∈ l, i < rings.length) →
    ∀ st, (∀ kb ∈ st.2, kb.2 ≠ [] ∧ ∀ s ∈ kb.2, s ∈ rings) →
    ∀ kb ∈ (l.foldl step st).2, kb.2 ≠ [] ∧ ∀ s ∈ kb.2, s ∈ rings := by
  intro l
  induction l with
  | nil =>
    intro _ st hst kb hkb
    exact hst kb hkb
  | cons i t ih =>
    intro hlt st hst
    refine ih (fun j hj => hlt j (List.mem_cons_of_mem _ hj)) (step st i) ?_
    obtain ⟨root, hroot⟩ := hstep st i
    intro kb hkb
    rw [hroot] at hkb
    rcases mem_mapSet_entries _ _ _ kb hkb with rfl | hmem
    · refine ⟨by simp, ?_⟩
      intro s hs
      rcases List.mem_append.1 hs with hs | hs
      · cases hg : mapGet st.2 root with
        | none =>
          rw [hg] at hs
          simp at hs
        | some b =>
          rw [hg] at hs
          exact (hst (root, b) (mapGet_mem _ _ _ hg)).2 s hs
      · rcases List.mem_singleton.1 hs with rfl
        have hi : i < rings.length := hlt i (List.mem_cons_self _ _)
        rw [List.getD_eq_getElem rings default hi]
        exact List.getElem_mem hi
    · exact hst kb hmem

/-- Every bucket produced by `buildGroups` is non-empty and drawn from the
input ring list. -/
theorem buildGroups_sound (rings : List Ring) (p : ℕ → ℕ) :
    ∀ kb ∈ buildGroups rings p, kb.2 ≠ [] ∧ ∀ s ∈ kb.2, s ∈ rings := by
  unfold buildGroups
  refine bucketsFold_sound rings _ ?_ (List.range rings.length)
    (fun i hi => List.mem_range.1 hi) (p, []) (by simp)
  intro st i
  exact ⟨(ufFind (rings.length + 1) st.1 i).2, rfl⟩

/-- C1 (amended): every ring emitted by the merger is either an input ring
(singleton component) or the merge of two or more input rings, in which case
its member list is the duplicate-free union of the group's member lists, its
id and pattern type come from the group's first ring, its risk score is the
group maximum, and ALL kind-specific fields (`cycle_length`, `chain_length`,
`amount_pattern`, `temporal_window_hours`, hub identifiers) are absent — not
taken from the first ring. -/
theorem c1_merged_ring_shape (rings : List Ring) :
    ∀ r ∈ mergeOverlappingRings rings,
      r ∈ rings ∨
      ∃ gp : List Ring, (∀ s ∈ gp, s ∈ rings) ∧ 2 ≤ gp.length ∧
        r = { ring_id := (gp.headD default).ring_id,
              member_accounts :=
                jsDedup (gp.foldl (fun acc s => acc ++ s.member_accounts) []),
              pattern_type := (gp.headD default).pattern_type,
              risk_score := gp.foldl (fun m s => max m s.risk_score) 0,
              cycle_length := none, chain_length := none, amount_pattern := none,
              temporal_window_hours := none, aggregatorNode := none,
              disperserNode := none } := by
  intro r hr
  unfold mergeOverlappingRings at hr
  split at hr
  · exact Or.inl hr
  · rcases List.mem_map.1 hr with ⟨kb, hkb, rfl⟩
    have hb := buildGroups_sound rings (mergePairsLoop rings (fun i => i)) kb hkb
    obtain ⟨hne, hmem⟩ := hb
    cases hg : kb.2 with
    | nil => exact absurd hg hne
    | cons r0 rest =>
      cases rest with
      | nil =>
        exact Or.inl (hmem r0 (by rw [hg]; exact List.mem_cons_self _ _))
      | cons r1 rest' =>
        refine Or.inr ⟨r0 :: r1 :: rest',
          fun s hs => hmem s (by rw [hg]; exact hs), by simp, rfl⟩

/-- Two heavily overlapping `shell_network` rings, both carrying
`chain_length = 4`. -/
def c1Rings : List Ring :=
  [{ ring_id := "RING_001", member_accounts := ["a", "b", "c", "d"],
     pattern_type := "shell_network", risk_score := 70, cycle_length := none,
     chain_length := some 4, amount_pattern := some "exact_passthrough",
     temporal_window_hours := none, aggregatorNode := none, disperserNode := none },
   { ring_id := "RING_002", member_accounts := ["a", "b", "c", "e"],
     pattern_type := "shell_network", risk_score := 80, cycle_length := none,
     chain_length := some 4, amount_pattern := some "exact_passthrough",
     temporal_window_hours := none, aggregatorNode := none, disperserNode := none }]

/-- C1 counterexample: merging two `shell_network` rings that both carry
`chain_length = 4` yields a single merged `shell_network` ring whose
`chain_length` is absent — the kind-specific fields are NOT taken from the
first ring of the group. -/
theorem c1_counterexample :
    (∀ r ∈ c1Rings, r.pattern_type = "shell_network" ∧ r.chain_length = some 4) ∧
    (mergeOverlappingRings c1Rings).map (fun r => (r.pattern_type, r.chain_length)) =
      [("shell_network", none)] := by
  decide

/-- The ring the merger emits on `c1Rings`. -/
def c1Merged : Ring :=
  { ring_id := "RING_001", member_accounts := ["a", "b", "c", "d", "e"],
    pattern_type := "shell_network", risk_score := 80, cycle_length := none,
    chain_length := none, amount_pattern := none, temporal_window_hours := none,
    aggregatorNode := none, disperserNode := none }

/-- C1 witness: the merged ring of the two overlapping shell rings is the
merge of a two-ring group. -/
theorem c1_witness :
    c1Merged ∈ mergeOverlappingRings c1Rings ∧
    (c1Merged ∈ c1Rings ∨
      ∃ gp : List Ring, (∀ s ∈ gp, s ∈ c1Rings) ∧ 2 ≤ gp.length ∧
        c1Merged =
          { ring_id := (gp.headD default).ring_id,
            member_accounts :=
              jsDedup (gp.foldl (fun acc s => acc ++ s.member_accounts) []),
            pattern_type := (gp.headD default).pattern_type,
            risk_score := gp.foldl (fun m s => max m s.risk_score) 0,
            cycle_length := none, chain_length := none, amount_pattern := none,
            temporal_window_hours := none, aggregatorNode := none,
            disperserNode := none }) :=
  ⟨by decide, c1_merged_ring_shape c1Rings c1Merged (by decide)⟩

/-! ## C2 — union-find soundness for the ring merger -/

/-- `i`-fold application of a parent map. -/
def pIter (p : ℕ → ℕ) : ℕ → ℕ → ℕ
  | 0, x => x
  | k + 1, x => pIter p k (p x)

/-- `x` reaches the root `r` in exactly `k` parent steps. -/
def ReachesIn (p : ℕ → ℕ) : ℕ → ℕ → ℕ → Prop
  | 0, x, r => x = r ∧ p x = x
  | k + 1, x, r => p x ≠ x ∧ ReachesIn p k (p x) r

/-- `x` reaches the root `r`. -/
def Reaches (p : ℕ → ℕ) (x r : ℕ) : Prop := ∃ k, ReachesIn p k x r

/-- `y` and `z` are in the same union-find class. -/
def SameRoot (p : ℕ → ℕ) (y z : ℕ) : Prop := ∃ r, Reaches p y r ∧ Reaches p z r

/-- Every element reaches a root. -/
def ufWF (p : ℕ → ℕ) : Prop := ∀ x, ∃ r, Reaches p x r

/-- The parent map maps `[0, n)` into itself. -/
def ufDom (n : ℕ) (p : ℕ → ℕ) : Prop := ∀ w, w < n → p w < n

theorem pIter_succ_out (p : ℕ → ℕ) : ∀ (k : ℕ) (x : ℕ),
    pIter p (k + 1) x = p (pIter p k x) := by
  intro k
  induction k with
  | zero => intro x; rfl
  | succ k ih =>
    intro x
    show pIter p (k + 1) (p x) = p (pIter p (k + 1) x)
    rw [ih (p x)]
    rfl

theorem reachesIn_root (p : ℕ → ℕ) : ∀ (k x r : ℕ), ReachesIn p k x r → p r = r := by
  intro k
  induction k with
  | zero =>
    intro x r h
    obtain ⟨rfl, h2⟩ := h
    exact h2
  | succ k ih =>
    intro x r h
    exact ih (p x) r h.2

theorem reachesIn_pIter (p : ℕ → ℕ) : ∀ (k x r : ℕ),
    ReachesIn p k x r → pIter p k x = r := by
  intro k
  induction k with
  | zero =>
    intro x r h
    exact h.1
  | succ k ih =>
    intro x r h
    exact ih (p x) r h.2

theorem reachesIn_unique (p : ℕ → ℕ) : ∀ (a x r : ℕ), ReachesIn p a x r →
    ∀ (b r' : ℕ), ReachesIn p b x r' → a = b ∧ r = r' := by
  intro a
  induction a with
  | zero =>
    intro x r h b r' h'
    obtain ⟨rfl, hroot⟩ := h
    cases b with
    | zero => exact ⟨rfl, h'.1⟩
    | succ b => exact absurd hroot h'.1
  | succ a ih =>
    intro x r h b r' h'
    cases b with
    | zero => exact absurd h'.2 h.1
    | succ b =>
      obtain ⟨heq, hr⟩ := ih (p x) r h.2 b r' h'.2
      exact ⟨by rw [heq], hr⟩

theorem reaches_unique (p : ℕ → ℕ) (x r r' : ℕ) (h : Reaches p x r)
    (h' : Reaches p x r') : r = r' := by
  obtain ⟨a, ha⟩ := h
  obtain ⟨b, hb⟩ := h'
  exact (reachesIn_unique p a x r ha b r' hb).2

theorem reachesIn_suffix (p : ℕ → ℕ) : ∀ (i k x r : ℕ), i ≤ k →
    ReachesIn p k x r → ReachesIn p (k - i) (pIter p i x) r := by
  intro i
  induction i with
  | zero =>
    intro k x r _ h
    simpa using h
  | succ i ih =>
    intro k x r hik h
    cases k with
    | zero => omega
    | succ k =>
      have h2 := ih k (p x) r (Nat.succ_le_succ_iff.1 hik) h.2
      simpa [Nat.succ_sub_succ] using h2

theorem reachesIn_distinct (p : ℕ → ℕ) (k x r : ℕ) (h : ReachesIn p k x r) :
    ∀ i j, i < j → j ≤ k → pIter p i x ≠ pIter p j x := by
  intro i j hij hjk heq
  have h1 := reachesIn_suffix p i k x r (le_of_lt (lt_of_lt_of_le hij hjk)) h
  have h2 := reachesIn_suffix p j k x r hjk h
  rw [heq] at h1
  have := (reachesIn_unique p (k - i) _ _ h1 (k - j) r h2).1
  omega

theorem pIter_lt (p : ℕ → ℕ) (n : ℕ) (hdom : ufDom n p) :
    ∀ (i x : ℕ), x < n → pIter p i x < n := by
  intro i
  induction i with
  | zero => intro x hx; exact hx
  | succ i ih => intro x hx; exact ih (p x) (hdom x hx)

theorem reaches_lt (p : ℕ → ℕ) (n k x r : ℕ) (hdom : ufDom n p) (hx : x < n)
    (h : ReachesIn p k x r) : r < n := by
  rw [← reachesIn_pIter p k x r h]
  exact pIter_lt p n hdom k x hx

/-- With a domain bound, path lengths are below `n`: the `k + 1` points of the
path are pairwise distinct and all below `n`. -/
theorem reachesIn_bound (p : ℕ → ℕ) (n k x r : ℕ) (hdom : ufDom n p) (hx : x < n)
    (h : ReachesIn p k x r) : k < n := by
  have hnodup : ((List.range (k + 1)).map (fun i => pIter p i x)).Nodup := by
    refine List.pairwise_iff_getElem.2 ?_
    intro a b ha hb hab
    simp only [List.length_map, List.length_range] at ha hb
    simp only [List.getElem_map, List.getElem_range]
    exact reachesIn_distinct p k x r h a b hab (by omega)
  have hsub : ((List.range (k + 1)).map (fun i => pIter p i x)) ⊆ List.range n := by
    intro a haa
    rcases List.mem_map.1 haa with ⟨i, _, rfl⟩
    exact List.mem_range.2 (pIter_lt p n hdom i x hx)
  have hlen := (hnodup.subperm hsub).length_le
  simp only [List.length_map, List.length_range] at hlen
  omega

theorem reachesIn_update_outside (p : ℕ → ℕ) (x v : ℕ) : ∀ (m y r : ℕ),
    (∀ i, i ≤ m → pIter p i y ≠ x) → ReachesIn p m y r →
    ReachesIn (Function.update p x v) m y r := by
  intro m
  induction m with
  | zero =>
    intro y r havoid h
    obtain ⟨rfl, h2⟩ := h
    have hyx : y ≠ x := havoid 0 (le_refl 0)
    exact ⟨rfl, by rw [Function.update_noteq hyx]; exact h2⟩
  | succ m ih =>
    intro y r havoid h
    have hyx : y ≠ x := havoid 0 (Nat.zero_le _)
    refine ⟨by rw [Function.update_noteq hyx]; exact h.1, ?_⟩
    rw [Function.update_noteq hyx]
    exact ih (p y) r (fun i hi => havoid (i + 1) (Nat.succ_le_succ hi)) h.2

/-- Path halving preserves reachability. -/
theorem halve_preserves (p : ℕ → ℕ) (x : ℕ) (hx : p x ≠ x) : ∀ (m y r : ℕ),
    ReachesIn p m y r →
    ∃ m', ReachesIn (Function.update p x (p (p x))) m' y r := by
  intro m
  induction m with
  | zero =>
    intro y r h
    have hyx : y ≠ x := fun he => hx (he ▸ h.2)
    exact ⟨0, h.1, by rw [Function.update_noteq hyx]; exact h.2⟩
  | succ m ih =>
    intro y r h
    by_cases hyx : y = x
    · subst hyx
      cases m with
      | zero =>
        have hr1 : p y = r := h.2.1
        have hr2 : p (p y) = p y := h.2.2
        have hry : r ≠ y := by
          rw [← hr1]
          exact hx
        refine ⟨1, ?_, ?_⟩
        · rw [Function.update_same, hr2, hr1]
          exact hry
        · rw [Function.update_same, hr2, hr1]
          refine ⟨rfl, ?_⟩
          rw [Function.update_noteq hry, ← hr1]
          exact hr2
      | succ m =>
        have havoid : ∀ i, i ≤ m → pIter p i (p (p y)) ≠ y := by
          intro i _ heq
          exact reachesIn_distinct p (m + 2) y r h 0 (i + 2) (by omega) (by omega)
            heq.symm
        have h3' := reachesIn_update_outside p y (p (p y)) m (p (p y)) r havoid h.2.2
        refine ⟨m + 1, ?_, ?_⟩
        · rw [Function.update_same]
          intro he
          exact reachesIn_distinct p (m + 2) y r h 0 2 (by omega) (by omega) he.symm
        · rw [Function.update_same]
          exact h3'
    · obtain ⟨m', hm'⟩ := ih (p y) r h.2
      refine ⟨m' + 1, ?_, ?_⟩
      · rw [Function.update_noteq hyx]
        exact h.1
      · rw [Function.update_noteq hyx]
        exact hm'

/-- Linking one root under another redirects reachability. -/
theorem link_reaches (q : ℕ → ℕ) (ra rb : ℕ) (hra : q ra = ra) (hrb : q rb = rb)
    (hne : ra ≠ rb) : ∀ (m y r : ℕ), ReachesIn q m y r →
    Reaches (Function.update q ra rb) y (if r = ra then rb else r) := by
  intro m
  induction m with
  | zero =>
    intro y r h
    obtain ⟨rfl, h2⟩ := h
    by_cases hr : y = ra
    · subst hr
      rw [if_pos rfl]
      refine ⟨1, ?_, ?_⟩
      · rw [Function.update_same]
        exact fun he => hne he.symm
      · rw [Function.update_same]
        exact ⟨rfl, by rw [Function.update_noteq (fun he => hne he.symm)]; exact hrb⟩
    · rw [if_neg hr]
      exact ⟨0, rfl, by rw [Function.update_noteq hr]; exact h2⟩
  | succ m ih =>
    intro y r h
    have hyra : y ≠ ra := fun he => h.1 (by rw [he]; exact hra)
    obtain ⟨k, hk⟩ := ih (q y) r h.2
    refine ⟨k + 1, ?_, ?_⟩
    · rw [Function.update_noteq hyra]
      exact h.1
    · rw [Function.update_noteq hyra]
      exact hk

theorem dom_update (n : ℕ) (q : ℕ → ℕ) (idx v : ℕ) (hdom : ufDom n q)
    (hv : v < n) : ufDom n (Function.update q idx v) := by
  intro w hw
  by_cases hwi : w = idx
  · subst hwi
    rw [Function.update_same]
    exact hv
  · rw [Function.update_noteq hwi]
    exact hdom w hw

theorem dom_halve (n : ℕ) (p : ℕ → ℕ) (x : ℕ) (hdom : ufDom n p) :
    ufDom n (Function.update p x (p (p x))) := by
  intro w hw
  by_cases hwx : w = x
  · subst hwx
    rw [Function.update_same]
    exact hdom _ (hdom _ hw)
  · rw [Function.update_noteq hwx]
    exact hdom w hw

/-- `ufFind` with enough fuel returns the true root, preserves every
reachability fact, and preserves the domain bound. -/
theorem ufFind_spec : ∀ (fuel : ℕ) (p : ℕ → ℕ) (x k r : ℕ),
    ReachesIn p k x r → k ≤ fuel →
    (ufFind fuel p x).2 = r ∧
    (∀ y s, Reaches p y s → Reaches (ufFind fuel p x).1 y s) ∧
    (∀ n, ufDom n p → ufDom n (ufFind fuel p x).1) := by
  intro fuel
  induction fuel with
  | zero =>
    intro p x k r h hk
    have hk0 : k = 0 := Nat.le_zero.1 hk
    subst hk0
    exact ⟨h.1, fun y s hy => hy, fun n hd => hd⟩
  | succ fuel ih =>
    intro p x k r h hk
    by_cases hroot : p x = x
    · have heq : ufFind (fuel + 1) p x = (p, x) := by
        show (if p x = x then (p, x) else _) = _
        rw [if_pos hroot]
      rw [heq]
      cases k with
      | zero => exact ⟨h.1, fun y s hy => hy, fun n hd => hd⟩
      | succ k => exact absurd hroot h.1
    · have heq : ufFind (fuel + 1) p x =
          ufFind fuel (Function.update p x (p (p x))) (p (p x)) := by
        show (if p x = x then (p, x) else _) = _
        rw [if_neg hroot]
      rw [heq]
      cases k with
      | zero => exact absurd h.2 hroot
      | succ k =>
        have hrec : ∃ k', k' ≤ fuel ∧
            ReachesIn (Function.update p x (p (p x))) k' (p (p x)) r := by
          cases k with
          | zero =>
            obtain ⟨_, hr1, hr2⟩ := h
            refine ⟨0, Nat.zero_le _, ?_, ?_⟩
            · rw [hr2, hr1]
            · have hrx : p x ≠ x := hroot
              rw [hr2, hr1, Function.update_noteq (hr1 ▸ hrx), ← hr1, hr2, hr1]
          | succ k =>
            have havoid : ∀ i, i ≤ k → pIter p i (p (p x)) ≠ x := by
              intro i hi heq2
              exact reachesIn_distinct p (k + 2) x r h 0 (i + 2) (by omega)
                (by omega) heq2.symm
            refine ⟨k, by omega, ?_⟩
            exact reachesIn_update_outside p x (p (p x)) k (p (p x)) r havoid h.2.2
        obtain ⟨k', hk', hk'r⟩ := hrec
        obtain ⟨hr2, hpres2, hdom2⟩ :=
          ih (Function.update p x (p (p x))) (p (p x)) k' r hk'r hk'
        refine ⟨hr2, ?_, ?_⟩
        · intro y s hy
          obtain ⟨m, hm⟩ := hy
          obtain ⟨m', hm'⟩ := halve_preserves p x hroot m y s hm
          exact hpres2 y s ⟨m', hm'⟩
        · intro n hd
          exact hdom2 n (dom_halve n p x hd)

/-- `ufUnion` with enough fuel merges the two classes, preserves every
same-class fact, and preserves well-formedness and the domain bound. -/
theorem ufUnion_spec (n fuel : ℕ) (p : ℕ → ℕ) (a b : ℕ) (hwf : ufWF p)
    (hdom : ufDom n p) (ha : a < n) (hb : b < n) (hfuel : n ≤ fuel) :
    SameRoot (ufUnion fuel p a b) a b ∧
    (∀ y z, SameRoot p y z → SameRoot (ufUnion fuel p a b) y z) ∧
    ufWF (ufUnion fuel p a b) ∧ ufDom n (ufUnion fuel p a b) := by
  obtain ⟨ra, ka, hka⟩ := hwf a
  have hkan : ka < n := reachesIn_bound p n ka a ra hdom ha hka
  obtain ⟨hr1, hpres1, hdomp1⟩ := ufFind_spec fuel p a ka ra hka (by omega)
  have hdom1 : ufDom n (ufFind fuel p a).1 := hdomp1 n hdom
  have hwf1 : ufWF (ufFind fuel p a).1 := by
    intro y
    obtain ⟨s, hs⟩ := hwf y
    exact ⟨s, hpres1 y s hs⟩
  obtain ⟨rb, kb, hkb⟩ := hwf1 b
  have hkbn : kb < n := reachesIn_bound _ n kb b rb hdom1 hb hkb
  obtain ⟨hr2, hpres2, hdomp2⟩ := ufFind_spec fuel (ufFind fuel p a).1 b kb rb hkb
    (by omega)
  have hdom2 : ufDom n (ufFind fuel (ufFind fuel p a).1 b).1 := hdomp2 n hdom1
  have hwf2 : ufWF (ufFind fuel (ufFind fuel p a).1 b).1 := by
    intro y
    obtain ⟨s, hs⟩ := hwf1 y
    exact ⟨s, hpres2 y s hs⟩
  have hau : Reaches (ufFind fuel (ufFind fuel p a).1 b).1 a ra :=
    hpres2 a ra (hpres1 a ra ⟨ka, hka⟩)
  have hbu : Reaches (ufFind fuel (ufFind fuel p a).1 b).1 b rb := by
    obtain ⟨s, hs⟩ := hwf2 b
    have : s = rb := by
      obtain ⟨m, hm⟩ := hs
      obtain ⟨m2, hm2⟩ := hpres2 b rb ⟨kb, hkb⟩
      exact (reachesIn_unique _ m b s hm m2 rb hm2).2
    exact this ▸ hs
  have hran : ra < n := reaches_lt p n ka a ra hdom ha hka
  have hrbn : rb < n := reaches_lt _ n kb b rb hdom1 hb hkb
  have hraroot : (ufFind fuel (ufFind fuel p a).1 b).1 ra = ra := by
    obtain ⟨m, hm⟩ := hau
    exact reachesIn_root _ m a ra hm
  have hrbroot : (ufFind fuel (ufFind fuel p a).1 b).1 rb = rb := by
    obtain ⟨m, hm⟩ := hbu
    exact reachesIn_root _ m b rb hm
  have huni : ufUnion fuel p a b =
      if (ufFind fuel p a).2 ≠ (ufFind fuel (ufFind fuel p a).1 b).2 then
        Function.update (ufFind fuel (ufFind fuel p a).1 b).1
          (ufFind fuel p a).2 (ufFind fuel (ufFind fuel p a).1 b).2
      else (ufFind fuel (ufFind fuel p a).1 b).1 := rfl
  rw [huni, hr1, hr2]
  by_cases hne : ra = rb
  · rw [if_neg (by simp [hne])]
    subst hne
    refine ⟨⟨ra, hau, hbu⟩, ?_, hwf2, hdom2⟩
    intro y z hyz
    obtain ⟨s, hy, hz⟩ := hyz
    exact ⟨s, hpres2 y s (hpres1 y s hy), hpres2 z s (hpres1 z s hz)⟩
  · rw [if_pos hne]
    constructor
    · refine ⟨rb, ?_, ?_⟩
      · obtain ⟨m, hm⟩ := hau
        have := link_reaches _ ra rb hraroot hrbroot hne m a ra hm
        rwa [if_pos rfl] at this
      · obtain ⟨m, hm⟩ := hbu
        have := link_reaches _ ra rb hraroot hrbroot hne m b rb hm
        rwa [if_neg (fun he => hne he.symm)] at this
    constructor
    · intro y z hyz
      obtain ⟨s, hy, hz⟩ := hyz
      obtain ⟨my, hmy⟩ := hpres2 y s (hpres1 y s hy)
      obtain ⟨mz, hmz⟩ := hpres2 z s (hpres1 z s hz)
      exact ⟨if s = ra then rb else s,
        link_reaches _ ra rb hraroot hrbroot hne my y s hmy,
        link_reaches _ ra rb hraroot hrbroot hne mz z s hmz⟩
    constructor
    · intro y
      obtain ⟨s, hs⟩ := hwf2 y
      obtain ⟨m, hm⟩ := hs
      exact ⟨if s = ra then rb else s,
        link_reaches _ ra rb hraroot hrbroot hne m y s hm⟩
    · exact dom_update n _ ra rb hdom2 hrbn

/-- The union-find invariant: every element reaches a root and the parent
map respects the index range. -/
def ufInv (n : ℕ) (p : ℕ → ℕ) : Prop := ufWF p ∧ ufDom n p

theorem pairStep_pres (rings : List Ring) (i j : ℕ) (p : ℕ → ℕ)
    (hi : i < rings.length) (hj : j < rings.length)
    (hinv : ufInv rings.length p) :
    ufInv rings.length (pairStep rings i p j) ∧
    (∀ y z, SameRoot p y z → SameRoot (pairStep rings i p j) y z) := by
  unfold pairStep
  split
  · split
    · have hu := ufUnion_spec rings.length (rings.length + 1) p i j hinv.1 hinv.2
        hi hj (by omega)
      exact ⟨⟨hu.2.2.1, hu.2.2.2⟩, hu.2.1⟩
    · exact ⟨hinv, fun _ _ h => h⟩
  · exact ⟨hinv, fun _ _ h => h⟩

theorem pairStep_merges (rings : List Ring) (i j : ℕ) (p : ℕ → ℕ)
    (hi : i < rings.length) (hj : j < rings.length) (hij : i < j)
    (hcrit : mergeCriterion (rings.getD i default) (rings.getD j default))
    (hinv : ufInv rings.length p) :
    SameRoot (pairStep rings i p j) i j := by
  unfold pairStep
  rw [if_pos hij, if_pos hcrit]
  exact (ufUnion_spec rings.length (rings.length + 1) p i j hinv.1 hinv.2
    hi hj (by omega)).1

theorem pairFold_pres (rings : List Ring) (i : ℕ) (hi : i < rings.length) :
    ∀ (l : List ℕ), (∀ j ∈ l, j < rings.length) → ∀ p, ufInv rings.length p →
    ufInv rings.length (l.foldl (pairStep rings i) p) ∧
    (∀ y z, SameRoot p y z → SameRoot (l.foldl (pairStep rings i) p) y z) := by
  intro l
  induction l with
  | nil => exact fun _ p h => ⟨h, fun _ _ hh => hh⟩
  | cons j t ih =>
    intro hb p hinv
    have hstep := pairStep_pres rings i j p hi (hb j (List.mem_cons_self _ _)) hinv
    have ht := ih (fun x hx => hb x (List.mem_cons_of_mem _ hx))
      (pairStep rings i p j) hstep.1
    exact ⟨ht.1, fun y z h => ht.2 y z (hstep.2 y z h)⟩

theorem rowStep_pres (rings : List Ring) (i : ℕ) (p : ℕ → ℕ)
    (hi : i < rings.length) (hinv : ufInv rings.length p) :
    ufInv rings.length (rowStep rings p i) ∧
    (∀ y z, SameRoot p y z → SameRoot (rowStep rings p i) y z) := by
  unfold rowStep
  exact pairFold_pres rings i hi (List.range rings.length)
    (fun j hj => List.mem_range.1 hj) p hinv

theorem rowFold_pres (rings : List Ring) :
    ∀ (l : List ℕ), (∀ x ∈ l, x < rings.length) → ∀ p, ufInv rings.length p →
    ufInv rings.length (l.foldl (rowStep rings) p) ∧
    (∀ y z, SameRoot p y z → SameRoot (l.foldl (rowStep rings) p) y z) := by
  intro l
  induction l with
  | nil => exact fun _ p h => ⟨h, fun _ _ hh => hh⟩
  | cons x t ih =>
    intro hb p hinv
    have hstep := rowStep_pres rings x p (hb x (List.mem_cons_self _ _)) hinv
    have ht := ih (fun y hy => hb y (List.mem_cons_of_mem _ hy))
      (rowStep rings p x) hstep.1
    exact ⟨ht.1, fun y z h => ht.2 y z (hstep.2 y z h)⟩

theorem range_split (n m : ℕ) (h : m < n) :
    List.range n = List.range m ++ [m] ++ (List.range n).drop (m + 1) := by
  have h1 : (List.range n).take (m + 1) = List.range (m + 1) := by
    rw [List.take_range]
    congr 1
    omega
  calc List.range n
      = (List.range n).take (m + 1) ++ (List.range n).drop (m + 1) :=
        (List.take_append_drop _ _).symm
    _ = List.range m ++ [m] ++ (List.range n).drop (m + 1) := by
        rw [h1, List.range_succ]

theorem foldl_split {α β : Type} (f : β → α → β) (b : β) (l1 l2 : List α)
    (x : α) : (l1 ++ [x] ++ l2).foldl f b = l2.foldl f (f (l1.foldl f b) x) := by
  rw [List.foldl_append, List.foldl_append]
  rfl

/-- Any pair satisfying the merge criterion ends in the same union-find
class after the pairwise union loop. -/
theorem mergePairsLoop_merges (rings : List Ring) (p0 : ℕ → ℕ)
    (hinv0 : ufInv rings.length p0) (i j : ℕ) (hij : i < j)
    (hj : j < rings.length)
    (hcrit : mergeCriterion (rings.getD i default) (rings.getD j default)) :
    SameRoot (mergePairsLoop rings p0) i j := by
  have hi : i < rings.length := lt_trans hij hj
  unfold mergePairsLoop
  rw [range_split rings.length i hi, foldl_split]
  have hinv1 : ufInv rings.length ((List.range i).foldl (rowStep rings) p0) :=
    (rowFold_pres rings (List.range i)
      (fun x hx => lt_trans (List.mem_range.1 hx) hi) p0 hinv0).1
  have hrow : ∀ q, rowStep rings q i =
      ((List.range rings.length).drop (j + 1)).foldl (pairStep rings i)
        (pairStep rings i ((List.range j).foldl (pairStep rings i) q) j) := by
    intro q
    show (List.range rings.length).foldl (pairStep rings i) q = _
    conv_lhs => rw [range_split rings.length j hj]
    rw [foldl_split]
  rw [hrow]
  have hinv2 : ufInv rings.length
      ((List.range j).foldl (pairStep rings i)
        ((List.range i).foldl (rowStep rings) p0)) :=
    (pairFold_pres rings i hi (List.range j)
      (fun x hx => lt_trans (List.mem_range.1 hx) hj) _ hinv1).1
  have hmerge := pairStep_merges rings i j _ hi hj hij hcrit hinv2
  have hinv3 := (pairStep_pres rings i j _ hi hj hinv2).1
  have hrest1 := pairFold_pres rings i hi ((List.range rings.length).drop (j + 1))
    (fun x hx => List.mem_range.1 (List.mem_of_mem_drop hx)) _ hinv3
  have hrest2 := rowFold_pres rings ((List.range rings.length).drop (i + 1))
    (fun x hx => List.mem_range.1 (List.mem_of_mem_drop hx)) _ hrest1.1
  exact hrest2.2 i j (hrest1.2 i j hmerge)

theorem bgStep_spec (rings : List Ring) (pstar : ℕ → ℕ)
    (st : (ℕ → ℕ) × List (ℕ × List Ring)) (idx : ℕ) (hidx : idx < rings.length)
    (hinv : ufInv rings.length st.1)
    (hpres : ∀ y s, Reaches pstar y s → Reaches st.1 y s) :
    (ufInv rings.length (bgStep rings st idx).1 ∧
      (∀ y s, Reaches pstar y s → Reaches (bgStep rings st idx).1 y s)) ∧
    (∀ r, Reaches pstar idx r →
      (bgStep rings st idx).2 =
        mapSet st.2 r (((mapGet st.2 r).getD []) ++ [rings.getD idx default])) := by
  obtain ⟨s, k, hk⟩ := hinv.1 idx
  have hkn : k < rings.length := reachesIn_bound st.1 rings.length k idx s hinv.2
    hidx hk
  obtain ⟨hroot, hfpres, hfdom⟩ :=
    ufFind_spec (rings.length + 1) st.1 idx k s hk (by omega)
  constructor
  · constructor
    · constructor
      · intro y
        obtain ⟨t, ht⟩ := hinv.1 y
        exact ⟨t, hfpres y t ht⟩
      · exact hfdom rings.length hinv.2
    · intro y t ht
      exact hfpres y t (hpres y t ht)
  · intro r hr
    have hsr : s = r := by
      obtain ⟨m, hm⟩ := hpres idx r hr
      exact (reachesIn_unique st.1 k idx s hk m r hm).2
    show mapSet st.2 (ufFind (rings.length + 1) st.1 idx).2 _ = _
    rw [hroot, hsr]

theorem bgFold_inv (rings : List Ring) (pstar : ℕ → ℕ) :
    ∀ (l : List ℕ), (∀ x ∈ l, x < rings.length) →
    ∀ (st : (ℕ → ℕ) × List (ℕ × List Ring)),
    ufInv rings.length st.1 →
    (∀ y s, Reaches pstar y s → Reaches st.1 y s) →
    ufInv rings.length (l.foldl (bgStep rings) st).1 ∧
    (∀ y s, Reaches pstar y s → Reaches (l.foldl (bgStep rings) st).1 y s) ∧
    (∀ r b tgt, mapGet st.2 r = some b → tgt ∈ b →
      ∃ b', mapGet (l.foldl (bgStep rings) st).2 r = some b' ∧ tgt ∈ b') := by
  intro l
  induction l with
  | nil =>
    intro _ st hinv hpres
    exact ⟨hinv, hpres, fun r b tgt hb ht => ⟨b, hb, ht⟩⟩
  | cons idx t ih =>
    intro hb st hinv hpres
    have hstep := bgStep_spec rings pstar st idx (hb idx (List.mem_cons_self _ _))
      hinv hpres
    have ht := ih (fun x hx => hb x (List.mem_cons_of_mem _ hx))
      (bgStep rings st idx) hstep.1.1 hstep.1.2
    refine ⟨ht.1, ht.2.1, ?_⟩
    intro r b tgt hgb htgt
    have hnext : ∃ b1, mapGet (bgStep rings st idx).2 r = some b1 ∧ tgt ∈ b1 := by
      have hmap : (bgStep rings st idx).2 =
          mapSet st.2 (ufFind (rings.length + 1) st.1 idx).2
            (((mapGet st.2 (ufFind (rings.length + 1) st.1 idx).2).getD []) ++
              [rings.getD idx default]) := rfl
      by_cases hc : (ufFind (rings.length + 1) st.1 idx).2 = r
      · rw [hmap, hc, mapGet_mapSet_self]
        refine ⟨_, rfl, ?_⟩
        rw [hgb]
        exact List.mem_append_left _ htgt
      · rw [hmap, mapGet_mapSet_ne _ _ _ _ (fun he => hc he.symm)]
        exact ⟨b, hgb, htgt⟩
    obtain ⟨b1, hb1, ht1⟩ := hnext
    exact ht.2.2 r b1 tgt hb1 ht1

/-- Two indices in the same union-find class land in the same bucket of
`buildGroups`. -/
theorem buildGroups_mem (rings : List Ring) (pstar : ℕ → ℕ)
    (hinv : ufInv rings.length pstar) (i j r : ℕ) (hij : i < j)
    (hj : j < rings.length) (hri : Reaches pstar i r) (hrj : Reaches pstar j r) :
    ∃ b, mapGet (buildGroups rings pstar) r = some b ∧
      rings.getD i default ∈ b ∧ rings.getD j default ∈ b := by
  have hi : i < rings.length := lt_trans hij hj
  unfold buildGroups
  rw [range_split rings.length j hj, range_split j i hij, foldl_split, foldl_split]
  set stA := (List.range i).foldl (bgStep rings) ((pstar : ℕ → ℕ), ([] : List (ℕ × List Ring))) with hstA
  have hAbound : ∀ x ∈ List.range i, x < rings.length :=
    fun x hx => lt_trans (List.mem_range.1 hx) hi
  have hA := bgFold_inv rings pstar (List.range i) hAbound (pstar, [])
    hinv (fun _ _ h => h)
  rw [← hstA] at hA
  have hstepi := bgStep_spec rings pstar stA i hi hA.1 hA.2.1
  have hmapi := hstepi.2 r hri
  set stB := ((List.range j).drop (i + 1)).foldl (bgStep rings) (bgStep rings stA i)
    with hstB
  have hBbound : ∀ x ∈ (List.range j).drop (i + 1), x < rings.length :=
    fun x hx => lt_trans (List.mem_range.1 (List.mem_of_mem_drop hx)) hj
  have hB := bgFold_inv rings pstar ((List.range j).drop (i + 1)) hBbound
    (bgStep rings stA i) hstepi.1.1 hstepi.1.2
  rw [← hstB] at hB
  have hmemI : ∃ b1, mapGet (bgStep rings stA i).2 r = some b1 ∧
      rings.getD i default ∈ b1 := by
    rw [hmapi, mapGet_mapSet_self]
    exact ⟨_, rfl, List.mem_append_right _ (List.mem_singleton.2 rfl)⟩
  obtain ⟨b1, hb1, hmem1⟩ := hmemI
  obtain ⟨b2, hb2, hmem2⟩ := hB.2.2 r b1 (rings.getD i default) hb1 hmem1
  have hstepj := bgStep_spec rings pstar stB j hj hB.1 hB.2.1
  have hmapj := hstepj.2 r hrj
  have hmemJ : ∃ b3, mapGet (bgStep rings stB j).2 r = some b3 ∧
      rings.getD i default ∈ b3 ∧ rings.getD j default ∈ b3 := by
    rw [hmapj, mapGet_mapSet_self]
    refine ⟨_, rfl, ?_, ?_⟩
    · rw [hb2]
      exact List.mem_append_left _ hmem2
    · exact List.mem_append_right _ (List.mem_singleton.2 rfl)
  obtain ⟨b3, hb3, hmem3i, hmem3j⟩ := hmemJ
  have hCbound : ∀ x ∈ (List.range rings.length).drop (j + 1), x < rings.length :=
    fun x hx => List.mem_range.1 (List.mem_of_mem_drop hx)
  have hC := bgFold_inv rings pstar ((List.range rings.length).drop (j + 1)) hCbound
    (bgStep rings stB j) hstepj.1.1 hstepj.1.2
  obtain ⟨b4, hb4, hmem4i⟩ := hC.2.2 r b3 (rings.getD i default) hb3 hmem3i
  obtain ⟨b5, hb5, hmem5j⟩ := hC.2.2 r b3 (rings.getD j default) hb3 hmem3j
  have hbb : b4 = b5 := by
    rw [hb4] at hb5
    exact Option.some.inj hb5
  exact ⟨b4, hb4, hmem4i, hbb ▸ hmem5j⟩

/-- C2 (amended): the post-merge pairwise overlap bound FAILS in general
(see the counterexample); what the merger does guarantee is that any two
input rings related by the merge criterion — identical pattern type and
overlap ratio above 0.5 — are always placed in the same component, hence
merged into one output ring rather than surviving as a pair. -/
theorem c2_criterion_pairs_merged (rings : List Ring) (i j : ℕ) (hij : i < j)
    (hj : j < rings.length)
    (hcrit : mergeCriterion (rings.getD i default) (rings.getD j default)) :
    ∃ kb ∈ ringGroups rings,
      rings.getD i default ∈ kb.2 ∧ rings.getD j default ∈ kb.2 := by
  have hinv0 : ufInv rings.length (fun x => x) :=
    ⟨fun x => ⟨x, 0, rfl, rfl⟩, fun w hw => hw⟩
  have hinvstar : ufInv rings.length (mergePairsLoop rings (fun x => x)) := by
    unfold mergePairsLoop
    exact (rowFold_pres rings (List.range rings.length)
      (fun x hx => List.mem_range.1 hx) _ hinv0).1
  obtain ⟨r, hri, hrj⟩ := mergePairsLoop_merges rings (fun x => x) hinv0 i j hij
    hj hcrit
  obtain ⟨b, hb, hmi, hmj⟩ := buildGroups_mem rings (mergePairsLoop rings
    (fun x => x)) hinvstar i j r hij hj hri hrj
  exact ⟨(r, b), mapGet_mem _ _ _ hb, hmi, hmj⟩

/-- Three `cycle` rings: the first two merge (overlap 2/3), the third
overlaps each of the first two at exactly 1/2 — below the criterion — yet
overlaps their merged union at ratio 1. -/
def c2Rings : List Ring :=
  [{ ring_id := "RING_001", member_accounts := ["a", "b", "c"],
     pattern_type := "cycle", risk_score := 70, cycle_length := some 3,
     chain_length := none, amount_pattern := none, temporal_window_hours := none,
     aggregatorNode := none, disperserNode := none },
   { ring_id := "RING_002", member_accounts := ["a", "b", "d"],
     pattern_type := "cycle", risk_score := 75, cycle_length := some 3,
     chain_length := none, amount_pattern := none, temporal_window_hours := none,
     aggregatorNode := none, disperserNode := none },
   { ring_id := "RING_003", member_accounts := ["c", "d"],
     pattern_type := "cycle", risk_score := 60, cycle_length := some 2,
     chain_length := none, amount_pattern := none, temporal_window_hours := none,
     aggregatorNode := none, disperserNode := none }]

/-- C2 counterexample: the final (post-merge) output contains two distinct
rings of identical pattern type whose member overlap ratio exceeds 0.5. -/
theorem c2_counterexample :
    ∃ r ∈ mergeOverlappingRings c2Rings, ∃ s ∈ mergeOverlappingRings c2Rings,
      r ≠ s ∧ r.pattern_type = s.pattern_type ∧
      (overlapCount r.member_accounts s.member_accounts : ℚ) /
        (min ((jsDedup r.member_accounts).length : ℚ)
             ((jsDedup s.member_accounts).length : ℚ)) > 1/2 := by
  decide

/-- C2 witness: the two criterion-related rings of the counterexample
instance do land in one bucket. -/
theorem c2_witness :
    (0 : ℕ) < 1 ∧ 1 < c2Rings.length ∧
    mergeCriterion (c2Rings.getD 0 default) (c2Rings.getD 1 default) ∧
    ∃ kb ∈ ringGroups c2Rings,
      c2Rings.getD 0 default ∈ kb.2 ∧ c2Rings.getD 1 default ∈ kb.2 :=
  ⟨by decide, by decide, by decide,
   c2_criterion_pairs_merged c2Rings 0 1 (by decide) (by decide) (by decide)⟩

end Forensiq
